import Mathlib

/-!
Entis lossless image decoder: block transform and frame assembly.

A shallow embedding of `src/fmt/entis/image/lossless.cc`.

* Byte buffers (`bstr`, `u8 *`) are lists of naturals; every byte store reduces
  modulo 256 where the source relies on `u8` wrap-around.  A pointer into a
  buffer is an index; `*p++ = v` stores at the index and advances it.
* `util::range(n)` loops are folds over `List.range n`.
* `size_t` geometry (`block_size`, `block_samples`, ...) and the header's integer
  fields are kept in `Nat`, with exact arithmetic, in `make_ctx` and `initial_state`.
  The code shifts `1 << blocking_degree` in a 32-bit `int` and multiplies in `size_t`;
  `make_ctx_machine` and `initial_state_machine` follow it bit for bit.  The two agree
  for `blocking_degree <= 30` while no sum or product reaches `2 ^ 64`
  (`make_ctx_machine_eq`, `initial_state_machine_eq`); outside that range the code
  overflows (`make_ctx_machine_overflow`, `canvas_overflow_out_of_range`).
* A C++ `throw` is an `Except.error`; the value thrown records whether the
  exception object itself or a pointer to it (`throw new`) is thrown.
* The entropy front-end (`common::Decoder`, its bit reader and the Huffman
  decoder) lives outside this file.  It is taken as a parameter: a state type
  with the operations the decoder calls on it, each of which returns (an
  exception raised inside the front-end is outside the model).
* Reads and writes of the model are total (`List.getD`, `List.set`).  A second
  embedding of `transform`, the frame assembly and `crop` checks every index
  (`rd`, `wr`, `rd_slice`, `wr_slice`) and yields `none` on an access out of range;
  it is proved to agree with the first.
-/

namespace Entis

/-! ## Data model -/

/-- Byte buffer: the contents of a `bstr` or of the memory behind a `u8 *`. -/
abbrev Bytes := List Nat

/-- Modelled from the spec: `bstr(n)`, the byte-string constructor declared outside this
file, yields `n` zero bytes (the zero-initialised canvas, row state and column state). -/
def bstr (n : Nat) : Bytes := List.replicate n 0

/-- The struct `DecodeContext` of the source. -/
structure DecodeContext where
  eri_version : Nat
  op_table : Nat
  encode_type : Nat
  bit_count : Nat
  block_size : Nat
  block_area : Nat
  block_samples : Nat
  channel_count : Nat
  block_stride : Nat
  width_blocks : Nat
  height_blocks : Nat
  deriving DecidableEq, Repr

/-- Modelled from the spec: the entropy-architecture selector, whose recognized values
are `RunLengthGamma` and `RunLengthHuffman`; any other value is unsupported. -/
inductive Architecture where
  | RunLengthGamma
  | RunLengthHuffman
  | Other (tag : Nat)
  deriving DecidableEq, Repr

/-- The constants of `EriImage` used by the decoder (base type tags, type mask and
alpha flag).  Their numeric values are declared outside this file, so they are
parameters of the model. -/
structure EriImage where
  Rgb : Nat
  Gray : Nat
  TypeMask : Nat
  WithAlpha : Nat
  deriving DecidableEq, Repr

/-- The fields of `EriHeader` read by the decoder. -/
structure EriHeader where
  format_type : Nat
  architecture : Architecture
  width : Nat
  height : Nat
  bit_depth : Nat
  blocking_degree : Nat
  deriving DecidableEq, Repr

/-- The exception classes raised in this file (`err::...Error`), plus `std::bad_cast`
raised by a failing `dynamic_cast` to a reference. -/
inductive Err where
  | CorruptDataError (msg : String)
  | UnsupportedBitDepthError (bit_count : Nat)
  | UnsupportedVersionError (version : Nat)
  | NotSupportedError (msg : String)
  | bad_cast
  deriving DecidableEq, Repr

/-- What a `throw` expression throws: `throw E(..)` throws the exception object,
`throw new E(..)` throws a pointer to a heap-allocated one. -/
inductive Thrown where
  | object (e : Err)
  | pointer (e : Err)
  deriving DecidableEq, Repr

/-- The entropy front-end `common::Decoder`, with state `σ`, and the Huffman tree type `τ`.
`get n` is `bit_reader->get(n)`, `decode n` is `decode(buf, n)` (the bytes it stores),
`huffman` is `get_huffman_code` of a `HuffmanDecoder` (absent when the decoder object is
not a `HuffmanDecoder`, in which case the `dynamic_cast` throws), `tree` is the
default-constructed `HuffmanTree`. -/
structure Decoder (σ τ : Type) where
  get : Nat → σ → Nat × σ
  reset : σ → σ
  decode : Nat → σ → List Nat × σ
  huffman : Option (τ → σ → Nat × τ × σ)
  tree : τ

/-- The contents of a `u8` buffer of `n` bytes after the front-end stored `r` into it. -/
def store_bytes (n : Nat) (r : List Nat) : Bytes :=
  (List.range n).map (fun i => r.getD i 0 % 256)

/-- A loop whose body may throw: runs `body` over the list, stopping at the first error. -/
def for_list {ε α β : Type} (body : α → β → Except ε α) : List β → α → Except ε α
  | [], a => .ok a
  | b :: bs, a =>
    match body a b with
    | .error e => .error e
    | .ok a1 => for_list body bs a1

/-! ## Permutation table -/

/-- The statement `*permutation_ptr++ = v` on the pair (vector, pointer). -/
def push (st : List Nat × Nat) (v : Nat) : List Nat × Nat :=
  (st.1.set st.2 v, st.2 + 1)

/-- The function `init_permutation`. -/
def init_permutation (ctx : DecodeContext) : List Nat :=
  let permutation : List Nat := List.replicate (ctx.block_samples * 4) 0
  let st : List Nat × Nat := (permutation, 0)
  let st := (List.range ctx.channel_count).foldl (fun st c =>
    (List.range ctx.block_size).foldl (fun st y =>
      (List.range ctx.block_size).foldl (fun st x =>
        push st (c * ctx.block_area + y * ctx.block_size + x)) st) st) st
  let st := (List.range ctx.channel_count).foldl (fun st c =>
    (List.range ctx.block_size).foldl (fun st y =>
      (List.range ctx.block_size).foldl (fun st x =>
        push st (c * ctx.block_area + y + x * ctx.block_size)) st) st) st
  let st := (List.range ctx.block_size).foldl (fun st y =>
    (List.range ctx.block_size).foldl (fun st x =>
      (List.range ctx.channel_count).foldl (fun st c =>
        push st (c * ctx.block_area + y * ctx.block_size + x)) st) st) st
  let st := (List.range ctx.block_size).foldl (fun st y =>
    (List.range ctx.block_size).foldl (fun st x =>
      (List.range ctx.channel_count).foldl (fun st c =>
        push st (c * ctx.block_area + y + x * ctx.block_size)) st) st) st
  st.1

/-- Segment `k` (0-based) of a permutation table: `block_samples` entries from offset
`k * block_samples`. -/
def segment (ctx : DecodeContext) (permutation : List Nat) (k : Nat) : List Nat :=
  (permutation.drop (k * ctx.block_samples)).take ctx.block_samples

/-! ## Channel count -/

/-- The function `get_channel_count`. -/
def get_channel_count (K : EriImage) (header : EriHeader) : Except Thrown Nat :=
  if header.format_type &&& K.TypeMask = K.Rgb then
    if header.bit_depth ≤ 8 then .ok 1
    else if header.format_type &&& K.WithAlpha ≠ 0 then .ok 4
    else .ok 3
  else if header.format_type &&& K.TypeMask = K.Gray then .ok 1
  else .error (.object (.CorruptDataError "Unknown pixel format"))

/-! ## Colour predictors -/

/-- The loop shared by the single-target colour operators: for `i` in `0 .. block_area`,
`decode_buf[i + dst] += decode_buf[i + src]`. -/
def color_add1 (context : DecodeContext) (src dst : Nat) (decode_buf : Bytes) : Bytes :=
  (List.range context.block_area).foldl (fun buf i =>
    let base := buf.getD (i + src) 0
    buf.set (i + dst) ((buf.getD (i + dst) 0 + base) % 256)) decode_buf

/-- The loop shared by the dual-target colour operators: for `i` in `0 .. block_area`,
read `base = decode_buf[i + src]`, then add it to `decode_buf[i + dst1]` and to
`decode_buf[i + dst2]`. -/
def color_add2 (context : DecodeContext) (src dst1 dst2 : Nat) (decode_buf : Bytes) : Bytes :=
  (List.range context.block_area).foldl (fun buf i =>
    let base := buf.getD (i + src) 0
    let buf := buf.set (i + dst1) ((buf.getD (i + dst1) 0 + base) % 256)
    buf.set (i + dst2) ((buf.getD (i + dst2) 0 + base) % 256)) decode_buf

/-- The function `color_op_0000`. -/
def color_op_0000 (decode_buf : Bytes) (_context : DecodeContext) : Bytes := decode_buf

/-- The function `color_op_0101`. -/
def color_op_0101 (decode_buf : Bytes) (context : DecodeContext) : Bytes :=
  color_add1 context 0 context.block_area decode_buf

/-- The function `color_op_0110`. -/
def color_op_0110 (decode_buf : Bytes) (context : DecodeContext) : Bytes :=
  color_add1 context 0 (context.block_area * 2) decode_buf

/-- The function `color_op_0111`. -/
def color_op_0111 (decode_buf : Bytes) (context : DecodeContext) : Bytes :=
  color_add2 context 0 context.block_area (context.block_area * 2) decode_buf

/-- The function `color_op_1001`. -/
def color_op_1001 (decode_buf : Bytes) (context : DecodeContext) : Bytes :=
  color_add1 context context.block_area 0 decode_buf

/-- The function `color_op_1010`. -/
def color_op_1010 (decode_buf : Bytes) (context : DecodeContext) : Bytes :=
  color_add1 context context.block_area (context.block_area * 2) decode_buf

/-- The function `color_op_1011`. -/
def color_op_1011 (decode_buf : Bytes) (context : DecodeContext) : Bytes :=
  color_add2 context context.block_area 0 (context.block_area * 2) decode_buf

/-- The function `color_op_1101`. -/
def color_op_1101 (decode_buf : Bytes) (context : DecodeContext) : Bytes :=
  color_add1 context (context.block_area * 2) 0 decode_buf

/-- The function `color_op_1110`. -/
def color_op_1110 (decode_buf : Bytes) (context : DecodeContext) : Bytes :=
  color_add1 context (context.block_area * 2) context.block_area decode_buf

/-- The function `color_op_1111`. -/
def color_op_1111 (decode_buf : Bytes) (context : DecodeContext) : Bytes :=
  color_add2 context (context.block_area * 2) 0 context.block_area decode_buf

/-- The table `color_ops`. -/
def color_ops : List (Bytes → DecodeContext → Bytes) :=
  [ color_op_0000, color_op_0000, color_op_0000, color_op_0000,
    color_op_0000, color_op_0101, color_op_0110, color_op_0111,
    color_op_0000, color_op_1001, color_op_1010, color_op_1011,
    color_op_0000, color_op_1101, color_op_1110, color_op_1111 ]

/-! ## Block transform -/

/-- Step 2 of `transform`: the scatter loop
`block_out[permutation[perm_offset * block_samples + i]] = arrange_buf[i]`. -/
def transform_scatter (ctx : DecodeContext) (permutation : List Nat) (perm_offset : Nat)
    (arrange_buf block_out : Bytes) : Bytes :=
  (List.range ctx.block_samples).foldl (fun bo i =>
    bo.set (permutation.getD (perm_offset * ctx.block_samples + i) 0) (arrange_buf.getD i 0))
    block_out

/-- State of the horizontal loops: `block_out`, the index `block_out_ptr`, the column-state
buffer and the index `next_block_col_ptr` into it. -/
structure HState where
  block_out : Bytes
  block_out_ptr : Nat
  prev_col : Bytes
  next_block_col_ptr : Nat
  deriving DecidableEq, Repr

/-- The inner loop of the accumulate branch, on (`block_out`, `block_out_ptr`,
`last_value`): `last_value += *block_out_ptr; *block_out_ptr++ = last_value`. -/
def accumulate_row (ctx : DecodeContext) (t : Bytes × Nat × Nat) : Bytes × Nat × Nat :=
  (List.range ctx.block_size).foldl (fun (t : Bytes × Nat × Nat) _j =>
    let last_value := (t.2.2 + t.1.getD t.2.1 0) % 256
    (t.1.set t.2.1 last_value, t.2.1 + 1, last_value)) t

/-- Step 5 of `transform`, branch `diff_mode & 0x01`: running sum along each logical row,
seeded from and stored back to the column state. -/
def transform_horizontal_accumulate (ctx : DecodeContext) (block_out prev_col : Bytes)
    (prev_block_col : Nat) : HState :=
  (List.range ctx.block_stride).foldl (fun st _i =>
    let last_value := st.prev_col.getD st.next_block_col_ptr 0
    let inner := accumulate_row ctx (st.block_out, st.block_out_ptr, last_value)
    { block_out := inner.1
      block_out_ptr := inner.2.1
      prev_col := st.prev_col.set st.next_block_col_ptr inner.2.2
      next_block_col_ptr := st.next_block_col_ptr + 1 })
    { block_out := block_out, block_out_ptr := 0, prev_col := prev_col,
      next_block_col_ptr := prev_block_col }

/-- Step 5 of `transform`, else branch: `block_out` is only read; the last sample of each
logical row is stored to the column state. -/
def transform_horizontal_store (ctx : DecodeContext) (block_out prev_col : Bytes)
    (prev_block_col : Nat) : HState :=
  (List.range ctx.block_stride).foldl (fun st _i =>
    { block_out := st.block_out
      block_out_ptr := st.block_out_ptr + ctx.block_size
      prev_col := st.prev_col.set st.next_block_col_ptr
        (st.block_out.getD (st.block_out_ptr + (ctx.block_size - 1)) 0)
      next_block_col_ptr := st.next_block_col_ptr + 1 })
    { block_out := block_out, block_out_ptr := 0, prev_col := prev_col,
      next_block_col_ptr := prev_block_col }

/-- The pointer `prev_block_row_ptr` of the vertical pass: it starts inside the row-state
buffer and is then re-aimed at lines of `block_out`. -/
inductive RowPtr where
  | row (i : Nat)
  | out (i : Nat)
  deriving DecidableEq, Repr

/-- The value `ptr + 1`. -/
def RowPtr.next : RowPtr → RowPtr
  | .row i => .row (i + 1)
  | .out i => .out (i + 1)

/-- The value `*ptr`, given the current contents of the two buffers. -/
def RowPtr.read (block_out prev_row : Bytes) : RowPtr → Nat
  | .row i => prev_row.getD i 0
  | .out i => block_out.getD i 0

/-- State of the vertical pass: `block_out`, the index `block_out_ptr`, the row-state
buffer, the index `prev_block_row_base` into it, and `prev_block_row_ptr`. -/
structure VState where
  block_out : Bytes
  block_out_ptr : Nat
  prev_row : Bytes
  prev_block_row_base : Nat
  prev_block_row_ptr : RowPtr
  deriving DecidableEq, Repr

/-- The innermost loop of the vertical pass: `*block_out_ptr++ += *prev_block_row_ptr++`,
`block_size` times. -/
def vertical_add_line (ctx : DecodeContext) (st : VState) : VState :=
  (List.range ctx.block_size).foldl (fun (st : VState) _j =>
    { block_out := st.block_out.set st.block_out_ptr
        ((st.block_out.getD st.block_out_ptr 0
          + st.prev_block_row_ptr.read st.block_out st.prev_row) % 256)
      block_out_ptr := st.block_out_ptr + 1
      prev_row := st.prev_row
      prev_block_row_base := st.prev_block_row_base
      prev_block_row_ptr := st.prev_block_row_ptr.next }) st

/-- The loop over the `block_size` lines of one channel plane: add the line the pointer
aims at into the current line, then aim the pointer at the line just completed. -/
def vertical_add_plane (ctx : DecodeContext) (st : VState) : VState :=
  (List.range ctx.block_size).foldl (fun (st : VState) _i =>
    let ptrCurrentLine := st.block_out_ptr
    let st1 := vertical_add_line ctx st
    { block_out := st1.block_out
      block_out_ptr := st1.block_out_ptr
      prev_row := st1.prev_row
      prev_block_row_base := st1.prev_block_row_base
      prev_block_row_ptr := RowPtr.out ptrCurrentLine }) st

/-- The last loop of a channel's iteration: `*prev_block_row_base++ = *prev_block_row_ptr++`,
`block_size` times. -/
def vertical_store_row (ctx : DecodeContext) (st : VState) : VState :=
  (List.range ctx.block_size).foldl (fun (st : VState) _j =>
    { block_out := st.block_out
      block_out_ptr := st.block_out_ptr
      prev_row := st.prev_row.set st.prev_block_row_base
        (st.prev_block_row_ptr.read st.block_out st.prev_row)
      prev_block_row_base := st.prev_block_row_base + 1
      prev_block_row_ptr := st.prev_block_row_ptr.next }) st

/-- Step 6 of `transform`: the vertical pass over every channel plane. -/
def transform_vertical (ctx : DecodeContext) (block_out prev_row : Bytes)
    (prev_block_row : Nat) : VState :=
  (List.range ctx.channel_count).foldl (fun (st : VState) _k =>
    vertical_store_row ctx (vertical_add_plane ctx
      { block_out := st.block_out
        block_out_ptr := st.block_out_ptr
        prev_row := st.prev_row
        prev_block_row_base := st.prev_block_row_base
        prev_block_row_ptr := RowPtr.row st.prev_block_row_base }))
    { block_out := block_out, block_out_ptr := 0, prev_row := prev_row,
      prev_block_row_base := prev_block_row,
      prev_block_row_ptr := RowPtr.row prev_block_row }

/-- The buffers `transform` works on: `block_out` and the two state buffers
(`prev_block_row` and `prev_block_col` point into the latter two). -/
structure Buffers where
  block_out : Bytes
  prev_row : Bytes
  prev_col : Bytes
  deriving DecidableEq, Repr

/-- The function `transform`.  `prev_block_row` and `prev_block_col` are the offsets of the
block's slices inside `prev_row` and `prev_col`. -/
def transform (transformer_code : Nat) (ctx : DecodeContext) (permutation : List Nat)
    (arrange_buf : Bytes) (prev_block_row prev_block_col : Nat) (b : Buffers) : Buffers :=
  let diff_mode := (transformer_code &&& 0xC0) >>> 6
  let perm_offset := (transformer_code &&& 0x30) >>> 4
  let color_op := transformer_code &&& 0x0F
  let block_out := transform_scatter ctx permutation perm_offset arrange_buf b.block_out
  if transformer_code = 0 then
    { b with block_out := block_out }
  else
    let block_out := (color_ops.getD color_op color_op_0000) block_out ctx
    let h :=
      if diff_mode &&& 0x01 ≠ 0 then
        transform_horizontal_accumulate ctx block_out b.prev_col prev_block_col
      else
        transform_horizontal_store ctx block_out b.prev_col prev_block_col
    let v := transform_vertical ctx h.block_out b.prev_row prev_block_row
    { block_out := v.block_out, prev_row := v.prev_row, prev_col := h.prev_col }

/-! ## Transformer codes -/

/-- The front-end state threaded through the decoder: the decoder object, the Huffman
tree and the index `transformer_codes_ptr`. -/
structure Front (σ τ : Type) where
  dec : σ
  tree : τ
  codes_ptr : Nat

/-- The function `get_transformer_code`.  An error carries the decoder state at the throw. -/
def get_transformer_code {σ τ : Type} (D : Decoder σ τ) (K : EriImage) (header : EriHeader)
    (ctx : DecodeContext) (transformer_codes : List Nat) (f : Front σ τ) :
    Except (Thrown × σ) (Nat × Front σ τ) :=
  if ctx.channel_count < 3 then
    let f :=
      if ctx.encode_type &&& 0x01 = 0 ∧ header.architecture = Architecture.RunLengthGamma then
        { f with dec := D.reset f.dec }
      else f
    if header.format_type = K.Gray then .ok (0xC0, f) else .ok (0x00, f)
  else if ctx.encode_type &&& 1 ≠ 0 then
    .ok (transformer_codes.getD f.codes_ptr 0, { f with codes_ptr := f.codes_ptr + 1 })
  else if header.architecture = Architecture.RunLengthHuffman then
    match D.huffman with
    | none => .error (.object .bad_cast, f.dec)
    | some get_huffman_code =>
      let r := get_huffman_code f.tree f.dec
      .ok (r.1 % 256, { f with tree := r.2.1, dec := r.2.2 })
  else if header.architecture = Architecture.RunLengthGamma then
    let r := D.get 4 f.dec
    let transformer_code := 0xC0 ||| r.1
    .ok (transformer_code % 256, { f with dec := D.reset r.2 })
  else
    .error (.object (.NotSupportedError "Architecture not supported"), f.dec)

/-- The loop of `prefetch_transformer_codes`, with `n` iterations left. -/
def prefetch_loop {σ τ : Type} (D : Decoder σ τ) (header : EriHeader) :
    Nat → List Nat → σ → τ → Except (Thrown × σ) (List Nat × σ × τ)
  | 0, transformer_codes, s, t => .ok (transformer_codes, s, t)
  | n + 1, transformer_codes, s, t =>
    if header.architecture = Architecture.RunLengthGamma then
      let r := D.get 4 s
      prefetch_loop D header n (transformer_codes ++ [(0xC0 ||| r.1) % 256]) r.2 t
    else if header.architecture = Architecture.RunLengthHuffman then
      match D.huffman with
      | none => .error (.object .bad_cast, s)
      | some get_huffman_code =>
        let r := get_huffman_code t s
        prefetch_loop D header n (transformer_codes ++ [r.1 % 256]) r.2.2 r.2.1
    else
      .error (.object (.NotSupportedError "Architecture not supported"), s)

/-- The function `prefetch_transformer_codes`. -/
def prefetch_transformer_codes {σ τ : Type} (D : Decoder σ τ) (ctx : DecodeContext)
    (header : EriHeader) (s : σ) (t : τ) : Except (Thrown × σ) (List Nat × σ × τ) :=
  if ctx.encode_type &&& 0x01 = 0 ∨ ctx.channel_count < 3 then
    .ok ([], s, t)
  else
    prefetch_loop D header (ctx.width_blocks * ctx.height_blocks) [] s t

/-! ## Validation -/

/-- The function `validate_ctx`. -/
def validate_ctx (ctx : DecodeContext) (header : EriHeader) : Except Thrown Unit :=
  if ctx.op_table ≠ 0 ∨ ctx.encode_type &&& 0xFE ≠ 0 then
    .error (.object (.CorruptDataError "Unexpected meta data"))
  else
    let versionCheck : Except Thrown Unit :=
      if ctx.eri_version = 1 then
        if ctx.bit_count ≠ 0 then
          .error (.pointer (.UnsupportedBitDepthError ctx.bit_count))
        else .ok ()
      else if ctx.eri_version = 8 then
        if ctx.bit_count ≠ 8 then
          .error (.pointer (.UnsupportedBitDepthError ctx.bit_count))
        else .ok ()
      else if ctx.eri_version = 16 then
        if ctx.bit_count ≠ 8 ∨ ctx.encode_type ≠ 0 then
          .error (.pointer (.UnsupportedBitDepthError ctx.bit_count))
        else .ok ()
      else
        .error (.object (.UnsupportedVersionError ctx.eri_version))
    match versionCheck with
    | .error e => .error e
    | .ok () =>
      if header.blocking_degree = 0 then
        .error (.object (.CorruptDataError "Blocking degree not set"))
      else .ok ()

/-! ## Cropping and frame assembly -/

/-- The function `crop`. -/
def crop (input : Bytes) (ctx : DecodeContext) (header : EriHeader) : Bytes :=
  let output := bstr (header.width * header.height * ctx.channel_count)
  (List.range header.height).foldl (fun output y =>
    let output_ptr := y * header.width * ctx.channel_count
    let input_ptr := y * ctx.width_blocks * ctx.block_stride
    ((List.range (header.width * ctx.channel_count)).foldl
      (fun (st : Bytes × Nat × Nat) _x =>
        (st.1.set st.2.1 (input.getD st.2.2 0), st.2.1 + 1, st.2.2 + 1))
      (output, output_ptr, input_ptr)).1) output

/-- The frame-assembly loop at the end of the block loop body: scatters the channel-planar
`block_out` of block `(x, y)` into the channel-interleaved canvas `output`. -/
def assemble (ctx : DecodeContext) (y x : Nat) (block_out output : Bytes) : Bytes :=
  ((List.range ctx.channel_count).foldl (fun st c =>
    (List.range ctx.block_size).foldl (fun st yy =>
      (List.range ctx.block_size).foldl (fun (st : Bytes × Nat) xx =>
        let sum_y := y * ctx.block_size + yy
        let sum_x := x * ctx.block_size + xx
        let pos := sum_y * ctx.width_blocks * ctx.block_size + sum_x
        (st.1.set (pos * ctx.channel_count + c) (block_out.getD st.2 0), st.2 + 1)) st) st)
    (output, 0)).1

/-! ## The decoder -/

/-- The mutable locals of the block loop of `decode_lossless_pixel_data`. -/
structure LoopState (σ τ : Type) where
  front : Front σ τ
  output : Bytes
  arrange_buf : Bytes
  buffers : Buffers

/-- The body of the inner block loop, for block-row `y` and block-column `x`. -/
def decode_block {σ τ : Type} (D : Decoder σ τ) (K : EriImage) (header : EriHeader)
    (ctx : DecodeContext) (permutation transformer_codes : List Nat) (y : Nat)
    (st : LoopState σ τ) (x : Nat) : Except (Thrown × σ) (LoopState σ τ) :=
  match get_transformer_code D K header ctx transformer_codes st.front with
  | .error e => .error e
  | .ok (transformer_code, front) =>
    let r := D.decode st.arrange_buf.length front.dec
    let arrange_buf := store_bytes st.arrange_buf.length r.1
    let front := { front with dec := r.2 }
    let buffers := transform transformer_code ctx permutation arrange_buf
      (x * ctx.block_stride) (y * ctx.block_stride) st.buffers
    .ok { front := front
          output := assemble ctx y x buffers.block_out st.output
          arrange_buf := arrange_buf
          buffers := buffers }

/-- The body of the outer block loop: one block-row. -/
def decode_block_row {σ τ : Type} (D : Decoder σ τ) (K : EriImage) (header : EriHeader)
    (ctx : DecodeContext) (permutation transformer_codes : List Nat)
    (st : LoopState σ τ) (y : Nat) : Except (Thrown × σ) (LoopState σ τ) :=
  for_list (decode_block D K header ctx permutation transformer_codes y)
    (List.range ctx.width_blocks) st

/-- The four header-adjacent fields read first, each stored into a `u8`, and the decoder
state after the reads. -/
def read_fields {σ τ : Type} (D : Decoder σ τ) (s : σ) : (Nat × Nat × Nat × Nat) × σ :=
  let r1 := D.get 8 s
  let r2 := D.get 8 r1.2
  let r3 := D.get 8 r2.2
  let r4 := D.get 8 r3.2
  ((r1.1 % 256, r2.1 % 256, r3.1 % 256, r4.1 % 256), r4.2)

/-- The context built at the start of `decode_lossless_pixel_data` from the four fields,
the channel count and the header geometry, in exact arithmetic: `block_size` is
`2 ^ blocking_degree` and no sum or product wraps.  The code's own arithmetic (32-bit shift,
`size_t` products) is `make_ctx_machine`; it gives this context for `blocking_degree <= 30`
and dimensions below `2 ^ 64 - block_size`. -/
def make_ctx (header : EriHeader) (fields : Nat × Nat × Nat × Nat) (channel_count : Nat) :
    DecodeContext :=
  let block_size := 1 <<< header.blocking_degree
  let block_area := block_size * block_size
  { eri_version := fields.1
    op_table := fields.2.1
    encode_type := fields.2.2.1
    bit_count := fields.2.2.2
    channel_count := channel_count
    block_size := block_size
    block_area := block_area
    block_samples := block_area * channel_count
    block_stride := block_size * channel_count
    width_blocks := (header.width + block_size - 1) / block_size
    height_blocks := (header.height + block_size - 1) / block_size }

/-- The locals of the block loop as they are when the loop starts, each buffer with the
exact size of its product.  The code's `size_t` products are `initial_state_machine`; they
give these buffers while each product is below `2 ^ 64`. -/
def initial_state {σ τ : Type} (ctx : DecodeContext) (s : σ) (t : τ) : LoopState σ τ :=
  { front := { dec := s, tree := t, codes_ptr := 0 }
    output := bstr (ctx.width_blocks * ctx.height_blocks * ctx.block_samples)
    arrange_buf := bstr ctx.block_samples
    buffers :=
      { block_out := bstr ctx.block_samples
        prev_col := bstr (ctx.height_blocks * ctx.block_stride)
        prev_row := bstr (ctx.width_blocks * ctx.block_stride) } }

/-- The stream-synchronization step: the one-bit read, then the architecture dispatch.
Returns the decoder state the block loop starts from. -/
def synchronize {σ τ : Type} (D : Decoder σ τ) (header : EriHeader) (ctx : DecodeContext)
    (s : σ) : Except (Thrown × σ) σ :=
  let r := D.get 1 s
  if r.1 ≠ 0 then
    .error (.object (.CorruptDataError "Expected 0 bit"), r.2)
  else if header.architecture = Architecture.RunLengthGamma then
    if ctx.encode_type &&& 0x01 ≠ 0 then .ok (D.reset r.2) else .ok r.2
  else if header.architecture = Architecture.RunLengthHuffman then
    .ok (D.reset r.2)
  else
    .error (.object (.NotSupportedError "Architecture not supported"), r.2)

/-- What `decode_lossless_pixel_data` has established when the block loop starts: the
context, the permutation table, the prefetched transformer codes and the initial values
of the loop's locals. -/
structure Setup (σ τ : Type) where
  ctx : DecodeContext
  permutation : List Nat
  transformer_codes : List Nat
  init : LoopState σ τ

/-- The part of `image::decode_lossless_pixel_data` before the block loop: field reads,
channel count, geometry, validation, permutation table, prefetch, synchronization and
buffer allocation.  An error carries the decoder state at the throw. -/
def decode_setup {σ τ : Type} (D : Decoder σ τ) (K : EriImage)
    (header : EriHeader) (s : σ) : Except (Thrown × σ) (Setup σ τ) :=
  let fields := read_fields D s
  match get_channel_count K header with
  | .error e => .error (e, fields.2)
  | .ok channel_count =>
    let ctx := make_ctx header fields.1 channel_count
    match validate_ctx ctx header with
    | .error e => .error (e, fields.2)
    | .ok () =>
      let permutation := init_permutation ctx
      match prefetch_transformer_codes D ctx header fields.2 D.tree with
      | .error e => .error e
      | .ok (transformer_codes, s1, t1) =>
        match synchronize D header ctx s1 with
        | .error e => .error e
        | .ok s2 =>
          .ok { ctx := ctx, permutation := permutation,
                transformer_codes := transformer_codes,
                init := initial_state ctx s2 t1 }

/-- The function `image::decode_lossless_pixel_data`: the setup, the block loop, the crop.
The result is the returned buffer and the final decoder state, or the thrown value and the
decoder state at the throw. -/
def decode_lossless_pixel_data {σ τ : Type} (D : Decoder σ τ) (K : EriImage)
    (header : EriHeader) (s : σ) : Except (Thrown × σ) (Bytes × σ) :=
  match decode_setup D K header s with
  | .error e => .error e
  | .ok su =>
    match for_list (decode_block_row D K header su.ctx su.permutation su.transformer_codes)
        (List.range su.ctx.height_blocks) su.init with
    | .error e => .error e
    | .ok st => .ok (crop st.output su.ctx header, st.front.dec)

/-- The locals of the block loop right after the block at block-row `y` and block-column
`x` has been processed (every earlier block-row, and the blocks to its left, being done),
provided the decode gets that far. -/
def state_after_block {σ τ : Type} (D : Decoder σ τ) (K : EriImage)
    (header : EriHeader) (s : σ) (y x : Nat) : Option (LoopState σ τ) :=
  match decode_setup D K header s with
  | .error _ => none
  | .ok su =>
    match for_list (decode_block_row D K header su.ctx su.permutation su.transformer_codes)
        (List.range y) su.init with
    | .error _ => none
    | .ok st =>
      match for_list (decode_block D K header su.ctx su.permutation su.transformer_codes y)
          (List.range (x + 1)) st with
      | .error _ => none
      | .ok st1 => some st1

/-! ## Auxiliary definitions -/

/-- The values a three-deep loop nest produces, in the order it produces them. -/
def nest3 (n1 n2 n3 : Nat) (f : Nat → Nat → Nat → Nat) : List Nat :=
  (List.range n1).flatMap (fun i =>
    (List.range n2).flatMap (fun j => (List.range n3).map (fun k => f i j k)))

/-- A call made on the entropy front-end. -/
inductive Call where
  | get (n : Nat)
  | reset
  | decode (n : Nat)
  | huffman
  deriving DecidableEq, Repr

/-- State of a scripted front-end: the answers it will give, and the calls made so far. -/
structure Script where
  bits : List Nat
  blocks : List (List Nat)
  codes : List Nat
  log : List Call
  deriving DecidableEq, Repr

/-- A scripted front-end: every call is logged and answered from the script.  It is a
`HuffmanDecoder` when `huff` is set. -/
def scripted (huff : Bool) : Decoder Script Unit :=
  { get := fun n s =>
      (s.bits.headD 0, { s with bits := s.bits.tail, log := s.log ++ [Call.get n] })
    reset := fun s => { s with log := s.log ++ [Call.reset] }
    decode := fun n s =>
      (s.blocks.headD [], { s with blocks := s.blocks.tail, log := s.log ++ [Call.decode n] })
    huffman :=
      if huff then
        some (fun t s =>
          (s.codes.headD 0, t, { s with codes := s.codes.tail, log := s.log ++ [Call.huffman] }))
      else none
    tree := () }

/-- A script with the given bit-read answers and decoded blocks, and an empty log. -/
def script (bits : List Nat) (blocks : List (List Nat)) : Script :=
  { bits := bits, blocks := blocks, codes := [], log := [] }

/-- Sample values for the `EriImage` constants. -/
def sampleImage : EriImage :=
  { Rgb := 1, Gray := 2, TypeMask := 0xFFFF, WithAlpha := 0x4000000 }

/-- A 3 x 2 grayscale header with `blocking_degree = 1` and the given architecture. -/
def grayHeader (a : Architecture) : EriHeader :=
  { format_type := 2, architecture := a, width := 3, height := 2, bit_depth := 8,
    blocking_degree := 1 }

/-- A 3 x 2 RGB header (24 bits) with `blocking_degree = 1` and the given architecture. -/
def rgbHeader (a : Architecture) : EriHeader :=
  { format_type := 1, architecture := a, width := 3, height := 2, bit_depth := 24,
    blocking_degree := 1 }

/-- The context of a version-8 stream (`bit_count = 8`, `op_table = 0`, `encode_type = 0`)
for the 3 x 2 RGB header: block size 2, three channels. -/
def rgbCtx : DecodeContext :=
  make_ctx (rgbHeader Architecture.RunLengthGamma) (8, 0, 0, 8) 3

/-- A list of buffer writes (index, value) applied in order. -/
def apply_writes (buf : Bytes) (ws : List (Nat × Nat)) : Bytes :=
  ws.foldl (fun o w => o.set w.1 w.2) buf

/-- The final front-end state of the sample grayscale decode with the gamma architecture:
both answers lists consumed, and the calls made. -/
def grayFinal : Script :=
  { bits := [], blocks := [], codes := [],
    log := [Call.get 8, Call.get 8, Call.get 8, Call.get 8, Call.get 1,
      Call.reset, Call.decode 4, Call.reset, Call.decode 4] }

/-- The context of the end-to-end grayscale scenario: version 8, `bit_count = 8`,
`op_table = 0`, `encode_type = 0`, one channel, `blocking_degree = 1`, width 3, height 2. -/
def grayCtx : DecodeContext :=
  { eri_version := 8, op_table := 0, encode_type := 0, bit_count := 8
    block_size := 2, block_area := 4, block_samples := 4, channel_count := 1
    block_stride := 2, width_blocks := 2, height_blocks := 1 }

/-- The canvas offset of channel `c` of the pixel at row `Y`, column `X`: the canvas is
`width_blocks * block_size` pixels wide and channel-interleaved. -/
def canvas_index (ctx : DecodeContext) (Y X c : Nat) : Nat :=
  (Y * (ctx.width_blocks * ctx.block_size) + X) * ctx.channel_count + c

/-- A grayscale-family header whose `format_type` also carries the alpha flag (a bit
outside the type mask): 3 x 2, `blocking_degree = 1`. -/
def grayAlphaHeader (a : Architecture) : EriHeader :=
  { format_type := 0x4000002, architecture := a, width := 3, height := 2, bit_depth := 8,
    blocking_degree := 1 }

/-- The colour-predictor table as the specification gives it: for each 4-bit code the base
plane and the target plane or planes; `none` for the identity codes. -/
def color_table : Nat → Option (Nat × List Nat)
  | 5 => some (0, [1])
  | 6 => some (0, [2])
  | 7 => some (0, [1, 2])
  | 9 => some (1, [0])
  | 10 => some (1, [2])
  | 11 => some (1, [0, 2])
  | 13 => some (2, [0])
  | 14 => some (2, [1])
  | 15 => some (2, [0, 1])
  | _ => none

/-- The effect the specification gives a colour predictor on `block_out`, whose planes are
`block_area` bytes each: an identity code changes nothing; otherwise every byte of a target
plane gets the original byte of the base plane at the same index within the plane added to
it (modulo 256), and every other byte is kept. -/
def color_spec (block_area color_op : Nat) (block_out : Bytes) : Bytes :=
  match color_table color_op with
  | none => block_out
  | some (base, targets) =>
    (List.range block_out.length).map (fun k =>
      if targets.any (fun t => decide (t * block_area ≤ k ∧ k < t * block_area + block_area)) then
        (block_out.getD k 0 + block_out.getD (base * block_area + k % block_area) 0) % 256
      else block_out.getD k 0)

/-- A context with `block_area = 4`, and a three-plane `block_out` whose first two planes
are `[1, 2, 3, 4]` and `[10, 20, 30, 40]`. -/
def colorCtx : DecodeContext :=
  { eri_version := 8, op_table := 0, encode_type := 0, bit_count := 8
    block_size := 2, block_area := 4, block_samples := 12, channel_count := 3
    block_stride := 6, width_blocks := 1, height_blocks := 1 }

/-- The sum of the `n` bytes of `buf` from index `start` on. -/
def row_sum (buf : Bytes) (start n : Nat) : Nat :=
  ((List.range n).map (fun j => buf.getD (start + j) 0)).sum

/-- The sum of `n` bytes of `buf`, `stride` apart, from index `start` on. -/
def col_sum (buf : Bytes) (start stride n : Nat) : Nat :=
  ((List.range n).map (fun r => buf.getD (start + r * stride) 0)).sum

/-- A one-channel context with `block_size = 4` (rows of four samples). -/
def rowCtx : DecodeContext :=
  { eri_version := 8, op_table := 0, encode_type := 0, bit_count := 8
    block_size := 4, block_area := 16, block_samples := 16, channel_count := 1
    block_stride := 4, width_blocks := 1, height_blocks := 1 }

/-- Buffers for the accumulate example: an empty scratch block, zero row state, and a
column state whose first byte (the seed of the first row) is 5. -/
def rowBuffers : Buffers :=
  { block_out := [0, 0, 0, 0, 0, 0, 0, 0, 0, 0, 0, 0, 0, 0, 0, 0]
    prev_row := [0, 0, 0, 0]
    prev_col := [5, 0, 0, 0] }

/-- Decoded samples for the accumulate example: the first row is `[1, 1, 1, 1]`. -/
def rowSamples : Bytes := [1, 1, 1, 1, 2, 0, 0, 0, 0, 3, 0, 0, 0, 0, 4, 0]

/-- The pointer `ptr + n`. -/
def RowPtr.add : RowPtr → Nat → RowPtr
  | .row i, n => .row (i + n)
  | .out i, n => .out (i + n)

/-- The context of a version-8 stream with `encode_type = 1` for the 3 x 2 RGB header:
bulk mode, block size 2, three channels, two blocks in one block-row. -/
def bulkCtx : DecodeContext :=
  make_ctx (rgbHeader Architecture.RunLengthGamma) (8, 0, 1, 8) 3

/-- A bulk-mode stream for the 3 x 2 RGB header: the four fields, two 4-bit transformer
codes, the synchronization bit, and two decoded blocks of 12 bytes. -/
def bulkStream : Script :=
  script [8, 0, 1, 8, 5, 9, 0]
    [[1, 2, 3, 4, 5, 6, 7, 8, 9, 10, 11, 12],
     [13, 14, 15, 16, 17, 18, 19, 20, 21, 22, 23, 24]]

/-- What the setup establishes on `bulkStream`: the two prefetched codes `0xC5` and `0xC9`,
and the front-end state after the reads and the reset. -/
def bulkSetup : Setup Script Unit :=
  { ctx := bulkCtx
    permutation := init_permutation bulkCtx
    transformer_codes := [0xC5, 0xC9]
    init := initial_state bulkCtx
      { bits := []
        blocks := [[1, 2, 3, 4, 5, 6, 7, 8, 9, 10, 11, 12],
                   [13, 14, 15, 16, 17, 18, 19, 20, 21, 22, 23, 24]]
        codes := []
        log := [Call.get 8, Call.get 8, Call.get 8, Call.get 8, Call.get 4, Call.get 4,
                Call.get 1, Call.reset] } () }

/-! ## Sample grid and the double running sum -/

/-- The sum `f 0 + ... + f (n - 1)`. -/
def sum_upto (f : Nat → Nat) (n : Nat) : Nat := ((List.range n).map f).sum

/-- The sum of `d Y X` over the rectangle `Y < m`, `X < n`. -/
def rect_sum (d : Nat → Nat → Nat) (m n : Nat) : Nat :=
  sum_upto (fun Y => sum_upto (fun X => d Y X) n) m

/-- From the spec's words: the naive two-dimensional running sum of a sample grid, the sum
of `d Y1 X1` over all `Y1 ≤ Y` and `X1 ≤ X`, modulo 256. -/
def naive_double_sum (d : Nat → Nat → Nat) (Y X : Nat) : Nat :=
  ((List.range (Y + 1)).map (fun Y1 =>
    ((List.range (X + 1)).map (fun X1 => d Y1 X1)).sum)).sum % 256

/-- The entropy-decoded sample at canvas row `Y`, column `X`: the byte of `arrange_buf` at
index `(Y mod block_size) * block_size + (X mod block_size)`, as `decode` filled it for
block `(X div block_size, Y div block_size)` (0 if the decode does not get that far). -/
def decoded_sample {σ τ : Type} (D : Decoder σ τ) (K : EriImage) (header : EriHeader)
    (s : σ) (Y X : Nat) : Nat :=
  match state_after_block D K header s (Y / (1 <<< header.blocking_degree))
      (X / (1 <<< header.blocking_degree)) with
  | some st =>
    st.arrange_buf.getD
      (Y % (1 <<< header.blocking_degree) * (1 <<< header.blocking_degree)
        + X % (1 <<< header.blocking_degree)) 0
  | none => 0

/-- The state of the row and column buffers of a one-channel decode right before block
`(x, y)`, in terms of the sample grid `d`: the column state of the block-row holds the row
sums up to the block, later column-state slices are still zero, and the row state holds
the canvas line above (blocks from `x` on) or the last line of the block-row (blocks before
`x`). -/
def GrayInv (d : Nat → Nat → Nat) (bs wb hb y x : Nat) (b : Buffers) : Prop :=
  b.block_out.length = bs * bs ∧ b.prev_row.length = wb * bs ∧ b.prev_col.length = hb * bs
  ∧ (∀ i, i < bs → b.prev_col.getD (y * bs + i) 0 = sum_upto (d (y * bs + i)) (x * bs) % 256)
  ∧ (∀ k, (y + 1) * bs ≤ k → b.prev_col.getD k 0 = 0)
  ∧ (∀ X, X < x * bs → b.prev_row.getD X 0 = rect_sum d ((y + 1) * bs) (X + 1) % 256)
  ∧ (∀ X, x * bs ≤ X → X < wb * bs → b.prev_row.getD X 0 = rect_sum d (y * bs) (X + 1) % 256)

/-- The stream of the sample grayscale decode: the four fields, the synchronization bit,
and two decoded blocks of 4 bytes. -/
def grayStream : Script :=
  script [8, 0, 0, 8, 0] [[1, 2, 3, 4], [5, 6, 7, 8]]

/-- What the setup establishes on `grayStream` for the 3 x 2 grayscale header: no
prefetched codes, and the front-end state after the five reads. -/
def graySetup : Setup Script Unit :=
  { ctx := grayCtx
    permutation := init_permutation grayCtx
    transformer_codes := []
    init := initial_state grayCtx
      { bits := []
        blocks := [[1, 2, 3, 4], [5, 6, 7, 8]]
        codes := []
        log := [Call.get 8, Call.get 8, Call.get 8, Call.get 8, Call.get 1] } () }

/-! ## Bounds-checked model -/

/-- A read `buf[i]` that reports an index outside the buffer. -/
def rd (buf : Bytes) (i : Nat) : Option Nat :=
  if i < buf.length then some (buf.getD i 0) else none

/-- A write `buf[i] = v` that reports an index outside the buffer. -/
def wr (buf : Bytes) (i v : Nat) : Option Bytes :=
  if i < buf.length then some (buf.set i v) else none

/-- A read `buf[i]` through a pointer that belongs to the slice of `len` bytes at offset
`lo` of `buf`: reports an index outside the slice, or a slice outside the buffer. -/
def rd_slice (buf : Bytes) (lo len i : Nat) : Option Nat :=
  if lo ≤ i ∧ i < lo + len ∧ lo + len ≤ buf.length then some (buf.getD i 0) else none

/-- A write `buf[i] = v` through a pointer that belongs to the slice of `len` bytes at
offset `lo` of `buf`. -/
def wr_slice (buf : Bytes) (lo len i v : Nat) : Option Bytes :=
  if lo ≤ i ∧ i < lo + len ∧ lo + len ≤ buf.length then some (buf.set i v) else none

/-- A loop whose body may report an access out of range. -/
def loopM {α β : Type} (body : α → β → Option α) : List β → α → Option α
  | [], a => some a
  | b :: bs, a => (body a b).bind (loopM body bs)

/-- Step 2 of `transform`, every access checked: `permutation` and `arrange_buf` are read,
`block_out` is written at the index read from `permutation`. -/
def transform_scatter_checked (ctx : DecodeContext) (permutation : List Nat)
    (perm_offset : Nat) (arrange_buf block_out : Bytes) : Option Bytes :=
  loopM (fun bo i =>
    (rd permutation (perm_offset * ctx.block_samples + i)).bind fun p =>
    (rd arrange_buf i).bind fun v =>
    wr bo p v) (List.range ctx.block_samples) block_out

/-- The loop of the single-target colour operators, every access checked. -/
def color_add1_checked (context : DecodeContext) (src dst : Nat) (decode_buf : Bytes) :
    Option Bytes :=
  loopM (fun buf i =>
    (rd buf (i + src)).bind fun base =>
    (rd buf (i + dst)).bind fun old =>
    wr buf (i + dst) ((old + base) % 256)) (List.range context.block_area) decode_buf

/-- The loop of the dual-target colour operators, every access checked. -/
def color_add2_checked (context : DecodeContext) (src dst1 dst2 : Nat) (decode_buf : Bytes) :
    Option Bytes :=
  loopM (fun buf i =>
    (rd buf (i + src)).bind fun base =>
    (rd buf (i + dst1)).bind fun old1 =>
    (wr buf (i + dst1) ((old1 + base) % 256)).bind fun buf1 =>
    (rd buf1 (i + dst2)).bind fun old2 =>
    wr buf1 (i + dst2) ((old2 + base) % 256)) (List.range context.block_area) decode_buf

/-- The table `color_ops`, every access of its operators checked. -/
def color_ops_checked : List (Bytes → DecodeContext → Option Bytes) :=
  [ fun buf _ => some buf, fun buf _ => some buf, fun buf _ => some buf, fun buf _ => some buf,
    fun buf _ => some buf,
    fun buf c => color_add1_checked c 0 c.block_area buf,
    fun buf c => color_add1_checked c 0 (c.block_area * 2) buf,
    fun buf c => color_add2_checked c 0 c.block_area (c.block_area * 2) buf,
    fun buf _ => some buf,
    fun buf c => color_add1_checked c c.block_area 0 buf,
    fun buf c => color_add1_checked c c.block_area (c.block_area * 2) buf,
    fun buf c => color_add2_checked c c.block_area 0 (c.block_area * 2) buf,
    fun buf _ => some buf,
    fun buf c => color_add1_checked c (c.block_area * 2) 0 buf,
    fun buf c => color_add1_checked c (c.block_area * 2) c.block_area buf,
    fun buf c => color_add2_checked c (c.block_area * 2) 0 c.block_area buf ]

/-- The call `color_ops[color_op](block_out, ctx)`, the table lookup checked as well. -/
def color_ops_call_checked (color_op : Nat) (block_out : Bytes) (ctx : DecodeContext) :
    Option Bytes :=
  match color_ops_checked.get? color_op with
  | none => none
  | some f => f block_out ctx

/-- The inner loop of the accumulate branch, every access checked. -/
def accumulate_row_checked (ctx : DecodeContext) (t : Bytes × Nat × Nat) :
    Option (Bytes × Nat × Nat) :=
  loopM (fun (t : Bytes × Nat × Nat) _j =>
    (rd t.1 t.2.1).bind fun v =>
    (wr t.1 t.2.1 ((t.2.2 + v) % 256)).bind fun bo =>
    some (bo, t.2.1 + 1, (t.2.2 + v) % 256)) (List.range ctx.block_size) t

/-- Step 5 of `transform`, branch `diff_mode & 0x01`, every access checked; the column
state is accessed inside the block's slice of `block_stride` bytes. -/
def transform_horizontal_accumulate_checked (ctx : DecodeContext) (block_out prev_col : Bytes)
    (prev_block_col : Nat) : Option HState :=
  loopM (fun (st : HState) _i =>
    (rd_slice st.prev_col prev_block_col ctx.block_stride st.next_block_col_ptr).bind
      fun last_value =>
    (accumulate_row_checked ctx (st.block_out, st.block_out_ptr, last_value)).bind fun inner =>
    (wr_slice st.prev_col prev_block_col ctx.block_stride st.next_block_col_ptr inner.2.2).bind
      fun pc =>
    some { block_out := inner.1
           block_out_ptr := inner.2.1
           prev_col := pc
           next_block_col_ptr := st.next_block_col_ptr + 1 })
    (List.range ctx.block_stride)
    { block_out := block_out, block_out_ptr := 0, prev_col := prev_col,
      next_block_col_ptr := prev_block_col }

/-- Step 5 of `transform`, else branch, every access checked. -/
def transform_horizontal_store_checked (ctx : DecodeContext) (block_out prev_col : Bytes)
    (prev_block_col : Nat) : Option HState :=
  loopM (fun (st : HState) _i =>
    (rd st.block_out (st.block_out_ptr + (ctx.block_size - 1))).bind fun v =>
    (wr_slice st.prev_col prev_block_col ctx.block_stride st.next_block_col_ptr v).bind
      fun pc =>
    some { block_out := st.block_out
           block_out_ptr := st.block_out_ptr + ctx.block_size
           prev_col := pc
           next_block_col_ptr := st.next_block_col_ptr + 1 })
    (List.range ctx.block_stride)
    { block_out := block_out, block_out_ptr := 0, prev_col := prev_col,
      next_block_col_ptr := prev_block_col }

/-- The value `*ptr`, checked: inside the block's row-state slice, or inside `block_out`. -/
def RowPtr.read_checked (block_out prev_row : Bytes) (lo len : Nat) : RowPtr → Option Nat
  | .row i => rd_slice prev_row lo len i
  | .out i => rd block_out i

/-- The innermost loop of the vertical pass, every access checked. -/
def vertical_add_line_checked (ctx : DecodeContext) (lo : Nat) (st : VState) : Option VState :=
  loopM (fun (st : VState) _j =>
    (rd st.block_out st.block_out_ptr).bind fun old =>
    (st.prev_block_row_ptr.read_checked st.block_out st.prev_row lo ctx.block_stride).bind
      fun v =>
    (wr st.block_out st.block_out_ptr ((old + v) % 256)).bind fun bo =>
    some { block_out := bo
           block_out_ptr := st.block_out_ptr + 1
           prev_row := st.prev_row
           prev_block_row_base := st.prev_block_row_base
           prev_block_row_ptr := st.prev_block_row_ptr.next })
    (List.range ctx.block_size) st

/-- The loop over the lines of one channel plane, every access checked. -/
def vertical_add_plane_checked (ctx : DecodeContext) (lo : Nat) (st : VState) :
    Option VState :=
  loopM (fun (st : VState) _i =>
    (vertical_add_line_checked ctx lo st).bind fun st1 =>
    some { block_out := st1.block_out
           block_out_ptr := st1.block_out_ptr
           prev_row := st1.prev_row
           prev_block_row_base := st1.prev_block_row_base
           prev_block_row_ptr := RowPtr.out st.block_out_ptr })
    (List.range ctx.block_size) st

/-- The last loop of a channel's iteration, every access checked. -/
def vertical_store_row_checked (ctx : DecodeContext) (lo : Nat) (st : VState) :
    Option VState :=
  loopM (fun (st : VState) _j =>
    (st.prev_block_row_ptr.read_checked st.block_out st.prev_row lo ctx.block_stride).bind
      fun v =>
    (wr_slice st.prev_row lo ctx.block_stride st.prev_block_row_base v).bind fun pr =>
    some { block_out := st.block_out
           block_out_ptr := st.block_out_ptr
           prev_row := pr
           prev_block_row_base := st.prev_block_row_base + 1
           prev_block_row_ptr := st.prev_block_row_ptr.next })
    (List.range ctx.block_size) st

/-- Step 6 of `transform`, every access checked; the row state is accessed inside the
block's slice of `block_stride` bytes. -/
def transform_vertical_checked (ctx : DecodeContext) (block_out prev_row : Bytes)
    (prev_block_row : Nat) : Option VState :=
  loopM (fun (st : VState) _k =>
    (vertical_add_plane_checked ctx prev_block_row
      { block_out := st.block_out
        block_out_ptr := st.block_out_ptr
        prev_row := st.prev_row
        prev_block_row_base := st.prev_block_row_base
        prev_block_row_ptr := RowPtr.row st.prev_block_row_base }).bind fun st1 =>
    vertical_store_row_checked ctx prev_block_row st1)
    (List.range ctx.channel_count)
    { block_out := block_out, block_out_ptr := 0, prev_row := prev_row,
      prev_block_row_base := prev_block_row,
      prev_block_row_ptr := RowPtr.row prev_block_row }

/-- The function `transform`, every buffer access checked: `none` reports an access out of
range. -/
def transform_checked (transformer_code : Nat) (ctx : DecodeContext) (permutation : List Nat)
    (arrange_buf : Bytes) (prev_block_row prev_block_col : Nat) (b : Buffers) :
    Option Buffers :=
  let diff_mode := (transformer_code &&& 0xC0) >>> 6
  let perm_offset := (transformer_code &&& 0x30) >>> 4
  let color_op := transformer_code &&& 0x0F
  (transform_scatter_checked ctx permutation perm_offset arrange_buf b.block_out).bind
    fun block_out =>
  if transformer_code = 0 then
    some { b with block_out := block_out }
  else
    (color_ops_call_checked color_op block_out ctx).bind fun block_out =>
    (if diff_mode &&& 0x01 ≠ 0 then
      transform_horizontal_accumulate_checked ctx block_out b.prev_col prev_block_col
    else
      transform_horizontal_store_checked ctx block_out b.prev_col prev_block_col).bind fun h =>
    (transform_vertical_checked ctx h.block_out b.prev_row prev_block_row).bind fun v =>
    some { block_out := v.block_out, prev_row := v.prev_row, prev_col := h.prev_col }

/-- The frame-assembly loop, every access checked. -/
def assemble_checked (ctx : DecodeContext) (y x : Nat) (block_out output : Bytes) :
    Option Bytes :=
  (loopM (fun st c =>
    loopM (fun st yy =>
      loopM (fun (st : Bytes × Nat) xx =>
        (rd block_out st.2).bind fun v =>
        (wr st.1
          (((y * ctx.block_size + yy) * ctx.width_blocks * ctx.block_size
            + (x * ctx.block_size + xx)) * ctx.channel_count + c) v).bind fun o =>
        some (o, st.2 + 1)) (List.range ctx.block_size) st)
      (List.range ctx.block_size) st)
    (List.range ctx.channel_count) (output, 0)).map (fun st => st.1)

/-- The function `crop`, every access checked. -/
def crop_checked (input : Bytes) (ctx : DecodeContext) (header : EriHeader) : Option Bytes :=
  loopM (fun output y =>
    (loopM (fun (st : Bytes × Nat × Nat) _x =>
        (rd input st.2.2).bind fun v =>
        (wr st.1 st.2.1 v).bind fun o =>
        some (o, st.2.1 + 1, st.2.2 + 1))
      (List.range (header.width * ctx.channel_count))
      (output, y * header.width * ctx.channel_count,
        y * ctx.width_blocks * ctx.block_stride)).map (fun st => st.1))
    (List.range header.height) (bstr (header.width * header.height * ctx.channel_count))

/-- A loop whose body may throw or report an access out of range. -/
def for_list_checked {ε α β : Type} (body : α → β → Option (Except ε α)) :
    List β → α → Option (Except ε α)
  | [], a => some (.ok a)
  | b :: bs, a =>
    match body a b with
    | none => none
    | some (.error e) => some (.error e)
    | some (.ok a1) => for_list_checked body bs a1

/-- The body of the inner block loop, with `transform` and the frame assembly checked. -/
def decode_block_checked {σ τ : Type} (D : Decoder σ τ) (K : EriImage) (header : EriHeader)
    (ctx : DecodeContext) (permutation transformer_codes : List Nat) (y : Nat)
    (st : LoopState σ τ) (x : Nat) : Option (Except (Thrown × σ) (LoopState σ τ)) :=
  match get_transformer_code D K header ctx transformer_codes st.front with
  | .error e => some (.error e)
  | .ok (transformer_code, front) =>
    (transform_checked transformer_code ctx permutation
      (store_bytes st.arrange_buf.length (D.decode st.arrange_buf.length front.dec).1)
      (x * ctx.block_stride) (y * ctx.block_stride) st.buffers).bind fun buffers =>
    (assemble_checked ctx y x buffers.block_out st.output).bind fun output =>
    some (.ok { front := { front with dec := (D.decode st.arrange_buf.length front.dec).2 }
                output := output
                arrange_buf :=
                  store_bytes st.arrange_buf.length
                    (D.decode st.arrange_buf.length front.dec).1
                buffers := buffers })

/-- The body of the outer block loop, checked. -/
def decode_block_row_checked {σ τ : Type} (D : Decoder σ τ) (K : EriImage)
    (header : EriHeader) (ctx : DecodeContext) (permutation transformer_codes : List Nat)
    (st : LoopState σ τ) (y : Nat) : Option (Except (Thrown × σ) (LoopState σ τ)) :=
  for_list_checked (decode_block_checked D K header ctx permutation transformer_codes y)
    (List.range ctx.width_blocks) st

/-- The function `image::decode_lossless_pixel_data` on the buffers of `initial_state` (exact
sizes), with the accesses of `transform`, of the frame assembly and of `crop` checked:
`none` reports one of these out of range, otherwise the result is the returned buffer or the
thrown value.  Not checked here: the expression `&transformer_codes[0]`, the reads of the
prefetched codes, and the writes of `init_permutation`. -/
def decode_lossless_pixel_data_checked {σ τ : Type} (D : Decoder σ τ) (K : EriImage)
    (header : EriHeader) (s : σ) : Option (Except (Thrown × σ) (Bytes × σ)) :=
  match decode_setup D K header s with
  | .error e => some (.error e)
  | .ok su =>
    match for_list_checked
        (decode_block_row_checked D K header su.ctx su.permutation su.transformer_codes)
        (List.range su.ctx.height_blocks) su.init with
    | none => none
    | some (.error e) => some (.error e)
    | some (.ok st) =>
      (crop_checked st.output su.ctx header).map (fun out => .ok (out, st.front.dec))

/-! ## Machine arithmetic of the geometry -/

/-- The value of a `size_t` expression whose exact value is `n`, for a 64-bit `size_t`:
unsigned arithmetic wraps modulo `2 ^ 64`. -/
def size_t (n : Nat) : Nat := n % 2 ^ 64

/-- The expression `1 << n` of `decode_lossless_pixel_data`, converted to `size_t`.  The
literal `1` is an `int`, so the shift is done in 32 bits: for `n < 31` the value is `2 ^ n`;
for `n = 31` it is `INT_MIN` (two's complement), which converts to `2 ^ 64 - 2 ^ 31`; for
`n >= 32` the shift is undefined (`none`). -/
def shl_one_int (n : Nat) : Option Nat :=
  if n < 31 then some (2 ^ n)
  else if n = 31 then some (2 ^ 64 - 2 ^ 31)
  else none

/-- The context as the code computes it: `block_size` from the 32-bit shift, every other
geometry field in `size_t`.  `none` when the shift is undefined. -/
def make_ctx_machine (header : EriHeader) (fields : Nat × Nat × Nat × Nat)
    (channel_count : Nat) : Option DecodeContext :=
  match shl_one_int header.blocking_degree with
  | none => none
  | some block_size =>
    let block_area := size_t (block_size * block_size)
    some
      { eri_version := fields.1
        op_table := fields.2.1
        encode_type := fields.2.2.1
        bit_count := fields.2.2.2
        channel_count := channel_count
        block_size := block_size
        block_area := block_area
        block_samples := size_t (block_area * channel_count)
        block_stride := size_t (block_size * channel_count)
        width_blocks := size_t (header.width + block_size - 1) / block_size
        height_blocks := size_t (header.height + block_size - 1) / block_size }

/-- The locals of the block loop as the code allocates them: every buffer size is a
`size_t` product. -/
def initial_state_machine {σ τ : Type} (ctx : DecodeContext) (s : σ) (t : τ) :
    LoopState σ τ :=
  { front := { dec := s, tree := t, codes_ptr := 0 }
    output := bstr (size_t (ctx.width_blocks * ctx.height_blocks * ctx.block_samples))
    arrange_buf := bstr ctx.block_samples
    buffers :=
      { block_out := bstr ctx.block_samples
        prev_col := bstr (size_t (ctx.height_blocks * ctx.block_stride))
        prev_row := bstr (size_t (ctx.width_blocks * ctx.block_stride)) } }

/-- A grayscale header with `blocking_degree = 31` and width `2 ^ 31 + 1`. -/
def wideHeader : EriHeader :=
  { format_type := 2, architecture := Architecture.RunLengthGamma, width := 2 ^ 31 + 1,
    height := 1, bit_depth := 8, blocking_degree := 31 }

/-- An RGBA header (32 bits) of `2 ^ 31 - 1` by `2 ^ 31 - 1` pixels with
`blocking_degree = 1`. -/
def hugeHeader : EriHeader :=
  { format_type := 0x4000001, architecture := Architecture.RunLengthGamma,
    width := 2 ^ 31 - 1, height := 2 ^ 31 - 1, bit_depth := 32, blocking_degree := 1 }

/-! ## Stages of the transform and of the block loop -/

/-- The sizes of the buffers of the block loop: `arrange_buf` and `block_out` hold one
block, the row and column state one slice per block column and block row, and the canvas
every block. -/
def LenInv {σ τ : Type} (ctx : DecodeContext) (st : LoopState σ τ) : Prop :=
  st.arrange_buf.length = ctx.block_samples
  ∧ st.buffers.block_out.length = ctx.block_samples
  ∧ st.buffers.prev_row.length = ctx.width_blocks * ctx.block_stride
  ∧ st.buffers.prev_col.length = ctx.height_blocks * ctx.block_stride
  ∧ st.output.length = ctx.width_blocks * ctx.height_blocks * ctx.block_samples

/-- The contents of `block_out` after steps 2 to 4 of `transform` (scatter, then the
colour operator selected by the low four bits), for a nonzero transformer code. -/
def transform_step4 (transformer_code : Nat) (ctx : DecodeContext) (permutation : List Nat)
    (arrange_buf : Bytes) (b : Buffers) : Bytes :=
  (color_ops.getD (transformer_code &&& 0x0F) color_op_0000)
    (transform_scatter ctx permutation ((transformer_code &&& 0x30) >>> 4) arrange_buf
      b.block_out) ctx

/-- The state after step 5 of `transform` (the horizontal pass), for a nonzero transformer
code: the branch is chosen by `diff_mode & 0x01`. -/
def transform_step5 (transformer_code : Nat) (ctx : DecodeContext) (permutation : List Nat)
    (arrange_buf : Bytes) (prev_block_col : Nat) (b : Buffers) : HState :=
  if ((transformer_code &&& 0xC0) >>> 6) &&& 0x01 ≠ 0 then
    transform_horizontal_accumulate ctx
      (transform_step4 transformer_code ctx permutation arrange_buf b) b.prev_col prev_block_col
  else
    transform_horizontal_store ctx
      (transform_step4 transformer_code ctx permutation arrange_buf b) b.prev_col prev_block_col

/-- The locals of the block loop right before the block at block-row `y` and block-column
`x` is processed, provided the decode gets that far. -/
def state_before_block {σ τ : Type} (D : Decoder σ τ) (K : EriImage)
    (header : EriHeader) (s : σ) (y x : Nat) : Option (LoopState σ τ) :=
  match decode_setup D K header s with
  | .error _ => none
  | .ok su =>
    match for_list (decode_block_row D K header su.ctx su.permutation su.transformer_codes)
        (List.range y) su.init with
    | .error _ => none
    | .ok st =>
      match for_list (decode_block D K header su.ctx su.permutation su.transformer_codes y)
          (List.range x) st with
      | .error _ => none
      | .ok st1 => some st1

/-! ## Mixed-radix arithmetic -/

theorem radix_lt {n m x y : Nat} (hx : x < n) (hy : y < m) : y * n + x < m * n := by
  have h1 : y * n + x < (y + 1) * n := by rw [Nat.add_mul]; omega
  have h2 : (y + 1) * n ≤ m * n := Nat.mul_le_mul_right n hy
  omega

theorem radix_inj {n x y x1 y1 : Nat} (hx : x < n) (hx1 : x1 < n)
    (h : y * n + x = y1 * n + x1) : y = y1 ∧ x = x1 := by
  have hn : 0 < n := by omega
  have hd : (y * n + x) / n = (y1 * n + x1) / n := by rw [h]
  have hm : (y * n + x) % n = (y1 * n + x1) % n := by rw [h]
  rw [Nat.mul_comm y n, Nat.mul_comm y1 n, Nat.mul_add_div hn, Nat.mul_add_div hn,
    Nat.div_eq_of_lt hx, Nat.div_eq_of_lt hx1] at hd
  rw [Nat.mul_comm y n, Nat.mul_comm y1 n, Nat.mul_add_mod, Nat.mul_add_mod,
    Nat.mod_eq_of_lt hx, Nat.mod_eq_of_lt hx1] at hm
  omega

theorem radix_split {n m v : Nat} (hv : v < m * n) :
    v / n < m ∧ v % n < n ∧ v = v / n * n + v % n := by
  have hn : 0 < n := by
    rcases Nat.eq_zero_or_pos n with h0 | h0
    · subst h0; simp at hv
    · exact h0
  refine ⟨(Nat.div_lt_iff_lt_mul hn).2 hv, Nat.mod_lt _ hn, ?_⟩
  have := Nat.div_add_mod v n
  rw [Nat.mul_comm] at this
  omega

/-! ## Permutation table: every segment is a bijection -/

theorem foldl_push_eq (vs pre rest : List Nat) (h : vs.length ≤ rest.length) :
    vs.foldl push (pre ++ rest, pre.length)
      = (pre ++ vs ++ rest.drop vs.length, pre.length + vs.length) := by
  induction vs generalizing pre rest with
  | nil => simp
  | cons v vs ih =>
    cases rest with
    | nil => simp at h
    | cons r rest =>
      have h1 : push (pre ++ r :: rest, pre.length) v
          = ((pre ++ [v]) ++ rest, (pre ++ [v]).length) := by
        simp [push]
      rw [List.foldl_cons, h1, ih (pre ++ [v]) rest (by simpa using h)]
      simp [Nat.add_assoc, Nat.add_comm 1]

theorem foldl_push_flatMap {α : Type} (F : α → List Nat) (l : List α) (st : List Nat × Nat) :
    l.foldl (fun st a => (F a).foldl push st) st = (l.flatMap F).foldl push st := by
  induction l generalizing st with
  | nil => simp
  | cons a l ih => simp [List.flatMap_cons, List.foldl_append, ih]

theorem foldl_push_nest3 (n1 n2 n3 : Nat) (f : Nat → Nat → Nat → Nat) (st : List Nat × Nat) :
    (List.range n1).foldl (fun st i =>
      (List.range n2).foldl (fun st j =>
        (List.range n3).foldl (fun st k => push st (f i j k)) st) st) st
      = (nest3 n1 n2 n3 f).foldl push st := by
  unfold nest3
  rw [← foldl_push_flatMap]
  congr 1
  funext st i
  rw [← foldl_push_flatMap]
  congr 1
  funext st j
  rw [List.foldl_map]

theorem nest3_mem {n1 n2 n3 : Nat} {f : Nat → Nat → Nat → Nat} {v : Nat} :
    v ∈ nest3 n1 n2 n3 f ↔ ∃ i, i < n1 ∧ ∃ j, j < n2 ∧ ∃ k, k < n3 ∧ f i j k = v := by
  simp [nest3, List.mem_flatMap]

theorem nest3_nodup {n1 n2 n3 : Nat} {f : Nat → Nat → Nat → Nat}
    (hinj : ∀ i j k i1 j1 k1, i < n1 → j < n2 → k < n3 → i1 < n1 → j1 < n2 → k1 < n3 →
      f i j k = f i1 j1 k1 → i = i1 ∧ j = j1 ∧ k = k1) :
    (nest3 n1 n2 n3 f).Nodup := by
  unfold nest3
  rw [List.nodup_flatMap]
  refine ⟨?_, ?_⟩
  · intro i hi
    rw [List.mem_range] at hi
    rw [List.nodup_flatMap]
    refine ⟨?_, ?_⟩
    · intro j hj
      rw [List.mem_range] at hj
      refine List.Nodup.map_on ?_ (List.nodup_range n3)
      intro k hk k1 hk1 hkk
      rw [List.mem_range] at hk hk1
      exact (hinj i j k i j k1 hi hj hk hi hj hk1 hkk).2.2
    · refine List.Nodup.pairwise_of_forall_ne (List.nodup_range n2) ?_
      intro j hj j1 hj1 hne
      rw [List.mem_range] at hj hj1
      intro v hv hv1
      simp only [List.mem_map, List.mem_range] at hv hv1
      obtain ⟨k, hk, rfl⟩ := hv
      obtain ⟨k1, hk1, hkk⟩ := hv1
      exact hne (hinj i j1 k1 i j k hi hj1 hk1 hi hj hk hkk).2.1.symm
  · refine List.Nodup.pairwise_of_forall_ne (List.nodup_range n1) ?_
    intro i hi i1 hi1 hne
    rw [List.mem_range] at hi hi1
    intro v hv hv1
    simp only [List.mem_flatMap, List.mem_map, List.mem_range] at hv hv1
    obtain ⟨j, hj, k, hk, rfl⟩ := hv
    obtain ⟨j1, hj1, k1, hk1, hkk⟩ := hv1
    exact hne (hinj i1 j1 k1 i j k hi1 hj1 hk1 hi hj hk hkk).1.symm

theorem nest3_perm_range {n1 n2 n3 N : Nat} {f : Nat → Nat → Nat → Nat}
    (hinj : ∀ i j k i1 j1 k1, i < n1 → j < n2 → k < n3 → i1 < n1 → j1 < n2 → k1 < n3 →
      f i j k = f i1 j1 k1 → i = i1 ∧ j = j1 ∧ k = k1)
    (hlt : ∀ i j k, i < n1 → j < n2 → k < n3 → f i j k < N)
    (hsurj : ∀ v, v < N → ∃ i, i < n1 ∧ ∃ j, j < n2 ∧ ∃ k, k < n3 ∧ f i j k = v) :
    (nest3 n1 n2 n3 f).Perm (List.range N) := by
  rw [List.perm_ext_iff_of_nodup (nest3_nodup hinj) (List.nodup_range N)]
  intro v
  rw [nest3_mem, List.mem_range]
  constructor
  · rintro ⟨i, hi, j, hj, k, hk, rfl⟩
    exact hlt i j k hi hj hk
  · exact hsurj v

theorem planar_lt {b cc c y x : Nat} (hc : c < cc) (hy : y < b) (hx : x < b) :
    c * (b * b) + y * b + x < b * b * cc := by
  have h1 : y * b + x < b * b := radix_lt hx hy
  have h2 : c * (b * b) + (y * b + x) < cc * (b * b) := radix_lt h1 hc
  rw [Nat.mul_comm (b * b) cc]
  omega

theorem planar_inj {b c y x c1 y1 x1 : Nat} (hy : y < b) (hx : x < b) (hy1 : y1 < b)
    (hx1 : x1 < b) (h : c * (b * b) + y * b + x = c1 * (b * b) + y1 * b + x1) :
    c = c1 ∧ y = y1 ∧ x = x1 := by
  have h1 : y * b + x < b * b := radix_lt hx hy
  have h2 : y1 * b + x1 < b * b := radix_lt hx1 hy1
  have h3 := radix_inj h1 h2 (by omega : c * (b * b) + (y * b + x) = c1 * (b * b) + (y1 * b + x1))
  have h4 := radix_inj hx hx1 h3.2
  exact ⟨h3.1, h4.1, h4.2⟩

theorem planar_split {b cc v : Nat} (hv : v < b * b * cc) :
    ∃ c, c < cc ∧ ∃ y, y < b ∧ ∃ x, x < b ∧ c * (b * b) + y * b + x = v := by
  rw [Nat.mul_comm (b * b) cc] at hv
  obtain ⟨h1, h2, h3⟩ := radix_split hv
  obtain ⟨h4, h5, h6⟩ := radix_split h2
  exact ⟨v / (b * b), h1, v % (b * b) / b, h4, v % (b * b) % b, h5, by omega⟩

/-- Segment 1: channel, row, column loop order with the row-major formula. -/
theorem seg1_perm (b cc : Nat) :
    (nest3 cc b b (fun c y x => c * (b * b) + y * b + x)).Perm (List.range (b * b * cc)) := by
  apply nest3_perm_range
  · intro c y x c1 y1 x1 _ hy hx _ hy1 hx1 h
    exact planar_inj hy hx hy1 hx1 h
  · intro c y x hc hy hx
    exact planar_lt hc hy hx
  · intro v hv
    exact planar_split hv

/-- Segment 2: channel, row, column loop order with the transposed formula. -/
theorem seg2_perm (b cc : Nat) :
    (nest3 cc b b (fun c y x => c * (b * b) + y + x * b)).Perm (List.range (b * b * cc)) := by
  apply nest3_perm_range
  · intro c y x c1 y1 x1 _ hy hx _ hy1 hx1 h
    have := planar_inj hx hy hx1 hy1
      (by omega : c * (b * b) + x * b + y = c1 * (b * b) + x1 * b + y1)
    exact ⟨this.1, this.2.2, this.2.1⟩
  · intro c y x hc hy hx
    have := planar_lt hc hx hy
    omega
  · intro v hv
    obtain ⟨c, hc, y, hy, x, hx, h⟩ := planar_split hv
    exact ⟨c, hc, x, hx, y, hy, by omega⟩

/-- Segment 3: row, column, channel loop order with the row-major formula. -/
theorem seg3_perm (b cc : Nat) :
    (nest3 b b cc (fun y x c => c * (b * b) + y * b + x)).Perm (List.range (b * b * cc)) := by
  apply nest3_perm_range
  · intro y x c y1 x1 c1 hy hx _ hy1 hx1 _ h
    have := planar_inj hy hx hy1 hx1 h
    exact ⟨this.2.1, this.2.2, this.1⟩
  · intro y x c hy hx hc
    exact planar_lt hc hy hx
  · intro v hv
    obtain ⟨c, hc, y, hy, x, hx, h⟩ := planar_split hv
    exact ⟨y, hy, x, hx, c, hc, h⟩

/-- Segment 4: row, column, channel loop order with the transposed formula. -/
theorem seg4_perm (b cc : Nat) :
    (nest3 b b cc (fun y x c => c * (b * b) + y + x * b)).Perm (List.range (b * b * cc)) := by
  apply nest3_perm_range
  · intro y x c y1 x1 c1 hy hx _ hy1 hx1 _ h
    have := planar_inj hx hy hx1 hy1
      (by omega : c * (b * b) + x * b + y = c1 * (b * b) + x1 * b + y1)
    exact ⟨this.2.2, this.2.1, this.1⟩
  · intro y x c hy hx hc
    have := planar_lt hc hx hy
    omega
  · intro v hv
    obtain ⟨c, hc, y, hy, x, hx, h⟩ := planar_split hv
    exact ⟨x, hx, y, hy, c, hc, by omega⟩

theorem length_flatMap_range {α : Type} (n m : Nat) (F : Nat → List α)
    (h : ∀ i, (F i).length = m) : ((List.range n).flatMap F).length = n * m := by
  induction n with
  | zero => simp
  | succ n ih =>
    rw [List.range_succ, List.flatMap_append, List.length_append, ih]
    simp [h, Nat.add_mul]

theorem nest3_length (n1 n2 n3 : Nat) (f : Nat → Nat → Nat → Nat) :
    (nest3 n1 n2 n3 f).length = n1 * (n2 * n3) := by
  unfold nest3
  apply length_flatMap_range
  intro i
  apply length_flatMap_range
  intro j
  simp

theorem foldl_push_fill (vs : List Nat) (n : Nat) (h : vs.length = n) :
    (vs.foldl push (List.replicate n 0, 0)).1 = vs := by
  have e := foldl_push_eq vs [] (List.replicate n 0) (by simp [h])
  simp only [List.nil_append, List.length_nil] at e
  rw [e, List.drop_eq_nil_of_le (by simp [h])]
  simp

/-- The table built by `init_permutation` is the concatenation of the four loop nests. -/
theorem init_permutation_eq (ctx : DecodeContext)
    (harea : ctx.block_area = ctx.block_size * ctx.block_size)
    (hsamples : ctx.block_samples = ctx.block_area * ctx.channel_count) :
    init_permutation ctx
      = nest3 ctx.channel_count ctx.block_size ctx.block_size
          (fun c y x => c * (ctx.block_size * ctx.block_size) + y * ctx.block_size + x)
        ++ (nest3 ctx.channel_count ctx.block_size ctx.block_size
          (fun c y x => c * (ctx.block_size * ctx.block_size) + y + x * ctx.block_size)
        ++ (nest3 ctx.block_size ctx.block_size ctx.channel_count
          (fun y x c => c * (ctx.block_size * ctx.block_size) + y * ctx.block_size + x)
        ++ nest3 ctx.block_size ctx.block_size ctx.channel_count
          (fun y x c => c * (ctx.block_size * ctx.block_size) + y + x * ctx.block_size))) := by
  unfold init_permutation
  simp only [foldl_push_nest3, ← List.foldl_append, harea]
  rw [foldl_push_fill]
  · simp only [List.append_assoc]
  · simp only [List.length_append, nest3_length, hsamples, harea]
    have e1 := Nat.mul_assoc ctx.block_size ctx.block_size ctx.channel_count
    have e2 := Nat.mul_comm ctx.channel_count (ctx.block_size * ctx.block_size)
    omega

theorem segment_append4 (N : Nat) (l0 l1 l2 l3 : List Nat) (h0 : l0.length = N)
    (h1 : l1.length = N) (h2 : l2.length = N) (h3 : l3.length = N) :
    (List.take N (List.drop (0 * N) (l0 ++ (l1 ++ (l2 ++ l3)))) = l0)
    ∧ (List.take N (List.drop (1 * N) (l0 ++ (l1 ++ (l2 ++ l3)))) = l1)
    ∧ (List.take N (List.drop (2 * N) (l0 ++ (l1 ++ (l2 ++ l3)))) = l2)
    ∧ (List.take N (List.drop (3 * N) (l0 ++ (l1 ++ (l2 ++ l3)))) = l3) := by
  subst h0
  have e1 : 1 * l0.length = l0.length := by omega
  have e2 : 2 * l0.length = l0.length + l1.length := by omega
  have e3 : 3 * l0.length = l0.length + (l1.length + l2.length) := by omega
  refine ⟨?_, ?_, ?_, ?_⟩
  · simp [List.take_left]
  · rw [e1, List.drop_left, ← h1, List.take_left]
  · rw [e2, List.drop_append, List.drop_left, ← h2, List.take_left]
  · rw [e3, List.drop_append, List.drop_append, List.drop_left, ← h3]
    simp

/-- C10: given that the two case labels of the switch are distinct, `get_channel_count`
returns 1 for an RGB-family format with bit depth at most 8 (whatever the alpha flag), 4 for
an RGB-family format with bit depth above 8 and the alpha flag set, 3 for an RGB-family format
with bit depth above 8 and no alpha flag, 1 for a grayscale-family format, and throws
`CorruptDataError` for any other family; a successful result is 1, 3 or 4. -/
theorem get_channel_count_table (K : EriImage) (header : EriHeader) (hK : K.Rgb ≠ K.Gray) :
    (header.format_type &&& K.TypeMask = K.Rgb → header.bit_depth ≤ 8 →
      get_channel_count K header = .ok 1)
    ∧ (header.format_type &&& K.TypeMask = K.Rgb → 8 < header.bit_depth →
        header.format_type &&& K.WithAlpha ≠ 0 → get_channel_count K header = .ok 4)
    ∧ (header.format_type &&& K.TypeMask = K.Rgb → 8 < header.bit_depth →
        header.format_type &&& K.WithAlpha = 0 → get_channel_count K header = .ok 3)
    ∧ (header.format_type &&& K.TypeMask = K.Gray → get_channel_count K header = .ok 1)
    ∧ (header.format_type &&& K.TypeMask ≠ K.Rgb → header.format_type &&& K.TypeMask ≠ K.Gray →
        get_channel_count K header
          = .error (.object (.CorruptDataError "Unknown pixel format")))
    ∧ (∀ n, get_channel_count K header = .ok n → n = 1 ∨ n = 3 ∨ n = 4) := by
  refine ⟨?_, ?_, ?_, ?_, ?_, ?_⟩
  · intro h1 h2
    simp [get_channel_count, h1, h2]
  · intro h1 h2 h3
    simp [get_channel_count, h1, Nat.not_le.2 h2, h3]
  · intro h1 h2 h3
    simp [get_channel_count, h1, Nat.not_le.2 h2, h3]
  · intro h1
    have h2 : ¬ (K.Gray = K.Rgb) := fun h => hK h.symm
    simp [get_channel_count, h1, h2]
  · intro h1 h2
    simp [get_channel_count, h1, h2]
  · intro n hn
    unfold get_channel_count at hn
    split_ifs at hn <;> cases hn <;> simp

/-- C10 witness: with the sample constants, a 24-bit RGB header has three channels. -/
theorem get_channel_count_table_witness :
    sampleImage.Rgb ≠ sampleImage.Gray
    ∧ get_channel_count sampleImage (rgbHeader Architecture.RunLengthGamma) = .ok 3 :=
  ⟨by decide,
   (get_channel_count_table sampleImage (rgbHeader Architecture.RunLengthGamma)
      (by decide)).2.2.1 (by decide) (by decide) (by decide)⟩

theorem land_254_eq_zero {n : Nat} (h : n < 256) : n &&& 0xFE = 0 ↔ n = 0 ∨ n = 1 := by
  interval_cases n <;> simp

/-- C5: for a context whose `encode_type` is a byte, `validate_ctx` raises nothing if and
only if `op_table` is 0, `encode_type` is 0 or 1, `blocking_degree` is nonzero, and the
version is 1 with `bit_count` 0, or 8 with `bit_count` 8, or 16 with `bit_count` 8 and
`encode_type` 0. -/
theorem validate_ctx_accepts_iff (ctx : DecodeContext) (header : EriHeader)
    (hbyte : ctx.encode_type < 256) :
    validate_ctx ctx header = .ok ()
      ↔ ctx.op_table = 0 ∧ (ctx.encode_type = 0 ∨ ctx.encode_type = 1)
        ∧ header.blocking_degree ≠ 0
        ∧ ((ctx.eri_version = 1 ∧ ctx.bit_count = 0)
          ∨ (ctx.eri_version = 8 ∧ ctx.bit_count = 8)
          ∨ (ctx.eri_version = 16 ∧ ctx.bit_count = 8 ∧ ctx.encode_type = 0)) := by
  have hland := land_254_eq_zero hbyte
  unfold validate_ctx
  constructor
  · intro h
    split_ifs at h with h1 h2 h3 h4 h5 h6 h7 h8 h9 h10 <;> simp at h <;> simp at h1 <;>
      simp_all
  · rintro ⟨h1, h2, h3, h4⟩
    have h5 : ctx.encode_type &&& 0xFE = 0 := hland.2 h2
    rcases h4 with ⟨h6, h7⟩ | ⟨h6, h7⟩ | ⟨h6, h7, h8⟩ <;> simp [h1, h5, h3, h6, h7, *]

/-- C5 witness: the version-8 context of the sample RGB header is accepted. -/
theorem validate_ctx_accepts_iff_witness :
    rgbCtx.encode_type < 256
    ∧ validate_ctx rgbCtx (rgbHeader Architecture.RunLengthGamma) = .ok () :=
  ⟨by decide,
   (validate_ctx_accepts_iff rgbCtx (rgbHeader Architecture.RunLengthGamma) (by decide)).2
     (by decide)⟩

theorem validate_ctx_op_table (ctx : DecodeContext) (header : EriHeader)
    (h : ctx.op_table ≠ 0) :
    validate_ctx ctx header = .error (.object (.CorruptDataError "Unexpected meta data")) := by
  simp [validate_ctx, h]

theorem validate_ctx_version (ctx : DecodeContext) (header : EriHeader)
    (hop : ctx.op_table = 0) (het : ctx.encode_type &&& 0xFE = 0)
    (h1 : ctx.eri_version ≠ 1) (h8 : ctx.eri_version ≠ 8) (h16 : ctx.eri_version ≠ 16) :
    validate_ctx ctx header = .error (.object (.UnsupportedVersionError ctx.eri_version)) := by
  simp [validate_ctx, hop, het, h1, h8, h16]

/-! ## Failure scenarios of the decode call -/

/-- C8: for every input with a recognized pixel format whose `op_table` field is nonzero
(whatever the other fields and the header are), `decode_lossless_pixel_data` throws
`CorruptDataError`, and the front-end is left in the state reached by the four 8-bit reads
alone: nothing else is read, and `decode` and `reset` are not called. -/
theorem decode_op_table_nonzero {σ τ : Type} (D : Decoder σ τ) (K : EriImage)
    (header : EriHeader) (s : σ) (channel_count : Nat)
    (hfmt : get_channel_count K header = .ok channel_count)
    (hop : (D.get 8 (D.get 8 s).2).1 % 256 ≠ 0) :
    decode_lossless_pixel_data D K header s
      = .error (.object (.CorruptDataError "Unexpected meta data"),
          (D.get 8 (D.get 8 (D.get 8 (D.get 8 s).2).2).2).2) := by
  unfold decode_lossless_pixel_data decode_setup
  simp only [hfmt]
  rw [validate_ctx_op_table _ _ (by simpa [make_ctx, read_fields] using hop)]
  simp [read_fields]

/-- C8 witness: `op_table = 1` with otherwise valid fields on a scripted front-end; the call
log consists of the four 8-bit reads. -/
theorem decode_op_table_nonzero_witness :
    decode_lossless_pixel_data (scripted false) sampleImage
        (grayHeader Architecture.RunLengthGamma) (script [8, 1, 0, 8, 0] [[1, 2, 3, 4]])
      = .error (.object (.CorruptDataError "Unexpected meta data"),
          { bits := [0], blocks := [[1, 2, 3, 4]], codes := [],
            log := [Call.get 8, Call.get 8, Call.get 8, Call.get 8] }) :=
  decode_op_table_nonzero (scripted false) sampleImage (grayHeader Architecture.RunLengthGamma)
    (script [8, 1, 0, 8, 0] [[1, 2, 3, 4]]) 1 rfl (by decide)

/-- C9: for every `eri_version` other than 1, 8 and 16, with a recognized pixel format,
`op_table = 0` and bits 1-7 of `encode_type` clear, `decode_lossless_pixel_data` throws
`UnsupportedVersionError` (by value, carrying the version), whatever `bit_count` and
`blocking_degree` are. -/
theorem decode_unsupported_version {σ τ : Type} (D : Decoder σ τ) (K : EriImage)
    (header : EriHeader) (s : σ) (channel_count : Nat)
    (hfmt : get_channel_count K header = .ok channel_count)
    (hop : (read_fields D s).1.2.1 = 0)
    (het : (read_fields D s).1.2.2.1 &&& 0xFE = 0)
    (h1 : (read_fields D s).1.1 ≠ 1) (h8 : (read_fields D s).1.1 ≠ 8)
    (h16 : (read_fields D s).1.1 ≠ 16) :
    decode_lossless_pixel_data D K header s
      = .error (.object (.UnsupportedVersionError (read_fields D s).1.1),
          (read_fields D s).2) := by
  unfold decode_lossless_pixel_data decode_setup
  simp only [hfmt]
  rw [validate_ctx_version _ _ hop het h1 h8 h16]
  rfl

/-- C9 witness: `eri_version = 99` on a scripted front-end. -/
theorem decode_unsupported_version_witness :
    decode_lossless_pixel_data (scripted false) sampleImage
        (grayHeader Architecture.RunLengthGamma) (script [99, 0, 0, 8, 0] [])
      = .error (.object (.UnsupportedVersionError 99),
          (read_fields (scripted false) (script [99, 0, 0, 8, 0] [])).2) :=
  decode_unsupported_version (scripted false) sampleImage
    (grayHeader Architecture.RunLengthGamma) (script [99, 0, 0, 8, 0] []) 1
    rfl (by decide) (by decide) (by decide) (by decide) (by decide)

/-- C7: version 8 with `bit_count = 0` (and `op_table = 0`, `encode_type = 0`): the call
does not throw an `UnsupportedBitDepthError` object; what it throws is a pointer to one. -/
theorem decode_bit_depth_throws_pointer :
    decode_lossless_pixel_data (scripted false) sampleImage
        (grayHeader Architecture.RunLengthGamma) (script [8, 0, 0, 0, 0] [])
      = .error (.pointer (.UnsupportedBitDepthError 0),
          { bits := [0], blocks := [], codes := [],
            log := [Call.get 8, Call.get 8, Call.get 8, Call.get 8] }) := by
  rfl

theorem getD_set (l : Bytes) (i j a d : Nat) :
    (l.set i a).getD j d = if i = j ∧ i < l.length then a else l.getD j d := by
  rw [List.getD_eq_getElem?_getD, List.getD_eq_getElem?_getD, List.getElem?_set]
  by_cases h : i = j
  · subst h
    by_cases h2 : i < l.length
    · simp [h2]
    · simp [h2, List.getElem?_eq_none (Nat.le_of_not_lt h2)]
  · simp [h]

theorem foldl_flatMap {α β γ : Type} (step : γ → β → γ) (F : α → List β) (l : List α) (a : γ) :
    l.foldl (fun a i => (F i).foldl step a) a = (l.flatMap F).foldl step a := by
  induction l generalizing a with
  | nil => simp
  | cons i l ih => simp [List.flatMap_cons, List.foldl_append, ih]

/-- A loop whose body advances a pointer by a fixed amount `d` can be run without the
pointer: iteration `i` sees the pointer at `p + i * d`. -/
theorem foldl_pointer {α : Type} (step : α × Nat → Nat → α × Nat) (h : α → Nat → Nat → α)
    (d : Nat) (hstep : ∀ a p i, step (a, p) i = (h a p i, p + d)) (n : Nat) (a : α) (p : Nat) :
    (List.range n).foldl step (a, p)
      = ((List.range n).foldl (fun a i => h a (p + i * d) i) a, p + n * d) := by
  induction n with
  | zero => simp
  | succ n ih =>
    rw [List.range_succ, List.foldl_append, List.foldl_append, ih]
    simp only [List.foldl_cons, List.foldl_nil, hstep]
    rw [Nat.succ_mul, Nat.add_assoc]

theorem apply_writes_length (buf : Bytes) (ws : List (Nat × Nat)) :
    (apply_writes buf ws).length = buf.length := by
  unfold apply_writes
  induction ws generalizing buf with
  | nil => rfl
  | cons w ws ih => rw [List.foldl_cons, ih, List.length_set]

theorem apply_writes_append (buf : Bytes) (ws : List (Nat × Nat)) (w : Nat × Nat) :
    apply_writes buf (ws ++ [w]) = (apply_writes buf ws).set w.1 w.2 := by
  simp [apply_writes, List.foldl_append]

/-- A position no write goes to keeps its value. -/
theorem apply_writes_getD_other (buf : Bytes) (ws : List (Nat × Nat)) (k d : Nat)
    (h : ∀ w ∈ ws, w.1 ≠ k) : (apply_writes buf ws).getD k d = buf.getD k d := by
  induction ws using List.reverseRecOn with
  | nil => rfl
  | append_singleton ws w ih =>
    rw [apply_writes_append, getD_set]
    have h1 : w.1 ≠ k := h w (by simp)
    rw [if_neg (fun hc => h1 hc.1)]
    exact ih (fun w1 hw1 => h w1 (by simp [hw1]))

/-- A position inside the buffer that some write goes to, all writes to it carrying the
same value `v`, ends up holding `v`. -/
theorem apply_writes_getD_written (buf : Bytes) (ws : List (Nat × Nat)) (k d v : Nat)
    (hk : k < buf.length) (hex : ∃ w ∈ ws, w.1 = k) (hval : ∀ w ∈ ws, w.1 = k → w.2 = v) :
    (apply_writes buf ws).getD k d = v := by
  induction ws using List.reverseRecOn with
  | nil => simp at hex
  | append_singleton ws w ih =>
    rw [apply_writes_append, getD_set, apply_writes_length]
    by_cases h1 : w.1 = k
    · rw [if_pos ⟨h1, by omega⟩]
      exact hval w (by simp) h1
    · rw [if_neg (fun hc => h1 hc.1)]
      apply ih
      · obtain ⟨w1, hw1, hw2⟩ := hex
        rw [List.mem_append] at hw1
        rcases hw1 with hw1 | hw1
        · exact ⟨w1, hw1, hw2⟩
        · simp only [List.mem_singleton] at hw1
          subst hw1
          exact absurd hw2 h1
      · exact fun w1 hw1 => hval w1 (by simp [hw1])

theorem for_list_append {ε α β : Type} (body : α → β → Except ε α) (l1 l2 : List β) (a : α) :
    for_list body (l1 ++ l2) a
      = match for_list body l1 a with
        | .error e => .error e
        | .ok b => for_list body l2 b := by
  induction l1 generalizing a with
  | nil => rfl
  | cons b l1 ih =>
    simp only [List.cons_append, for_list]
    cases body a b with
    | error e => rfl
    | ok a1 => exact ih a1

theorem for_list_append_ok {ε α β : Type} {body : α → β → Except ε α} {l1 l2 : List β}
    {a c : α} (h : for_list body (l1 ++ l2) a = .ok c) :
    ∃ b, for_list body l1 a = .ok b ∧ for_list body l2 b = .ok c := by
  rw [for_list_append] at h
  cases h1 : for_list body l1 a with
  | error e => rw [h1] at h; cases h
  | ok b => rw [h1] at h; exact ⟨b, rfl, h⟩

theorem for_list_cons_ok {ε α β : Type} {body : α → β → Except ε α} {b : β} {l : List β}
    {a c : α} (h : for_list body (b :: l) a = .ok c) :
    ∃ a1, body a b = .ok a1 ∧ for_list body l a1 = .ok c := by
  simp only [for_list] at h
  cases h1 : body a b with
  | error e => rw [h1] at h; cases h
  | ok a1 => rw [h1] at h; exact ⟨a1, rfl, h⟩

/-- Invariant rule for a loop that may throw: a property kept by every successful
iteration holds after a successful loop. -/
theorem for_list_inv {ε α β : Type} {body : α → β → Except ε α} (P : α → Prop)
    {l : List β} {a c : α} (h : for_list body l a = .ok c) (h0 : P a)
    (hstep : ∀ b ∈ l, ∀ a a1, P a → body a b = .ok a1 → P a1) : P c := by
  induction l generalizing a with
  | nil => simp only [for_list] at h; cases h; exact h0
  | cons b l ih =>
    obtain ⟨a1, h1, h2⟩ := for_list_cons_ok h
    exact ih h2 (hstep b (by simp) a a1 h0 h1) (fun b1 hb1 => hstep b1 (by simp [hb1]))

theorem range_split {n y : Nat} (hy : y < n) :
    ∃ rest, List.range n = List.range y ++ y :: rest ∧ ∀ z ∈ rest, z ≠ y := by
  obtain ⟨m, rfl⟩ : ∃ m, n = y + (m + 1) := ⟨n - y - 1, by omega⟩
  refine ⟨(List.range m).map (fun i => y + (i + 1)), ?_, ?_⟩
  · rw [List.range_add, List.range_succ_eq_map]
    simp [Function.comp_def]
  · intro z hz
    simp only [List.mem_map, List.mem_range] at hz
    obtain ⟨i, _, rfl⟩ := hz
    omega

/-- A loop storing through an output index while reading through a walking pointer. -/
theorem foldl_walk (I V : Nat → Nat) (n : Nat) (a : Bytes) (p : Nat) :
    (List.range n).foldl (fun (st : Bytes × Nat) i => (st.1.set (I i) (V st.2), st.2 + 1)) (a, p)
      = (apply_writes a ((List.range n).map (fun i => (I i, V (p + i)))), p + n) := by
  induction n with
  | zero => simp [apply_writes]
  | succ n ih =>
    rw [List.range_succ, List.foldl_append, ih]
    simp [apply_writes, List.foldl_append, Nat.add_assoc]

theorem foldl_walk2 (I : Nat → Nat → Nat) (V : Nat → Nat) (n m : Nat) (a : Bytes) (p : Nat) :
    (List.range n).foldl (fun (st : Bytes × Nat) i =>
        (List.range m).foldl (fun (st : Bytes × Nat) j =>
          (st.1.set (I i j) (V st.2), st.2 + 1)) st) (a, p)
      = (apply_writes a ((List.range n).flatMap (fun i =>
          (List.range m).map (fun j => (I i j, V (p + i * m + j))))), p + n * m) := by
  rw [foldl_pointer _ (fun a p i =>
      apply_writes a ((List.range m).map (fun j => (I i j, V (p + j))))) m
      (fun a p i => foldl_walk (I i) V m a p)]
  unfold apply_writes
  rw [foldl_flatMap]

theorem foldl_walk3 (I : Nat → Nat → Nat → Nat) (V : Nat → Nat) (n m l : Nat) (a : Bytes)
    (p : Nat) :
    (List.range n).foldl (fun (st : Bytes × Nat) i =>
        (List.range m).foldl (fun (st : Bytes × Nat) j =>
          (List.range l).foldl (fun (st : Bytes × Nat) k =>
            (st.1.set (I i j k) (V st.2), st.2 + 1)) st) st) (a, p)
      = (apply_writes a ((List.range n).flatMap (fun i =>
          (List.range m).flatMap (fun j =>
            (List.range l).map (fun k => (I i j k, V (p + i * (m * l) + j * l + k)))))),
          p + n * (m * l)) := by
  rw [foldl_pointer _ (fun a p i =>
      apply_writes a ((List.range m).flatMap (fun j =>
        (List.range l).map (fun k => (I i j k, V (p + j * l + k)))))) (m * l)
      (fun a p i => foldl_walk2 (I i) V m l a p)]
  unfold apply_writes
  rw [foldl_flatMap]

/-! ## Cropping -/

theorem crop_row (input : Bytes) (n : Nat) (out : Bytes) (op ip : Nat) :
    (List.range n).foldl
        (fun (st : Bytes × Nat × Nat) _x =>
          (st.1.set st.2.1 (input.getD st.2.2 0), st.2.1 + 1, st.2.2 + 1)) (out, op, ip)
      = (apply_writes out ((List.range n).map (fun x => (op + x, input.getD (ip + x) 0))),
          op + n, ip + n) := by
  induction n with
  | zero => simp [apply_writes]
  | succ n ih =>
    rw [List.range_succ, List.foldl_append, ih]
    simp [apply_writes, List.foldl_append, Nat.add_assoc]

/-- The function `crop` as one list of writes into the zero-filled output. -/
theorem crop_eq (input : Bytes) (ctx : DecodeContext) (header : EriHeader) :
    crop input ctx header
      = apply_writes (bstr (header.width * header.height * ctx.channel_count))
          ((List.range header.height).flatMap (fun y =>
            (List.range (header.width * ctx.channel_count)).map (fun x =>
              (y * header.width * ctx.channel_count + x,
                input.getD (y * ctx.width_blocks * ctx.block_stride + x) 0)))) := by
  unfold crop
  simp only [crop_row]
  unfold apply_writes
  rw [foldl_flatMap]

theorem crop_length (input : Bytes) (ctx : DecodeContext) (header : EriHeader) :
    (crop input ctx header).length = header.width * header.height * ctx.channel_count := by
  rw [crop_eq, apply_writes_length]
  simp [bstr]

/-- Byte `x` of output row `y` is byte `x` of canvas row `y`. -/
theorem crop_getD (input : Bytes) (ctx : DecodeContext) (header : EriHeader) (y x : Nat)
    (hy : y < header.height) (hx : x < header.width * ctx.channel_count) :
    (crop input ctx header).getD (y * header.width * ctx.channel_count + x) 0
      = input.getD (y * ctx.width_blocks * ctx.block_stride + x) 0 := by
  rw [crop_eq]
  apply apply_writes_getD_written
  · have h1 := radix_lt hx hy
    simp only [bstr, List.length_replicate]
    rw [Nat.mul_assoc]
    calc y * (header.width * ctx.channel_count) + x
        < header.height * (header.width * ctx.channel_count) := h1
      _ = header.width * header.height * ctx.channel_count := by
          rw [Nat.mul_comm header.width header.height, Nat.mul_assoc]
  · refine ⟨(y * header.width * ctx.channel_count + x,
        input.getD (y * ctx.width_blocks * ctx.block_stride + x) 0), ?_, rfl⟩
    simp only [List.mem_flatMap, List.mem_map, List.mem_range]
    exact ⟨y, hy, x, hx, rfl⟩
  · intro w hw hk
    simp only [List.mem_flatMap, List.mem_map, List.mem_range] at hw
    obtain ⟨y1, _, x1, hx1, rfl⟩ := hw
    simp only at hk
    rw [Nat.mul_assoc, Nat.mul_assoc] at hk
    obtain ⟨h1, h2⟩ := radix_inj hx1 hx hk
    subst h1 h2
    rfl

/-! ## Frame assembly -/

/-- The function `assemble` as one list of writes into the canvas: sample
`c * block_area + yy * block_size + xx` of the channel-planar block goes to channel `c` of
the pixel at row `y * block_size + yy`, column `x * block_size + xx`. -/
theorem assemble_eq (ctx : DecodeContext) (y x : Nat) (block_out output : Bytes) :
    assemble ctx y x block_out output
      = apply_writes output ((List.range ctx.channel_count).flatMap (fun c =>
          (List.range ctx.block_size).flatMap (fun yy =>
            (List.range ctx.block_size).map (fun xx =>
              (((y * ctx.block_size + yy) * ctx.width_blocks * ctx.block_size
                  + (x * ctx.block_size + xx)) * ctx.channel_count + c,
                block_out.getD
                  (0 + c * (ctx.block_size * ctx.block_size) + yy * ctx.block_size + xx) 0))))) := by
  unfold assemble
  simp only []
  rw [foldl_walk3 (fun c yy xx =>
      ((y * ctx.block_size + yy) * ctx.width_blocks * ctx.block_size
        + (x * ctx.block_size + xx)) * ctx.channel_count + c)
      (fun p => block_out.getD p 0)]

theorem assemble_length (ctx : DecodeContext) (y x : Nat) (block_out output : Bytes) :
    (assemble ctx y x block_out output).length = output.length := by
  rw [assemble_eq, apply_writes_length]

/-- Canvas positions determine the pixel row, pixel column and channel. -/
theorem canvas_inj {W cc Y X c Y1 X1 c1 : Nat} (hX : X < W) (hX1 : X1 < W) (hc : c < cc)
    (hc1 : c1 < cc) (h : (Y * W + X) * cc + c = (Y1 * W + X1) * cc + c1) :
    Y = Y1 ∧ X = X1 ∧ c = c1 := by
  obtain ⟨h1, h2⟩ := radix_inj hc hc1 h
  obtain ⟨h3, h4⟩ := radix_inj hX hX1 h1
  exact ⟨h3, h4, h2⟩

theorem canvas_lt {W H cc Y X c : Nat} (hY : Y < H) (hX : X < W) (hc : c < cc) :
    (Y * W + X) * cc + c < H * W * cc :=
  radix_lt hc (radix_lt hX hY)

/-- Inside the canvas, the position of a pixel of block `(x, y)` holds the block's sample
after the block has been assembled. -/
theorem assemble_getD_own (ctx : DecodeContext) (y x : Nat) (block_out output : Bytes)
    (c yy xx : Nat) (hx : x < ctx.width_blocks) (hc : c < ctx.channel_count)
    (hyy : yy < ctx.block_size) (hxx : xx < ctx.block_size)
    (hlen : ((y * ctx.block_size + yy) * (ctx.width_blocks * ctx.block_size)
        + (x * ctx.block_size + xx)) * ctx.channel_count + c < output.length) :
    (assemble ctx y x block_out output).getD
        (((y * ctx.block_size + yy) * (ctx.width_blocks * ctx.block_size)
          + (x * ctx.block_size + xx)) * ctx.channel_count + c) 0
      = block_out.getD (c * (ctx.block_size * ctx.block_size) + yy * ctx.block_size + xx) 0 := by
  rw [assemble_eq]
  apply apply_writes_getD_written _ _ _ _ _ hlen
  · refine ⟨(((y * ctx.block_size + yy) * ctx.width_blocks * ctx.block_size
        + (x * ctx.block_size + xx)) * ctx.channel_count + c,
      block_out.getD
        (0 + c * (ctx.block_size * ctx.block_size) + yy * ctx.block_size + xx) 0), ?_, ?_⟩
    · simp only [List.mem_flatMap, List.mem_map, List.mem_range]
      exact ⟨c, hc, yy, hyy, xx, hxx, rfl⟩
    · simp only [Nat.mul_assoc]
  · intro w hw hk
    simp only [List.mem_flatMap, List.mem_map, List.mem_range] at hw
    obtain ⟨c1, hc1, yy1, hyy1, xx1, hxx1, rfl⟩ := hw
    simp only at hk
    rw [Nat.mul_assoc (y * ctx.block_size + yy1)] at hk
    obtain ⟨h1, h2, h3⟩ := canvas_inj (radix_lt hxx1 hx) (radix_lt hxx hx) hc1 hc hk
    have h4 : yy1 = yy := by omega
    have h5 : xx1 = xx := by omega
    subst h3 h4 h5
    simp

/-- A canvas position outside block `(x, y)` is not touched by assembling that block. -/
theorem assemble_getD_other (ctx : DecodeContext) (y x : Nat) (block_out output : Bytes)
    (k : Nat)
    (h : ∀ c yy xx, c < ctx.channel_count → yy < ctx.block_size → xx < ctx.block_size →
      k ≠ ((y * ctx.block_size + yy) * (ctx.width_blocks * ctx.block_size)
          + (x * ctx.block_size + xx)) * ctx.channel_count + c) :
    (assemble ctx y x block_out output).getD k 0 = output.getD k 0 := by
  rw [assemble_eq]
  apply apply_writes_getD_other
  intro w hw hk
  simp only [List.mem_flatMap, List.mem_map, List.mem_range] at hw
  obtain ⟨c1, hc1, yy1, hyy1, xx1, hxx1, rfl⟩ := hw
  simp only at hk
  rw [Nat.mul_assoc (y * ctx.block_size + yy1)] at hk
  exact h c1 yy1 xx1 hc1 hyy1 hxx1 hk.symm

/-! ## The block loop and the canvas -/

theorem decode_block_output {σ τ : Type} {D : Decoder σ τ} {K : EriImage} {header : EriHeader}
    {ctx : DecodeContext} {permutation codes : List Nat} {y x : Nat} {st st1 : LoopState σ τ}
    (h : decode_block D K header ctx permutation codes y st x = .ok st1) :
    st1.output = assemble ctx y x st1.buffers.block_out st.output := by
  unfold decode_block at h
  split at h
  · cases h
  · cases h
    rfl

/-- Processing the blocks `l` of block-row `y` keeps the canvas size and every canvas
position outside those blocks. -/
theorem blocks_frame {σ τ : Type} {D : Decoder σ τ} {K : EriImage} {header : EriHeader}
    {ctx : DecodeContext} {permutation codes : List Nat} {y : Nat} {l : List Nat}
    {st st1 : LoopState σ τ}
    (h : for_list (decode_block D K header ctx permutation codes y) l st = .ok st1) :
    st1.output.length = st.output.length
    ∧ ∀ k, (∀ x ∈ l, ∀ c yy xx, c < ctx.channel_count → yy < ctx.block_size →
          xx < ctx.block_size →
          k ≠ canvas_index ctx (y * ctx.block_size + yy) (x * ctx.block_size + xx) c) →
        st1.output.getD k 0 = st.output.getD k 0 := by
  refine for_list_inv
    (fun a => a.output.length = st.output.length
      ∧ ∀ k, (∀ x ∈ l, ∀ c yy xx, c < ctx.channel_count → yy < ctx.block_size →
            xx < ctx.block_size →
            k ≠ canvas_index ctx (y * ctx.block_size + yy) (x * ctx.block_size + xx) c) →
          a.output.getD k 0 = st.output.getD k 0) h ⟨rfl, fun _ _ => rfl⟩ ?_
  intro x hx a a1 ⟨hlen, hframe⟩ hbody
  have hout := decode_block_output hbody
  refine ⟨by rw [hout, assemble_length, hlen], ?_⟩
  intro k hk
  rw [hout, assemble_getD_other ctx y x _ _ k (fun c yy xx hc hyy hxx => hk x hx c yy xx hc hyy hxx)]
  exact hframe k hk

/-- Processing the block-rows `l` keeps the canvas size and every canvas position outside
the blocks of those rows. -/
theorem rows_frame {σ τ : Type} {D : Decoder σ τ} {K : EriImage} {header : EriHeader}
    {ctx : DecodeContext} {permutation codes : List Nat} {l : List Nat}
    {st st1 : LoopState σ τ}
    (h : for_list (decode_block_row D K header ctx permutation codes) l st = .ok st1) :
    st1.output.length = st.output.length
    ∧ ∀ k, (∀ y ∈ l, ∀ x, x < ctx.width_blocks → ∀ c yy xx, c < ctx.channel_count →
          yy < ctx.block_size → xx < ctx.block_size →
          k ≠ canvas_index ctx (y * ctx.block_size + yy) (x * ctx.block_size + xx) c) →
        st1.output.getD k 0 = st.output.getD k 0 := by
  refine for_list_inv
    (fun a => a.output.length = st.output.length
      ∧ ∀ k, (∀ y ∈ l, ∀ x, x < ctx.width_blocks → ∀ c yy xx, c < ctx.channel_count →
            yy < ctx.block_size → xx < ctx.block_size →
            k ≠ canvas_index ctx (y * ctx.block_size + yy) (x * ctx.block_size + xx) c) →
          a.output.getD k 0 = st.output.getD k 0) h ⟨rfl, fun _ _ => rfl⟩ ?_
  intro y hy a a1 ⟨hlen, hframe⟩ hbody
  obtain ⟨h1, h2⟩ := blocks_frame hbody
  refine ⟨by rw [h1, hlen], ?_⟩
  intro k hk
  rw [h2 k (fun x hx c yy xx hc hyy hxx => hk y hy x (List.mem_range.1 hx) c yy xx hc hyy hxx)]
  exact hframe k hk

/-- Two pixels of the canvas with the same offset are the same pixel of the same block. -/
theorem canvas_index_inj {ctx : DecodeContext} {y x c yy xx y1 x1 c1 yy1 xx1 : Nat}
    (hx : x < ctx.width_blocks) (hx1 : x1 < ctx.width_blocks)
    (hc : c < ctx.channel_count) (hc1 : c1 < ctx.channel_count)
    (hyy : yy < ctx.block_size) (hyy1 : yy1 < ctx.block_size)
    (hxx : xx < ctx.block_size) (hxx1 : xx1 < ctx.block_size)
    (h : canvas_index ctx (y * ctx.block_size + yy) (x * ctx.block_size + xx) c
      = canvas_index ctx (y1 * ctx.block_size + yy1) (x1 * ctx.block_size + xx1) c1) :
    y = y1 ∧ x = x1 ∧ c = c1 ∧ yy = yy1 ∧ xx = xx1 := by
  unfold canvas_index at h
  obtain ⟨h1, h2, h3⟩ := canvas_inj (radix_lt hxx hx) (radix_lt hxx1 hx1) hc hc1 h
  obtain ⟨h4, h5⟩ := radix_inj hyy hyy1 h1
  obtain ⟨h6, h7⟩ := radix_inj hxx hxx1 h2
  exact ⟨h4, h6, h3, h5, h7⟩

/-- After a successful block loop, the canvas holds, at every pixel of block `(x, y)`, the
sample of the `block_out` that the transform of that block produced. -/
theorem canvas_block {σ τ : Type} {D : Decoder σ τ} {K : EriImage} {header : EriHeader}
    {ctx : DecodeContext} {permutation codes : List Nat} {st0 stF : LoopState σ τ}
    (h : for_list (decode_block_row D K header ctx permutation codes)
      (List.range ctx.height_blocks) st0 = .ok stF)
    (hlen : st0.output.length
      = ctx.height_blocks * ctx.block_size * (ctx.width_blocks * ctx.block_size)
          * ctx.channel_count)
    (y x : Nat) (hy : y < ctx.height_blocks) (hx : x < ctx.width_blocks) :
    ∃ stA stC,
      for_list (decode_block_row D K header ctx permutation codes) (List.range y) st0 = .ok stA
      ∧ for_list (decode_block D K header ctx permutation codes y) (List.range (x + 1)) stA
          = .ok stC
      ∧ ∀ c yy xx, c < ctx.channel_count → yy < ctx.block_size → xx < ctx.block_size →
          stF.output.getD
              (canvas_index ctx (y * ctx.block_size + yy) (x * ctx.block_size + xx) c) 0
            = stC.buffers.block_out.getD
                (c * (ctx.block_size * ctx.block_size) + yy * ctx.block_size + xx) 0 := by
  obtain ⟨restY, hsplitY, hrestY⟩ := range_split hy
  obtain ⟨restX, hsplitX, hrestX⟩ := range_split hx
  rw [hsplitY] at h
  obtain ⟨stA, hA, h1⟩ := for_list_append_ok h
  obtain ⟨stRow, hrow, hF⟩ := for_list_cons_ok h1
  unfold decode_block_row at hrow
  rw [hsplitX] at hrow
  obtain ⟨stB, hB, h2⟩ := for_list_append_ok hrow
  obtain ⟨stC, hC, hR⟩ := for_list_cons_ok h2
  refine ⟨stA, stC, hA, ?_, ?_⟩
  · rw [List.range_succ, for_list_append, hB]
    simp only [for_list, hC]
  · intro c yy xx hc hyy hxx
    have hrestX_lt : ∀ z ∈ restX, z < ctx.width_blocks := by
      intro z hz
      have : z ∈ List.range ctx.width_blocks := by rw [hsplitX]; simp [hz]
      exact List.mem_range.1 this
    have lenA := (rows_frame hA).1
    have lenB := (blocks_frame hB).1
    -- later block-rows leave the position alone
    rw [(rows_frame hF).2 _ (by
      intro y1 hy1 x1 hx1 c1 yy1 xx1 hc1 hyy1 hxx1 heq
      exact hrestY y1 hy1 (canvas_index_inj hx hx1 hc hc1 hyy hyy1 hxx hxx1 heq).1.symm)]
    -- the blocks to the right leave the position alone
    rw [(blocks_frame hR).2 _ (by
      intro x1 hx1 c1 yy1 xx1 hc1 hyy1 hxx1 heq
      exact hrestX x1 hx1
        (canvas_index_inj hx (hrestX_lt x1 hx1) hc hc1 hyy hyy1 hxx hxx1 heq).2.1.symm)]
    -- the block itself stores its sample there
    rw [decode_block_output hC]
    unfold canvas_index
    apply assemble_getD_own ctx y x _ _ c yy xx hx hc hyy hxx
    rw [lenB, lenA, hlen]
    exact canvas_lt (radix_lt hyy hy) (radix_lt hxx hx) hc

/-! ## Buffer sizes -/

/-- Invariant rule for a loop that cannot throw. -/
theorem foldl_inv {α β : Type} (P : α → Prop) (f : α → β → α) (l : List β) (a : α)
    (h0 : P a) (hstep : ∀ a b, P a → P (f a b)) : P (l.foldl f a) := by
  induction l generalizing a with
  | nil => exact h0
  | cons b l ih => exact ih (f a b) (hstep a b h0)

theorem transform_scatter_length (ctx : DecodeContext) (permutation : List Nat)
    (perm_offset : Nat) (arrange_buf block_out : Bytes) :
    (transform_scatter ctx permutation perm_offset arrange_buf block_out).length
      = block_out.length := by
  unfold transform_scatter
  apply foldl_inv (fun (bo : Bytes) => bo.length = block_out.length) _ _ _ rfl
  intro bo i h
  rw [List.length_set, h]

theorem color_add1_length (ctx : DecodeContext) (src dst : Nat) (buf : Bytes) :
    (color_add1 ctx src dst buf).length = buf.length := by
  unfold color_add1
  apply foldl_inv (fun (bo : Bytes) => bo.length = buf.length) _ _ _ rfl
  intro bo i h
  simp only [List.length_set, h]

theorem color_add2_length (ctx : DecodeContext) (src dst1 dst2 : Nat) (buf : Bytes) :
    (color_add2 ctx src dst1 dst2 buf).length = buf.length := by
  unfold color_add2
  apply foldl_inv (fun (bo : Bytes) => bo.length = buf.length) _ _ _ rfl
  intro bo i h
  simp only [List.length_set, h]

theorem color_ops_length (ctx : DecodeContext) (color_op : Nat) (buf : Bytes) :
    ((color_ops.getD color_op color_op_0000) buf ctx).length = buf.length := by
  by_cases h : color_op < 16
  · interval_cases color_op <;>
      simp [color_ops, color_op_0000, color_op_0101, color_op_0110, color_op_0111,
        color_op_1001, color_op_1010, color_op_1011, color_op_1101, color_op_1110,
        color_op_1111, color_add1_length, color_add2_length]
  · rw [List.getD_eq_default _ _ (by simp [color_ops]; omega)]
    rfl

theorem accumulate_row_length (ctx : DecodeContext) (t : Bytes × Nat × Nat) :
    (accumulate_row ctx t).1.length = t.1.length := by
  unfold accumulate_row
  apply foldl_inv (fun (u : Bytes × Nat × Nat) => u.1.length = t.1.length) _ _ _ rfl
  intro u j hu
  simp only [List.length_set, hu]

theorem transform_horizontal_accumulate_length (ctx : DecodeContext)
    (block_out prev_col : Bytes) (prev_block_col : Nat) :
    (transform_horizontal_accumulate ctx block_out prev_col prev_block_col).block_out.length
      = block_out.length := by
  unfold transform_horizontal_accumulate
  apply foldl_inv (fun (st : HState) => st.block_out.length = block_out.length) _ _ _ rfl
  intro st i h
  simp only [accumulate_row_length, h]

theorem transform_horizontal_store_block_out (ctx : DecodeContext)
    (block_out prev_col : Bytes) (prev_block_col : Nat) :
    (transform_horizontal_store ctx block_out prev_col prev_block_col).block_out
      = block_out := by
  unfold transform_horizontal_store
  apply foldl_inv (fun (st : HState) => st.block_out = block_out) _ _ _ rfl
  intro st i h
  exact h

theorem vertical_add_line_length (ctx : DecodeContext) (st : VState) :
    (vertical_add_line ctx st).block_out.length = st.block_out.length := by
  unfold vertical_add_line
  apply foldl_inv (fun (u : VState) => u.block_out.length = st.block_out.length) _ _ _ rfl
  intro u j hu
  simp only [List.length_set, hu]

theorem vertical_add_plane_length (ctx : DecodeContext) (st : VState) :
    (vertical_add_plane ctx st).block_out.length = st.block_out.length := by
  unfold vertical_add_plane
  apply foldl_inv (fun (u : VState) => u.block_out.length = st.block_out.length) _ _ _ rfl
  intro u i hu
  simp only [vertical_add_line_length, hu]

theorem vertical_store_row_block_out (ctx : DecodeContext) (st : VState) :
    (vertical_store_row ctx st).block_out = st.block_out := by
  unfold vertical_store_row
  apply foldl_inv (fun (u : VState) => u.block_out = st.block_out) _ _ _ rfl
  intro u j hu
  exact hu

theorem transform_vertical_length (ctx : DecodeContext) (block_out prev_row : Bytes)
    (prev_block_row : Nat) :
    (transform_vertical ctx block_out prev_row prev_block_row).block_out.length
      = block_out.length := by
  unfold transform_vertical
  apply foldl_inv (fun (st : VState) => st.block_out.length = block_out.length) _ _ _ rfl
  intro st k h
  simp only [vertical_store_row_block_out, vertical_add_plane_length, h]

/-- The function `transform` keeps the size of `block_out`. -/
theorem transform_block_out_length (transformer_code : Nat) (ctx : DecodeContext)
    (permutation : List Nat) (arrange_buf : Bytes) (prev_block_row prev_block_col : Nat)
    (b : Buffers) :
    (transform transformer_code ctx permutation arrange_buf prev_block_row prev_block_col
        b).block_out.length = b.block_out.length := by
  unfold transform
  simp only []
  split_ifs with h1 h2
  · simp only [transform_scatter_length]
  · simp only [transform_vertical_length, transform_horizontal_accumulate_length,
      color_ops_length, transform_scatter_length]
  · simp only [transform_vertical_length, transform_horizontal_store_block_out,
      color_ops_length, transform_scatter_length]

theorem decode_block_block_out_length {σ τ : Type} {D : Decoder σ τ} {K : EriImage}
    {header : EriHeader} {ctx : DecodeContext} {permutation codes : List Nat} {y x : Nat}
    {st st1 : LoopState σ τ}
    (h : decode_block D K header ctx permutation codes y st x = .ok st1) :
    st1.buffers.block_out.length = st.buffers.block_out.length := by
  unfold decode_block at h
  split at h
  · cases h
  · cases h
    exact transform_block_out_length _ _ _ _ _ _ _

theorem blocks_block_out_length {σ τ : Type} {D : Decoder σ τ} {K : EriImage}
    {header : EriHeader} {ctx : DecodeContext} {permutation codes : List Nat} {y : Nat}
    {l : List Nat} {st st1 : LoopState σ τ}
    (h : for_list (decode_block D K header ctx permutation codes y) l st = .ok st1) :
    st1.buffers.block_out.length = st.buffers.block_out.length :=
  for_list_inv (fun a => a.buffers.block_out.length = st.buffers.block_out.length) h rfl
    (fun _ _ _ _ ha hb => (decode_block_block_out_length hb).trans ha)

theorem rows_block_out_length {σ τ : Type} {D : Decoder σ τ} {K : EriImage}
    {header : EriHeader} {ctx : DecodeContext} {permutation codes : List Nat}
    {l : List Nat} {st st1 : LoopState σ τ}
    (h : for_list (decode_block_row D K header ctx permutation codes) l st = .ok st1) :
    st1.buffers.block_out.length = st.buffers.block_out.length :=
  for_list_inv (fun a => a.buffers.block_out.length = st.buffers.block_out.length) h rfl
    (fun _ _ _ _ ha hb => (blocks_block_out_length hb).trans ha)

/-! ## The setup -/

theorem decode_setup_ok {σ τ : Type} {D : Decoder σ τ} {K : EriImage} {header : EriHeader}
    {s : σ} {su : Setup σ τ} (h : decode_setup D K header s = .ok su) :
    ∃ cc s2 t1, get_channel_count K header = .ok cc
      ∧ su.ctx = make_ctx header (read_fields D s).1 cc
      ∧ validate_ctx su.ctx header = .ok ()
      ∧ su.permutation = init_permutation su.ctx
      ∧ su.init = initial_state su.ctx s2 t1 := by
  unfold decode_setup at h
  simp only [] at h
  split at h
  · cases h
  · rename_i cc hcc
    split at h
    · cases h
    · rename_i hval
      split at h
      · cases h
      · rename_i codes s1 t1 hpre
        split at h
        · cases h
        · rename_i s2 hsync
          cases h
          exact ⟨cc, s2, t1, hcc, rfl, hval, rfl, rfl⟩

theorem ceil_blocks_cover (n b : Nat) (hb : 0 < b) : n ≤ (n + b - 1) / b * b := by
  have h1 := Nat.div_add_mod (n + b - 1) b
  have h2 := Nat.mod_lt (n + b - 1) hb
  rw [Nat.mul_comm] at h1
  omega

theorem make_ctx_block_size_pos (header : EriHeader) (f : Nat × Nat × Nat × Nat) (cc : Nat) :
    0 < (make_ctx header f cc).block_size := by
  simp only [make_ctx, Nat.one_shiftLeft]
  exact Nat.pos_pow_of_pos _ (by decide)

theorem decode_ok {σ τ : Type} {D : Decoder σ τ} {K : EriImage} {header : EriHeader}
    {s s1 : σ} {out : Bytes} (h : decode_lossless_pixel_data D K header s = .ok (out, s1)) :
    ∃ su stF, decode_setup D K header s = .ok su
      ∧ for_list (decode_block_row D K header su.ctx su.permutation su.transformer_codes)
          (List.range su.ctx.height_blocks) su.init = .ok stF
      ∧ out = crop stF.output su.ctx header := by
  unfold decode_lossless_pixel_data at h
  cases hsu : decode_setup D K header s with
  | error e => rw [hsu] at h; cases h
  | ok su =>
    rw [hsu] at h
    simp only [] at h
    cases hF : for_list (decode_block_row D K header su.ctx su.permutation su.transformer_codes)
        (List.range su.ctx.height_blocks) su.init with
    | error e => rw [hF] at h; cases h
    | ok stF =>
      rw [hF] at h
      cases h
      exact ⟨su, stF, rfl, hF, rfl⟩

/-! ## Output size and output pixels -/

/-- C4: whenever `decode_lossless_pixel_data` succeeds, the returned buffer has exactly
`width * height * channel_count` bytes, for every header width and height. -/
theorem decode_output_length {σ τ : Type} (D : Decoder σ τ) (K : EriImage)
    (header : EriHeader) (s s1 : σ) (out : Bytes)
    (h : decode_lossless_pixel_data D K header s = .ok (out, s1)) :
    ∃ channel_count, get_channel_count K header = .ok channel_count
      ∧ out.length = header.width * header.height * channel_count := by
  obtain ⟨su, stF, hsu, _, hout⟩ := decode_ok h
  obtain ⟨cc, s2, t1, hcc, hctx, _, _, _⟩ := decode_setup_ok hsu
  refine ⟨cc, hcc, ?_⟩
  rw [hout, crop_length, hctx]
  rfl

/-- C4 witness: the 3 x 2 grayscale image (block size 2, so the canvas is 4 x 2) decodes
to 6 bytes. -/
theorem decode_output_length_witness :
    ∃ channel_count,
      get_channel_count sampleImage (grayHeader Architecture.RunLengthGamma) = .ok channel_count
      ∧ [1, 3, 8, 4, 10, 22].length = 3 * 2 * channel_count :=
  decode_output_length (scripted false) sampleImage (grayHeader Architecture.RunLengthGamma)
    (script [8, 0, 0, 8, 0] [[1, 2, 3, 4], [5, 6, 7, 8]]) grayFinal [1, 3, 8, 4, 10, 22] rfl

/-- C3: whenever `decode_lossless_pixel_data` succeeds, for every pixel column `px < width`,
pixel row `py < height` and channel `c < channel_count`, the output byte at index
`(py * width + px) * channel_count + c` (an index inside the output) is the byte at planar
index `c * block_area + (py mod block_size) * block_size + (px mod block_size)` (an index
inside `block_out`) of the `block_out` produced by the transform of block
`(px div block_size, py div block_size)`. -/
theorem decode_output_pixel {σ τ : Type} (D : Decoder σ τ) (K : EriImage)
    (header : EriHeader) (s s1 : σ) (out : Bytes)
    (h : decode_lossless_pixel_data D K header s = .ok (out, s1)) :
    ∃ su, decode_setup D K header s = .ok su
      ∧ ∀ px py c, px < header.width → py < header.height → c < su.ctx.channel_count →
        ∃ st,
          state_after_block D K header s (py / su.ctx.block_size) (px / su.ctx.block_size)
            = some st
          ∧ (py * header.width + px) * su.ctx.channel_count + c < out.length
          ∧ c * su.ctx.block_area + py % su.ctx.block_size * su.ctx.block_size
              + px % su.ctx.block_size < st.buffers.block_out.length
          ∧ out.getD ((py * header.width + px) * su.ctx.channel_count + c) 0
            = st.buffers.block_out.getD
                (c * su.ctx.block_area + py % su.ctx.block_size * su.ctx.block_size
                  + px % su.ctx.block_size) 0 := by
  obtain ⟨su, stF, hsu, hF, hout⟩ := decode_ok h
  obtain ⟨cc, s2, t1, hcc, hctx, _, _, hinit⟩ := decode_setup_ok hsu
  refine ⟨su, hsu, ?_⟩
  intro px py c hpx hpy hc
  -- geometry of the context
  have hbs : 0 < su.ctx.block_size := by
    rw [hctx]
    exact make_ctx_block_size_pos header (read_fields D s).1 cc
  have harea : su.ctx.block_area = su.ctx.block_size * su.ctx.block_size := by rw [hctx]; rfl
  have hsamples : su.ctx.block_samples = su.ctx.block_area * su.ctx.channel_count := by
    rw [hctx]; rfl
  have hstride : su.ctx.block_stride = su.ctx.block_size * su.ctx.channel_count := by
    rw [hctx]; rfl
  have hwb : header.width ≤ su.ctx.width_blocks * su.ctx.block_size := by
    rw [hctx]
    exact ceil_blocks_cover header.width _
      (make_ctx_block_size_pos header (read_fields D s).1 cc)
  have hhb : header.height ≤ su.ctx.height_blocks * su.ctx.block_size := by
    rw [hctx]
    exact ceil_blocks_cover header.height _
      (make_ctx_block_size_pos header (read_fields D s).1 cc)
  have hy : py / su.ctx.block_size < su.ctx.height_blocks :=
    (Nat.div_lt_iff_lt_mul hbs).2 (by omega)
  have hx : px / su.ctx.block_size < su.ctx.width_blocks :=
    (Nat.div_lt_iff_lt_mul hbs).2 (by omega)
  have hyy : py % su.ctx.block_size < su.ctx.block_size := Nat.mod_lt _ hbs
  have hxx : px % su.ctx.block_size < su.ctx.block_size := Nat.mod_lt _ hbs
  have hpy_eq : py / su.ctx.block_size * su.ctx.block_size + py % su.ctx.block_size = py := by
    have := Nat.div_add_mod py su.ctx.block_size
    rw [Nat.mul_comm] at this
    exact this
  have hpx_eq : px / su.ctx.block_size * su.ctx.block_size + px % su.ctx.block_size = px := by
    have := Nat.div_add_mod px su.ctx.block_size
    rw [Nat.mul_comm] at this
    exact this
  have hlen0 : su.init.output.length
      = su.ctx.height_blocks * su.ctx.block_size * (su.ctx.width_blocks * su.ctx.block_size)
          * su.ctx.channel_count := by
    rw [hinit]
    simp only [initial_state, bstr, List.length_replicate, hsamples, harea]
    ring
  -- the canvas at the pixel
  obtain ⟨stA, stC, hA, hC, hval⟩ :=
    canvas_block hF hlen0 (py / su.ctx.block_size) (px / su.ctx.block_size) hy hx
  have hv := hval c (py % su.ctx.block_size) (px % su.ctx.block_size) hc hyy hxx
  rw [hpy_eq, hpx_eq] at hv
  refine ⟨stC, ?_, ?_, ?_, ?_⟩
  · unfold state_after_block
    simp only [hsu, hA, hC]
  · rw [hout, crop_length]
    have := canvas_lt hpy hpx hc
    rw [Nat.mul_comm header.width header.height]
    exact this
  · rw [blocks_block_out_length hC, rows_block_out_length hA, hinit]
    simp only [initial_state, bstr, List.length_replicate, hsamples, harea]
    have := planar_lt hc hyy hxx
    exact this
  · have hcrop := crop_getD stF.output su.ctx header py (px * su.ctx.channel_count + c) hpy
      (radix_lt hc hpx)
    have e1 : (py * header.width + px) * su.ctx.channel_count + c
        = py * header.width * su.ctx.channel_count + (px * su.ctx.channel_count + c) := by
      ring
    have e2 : py * su.ctx.width_blocks * su.ctx.block_stride + (px * su.ctx.channel_count + c)
        = canvas_index su.ctx py px c := by
      unfold canvas_index
      rw [hstride]
      ring
    rw [hout, e1, hcrop, e2, hv, harea]

/-- C3 witness: the sample 3 x 2 grayscale decode. -/
theorem decode_output_pixel_witness :
    ∃ su, decode_setup (scripted false) sampleImage (grayHeader Architecture.RunLengthGamma)
        (script [8, 0, 0, 8, 0] [[1, 2, 3, 4], [5, 6, 7, 8]]) = .ok su
      ∧ ∀ px py c, px < (grayHeader Architecture.RunLengthGamma).width →
        py < (grayHeader Architecture.RunLengthGamma).height → c < su.ctx.channel_count →
        ∃ st,
          state_after_block (scripted false) sampleImage
              (grayHeader Architecture.RunLengthGamma)
              (script [8, 0, 0, 8, 0] [[1, 2, 3, 4], [5, 6, 7, 8]])
              (py / su.ctx.block_size) (px / su.ctx.block_size) = some st
          ∧ (py * (grayHeader Architecture.RunLengthGamma).width + px) * su.ctx.channel_count
              + c < [1, 3, 8, 4, 10, 22].length
          ∧ c * su.ctx.block_area + py % su.ctx.block_size * su.ctx.block_size
              + px % su.ctx.block_size < st.buffers.block_out.length
          ∧ [1, 3, 8, 4, 10, 22].getD
              ((py * (grayHeader Architecture.RunLengthGamma).width + px)
                * su.ctx.channel_count + c) 0
            = st.buffers.block_out.getD
                (c * su.ctx.block_area + py % su.ctx.block_size * su.ctx.block_size
                  + px % su.ctx.block_size) 0 :=
  decode_output_pixel (scripted false) sampleImage (grayHeader Architecture.RunLengthGamma)
    (script [8, 0, 0, 8, 0] [[1, 2, 3, 4], [5, 6, 7, 8]]) grayFinal [1, 3, 8, 4, 10, 22] rfl

/-! ## The end-to-end grayscale scenario -/

theorem gray_permutation :
    init_permutation grayCtx = [0, 1, 2, 3, 0, 2, 1, 3, 0, 1, 2, 3, 0, 2, 1, 3] := by
  rfl

/-- The transform of the first block (block-column 0) with code `0b11000000`; the bytes
are written as the code computes them. -/
theorem gray_block_left (x0 x1 x2 x3 o0 o1 o2 o3 r0 r1 r2 r3 c0 c1 : Nat) :
    transform 192 grayCtx [0, 1, 2, 3, 0, 2, 1, 3, 0, 1, 2, 3, 0, 2, 1, 3] [x0, x1, x2, x3] 0 0
        { block_out := [o0, o1, o2, o3], prev_row := [r0, r1, r2, r3], prev_col := [c0, c1] }
      = { block_out :=
            [((c0 + x0) % 256 + r0) % 256,
             (((c0 + x0) % 256 + x1) % 256 + r1) % 256,
             ((c1 + x2) % 256 + ((c0 + x0) % 256 + r0) % 256) % 256,
             (((c1 + x2) % 256 + x3) % 256 + (((c0 + x0) % 256 + x1) % 256 + r1) % 256) % 256]
          prev_row :=
            [((c1 + x2) % 256 + ((c0 + x0) % 256 + r0) % 256) % 256,
             (((c1 + x2) % 256 + x3) % 256 + (((c0 + x0) % 256 + x1) % 256 + r1) % 256) % 256,
             r2, r3]
          prev_col := [((c0 + x0) % 256 + x1) % 256, ((c1 + x2) % 256 + x3) % 256] } := by
  rfl

/-- The transform of the second block (block-column 1) with code `0b11000000`. -/
theorem gray_block_right (x0 x1 x2 x3 o0 o1 o2 o3 r0 r1 r2 r3 c0 c1 : Nat) :
    transform 192 grayCtx [0, 1, 2, 3, 0, 2, 1, 3, 0, 1, 2, 3, 0, 2, 1, 3] [x0, x1, x2, x3] 2 0
        { block_out := [o0, o1, o2, o3], prev_row := [r0, r1, r2, r3], prev_col := [c0, c1] }
      = { block_out :=
            [((c0 + x0) % 256 + r2) % 256,
             (((c0 + x0) % 256 + x1) % 256 + r3) % 256,
             ((c1 + x2) % 256 + ((c0 + x0) % 256 + r2) % 256) % 256,
             (((c1 + x2) % 256 + x3) % 256 + (((c0 + x0) % 256 + x1) % 256 + r3) % 256) % 256]
          prev_row :=
            [r0, r1,
             ((c1 + x2) % 256 + ((c0 + x0) % 256 + r2) % 256) % 256,
             (((c1 + x2) % 256 + x3) % 256 + (((c0 + x0) % 256 + x1) % 256 + r3) % 256) % 256]
          prev_col := [((c0 + x0) % 256 + x1) % 256, ((c1 + x2) % 256 + x3) % 256] } := by
  rfl

theorem gray_assemble_left (v0 v1 v2 v3 k0 k1 k2 k3 k4 k5 k6 k7 : Nat) :
    assemble grayCtx 0 0 [v0, v1, v2, v3] [k0, k1, k2, k3, k4, k5, k6, k7]
      = [v0, v1, k2, k3, v2, v3, k6, k7] := by
  rfl

theorem gray_assemble_right (v0 v1 v2 v3 k0 k1 k2 k3 k4 k5 k6 k7 : Nat) :
    assemble grayCtx 0 1 [v0, v1, v2, v3] [k0, k1, k2, k3, k4, k5, k6, k7]
      = [k0, k1, v0, v1, k4, k5, v2, v3] := by
  rfl

theorem gray_crop (header : EriHeader) (hw : header.width = 3) (hh : header.height = 2)
    (k0 k1 k2 k3 k4 k5 k6 k7 : Nat) :
    crop [k0, k1, k2, k3, k4, k5, k6, k7] grayCtx header = [k0, k1, k2, k4, k5, k6] := by
  obtain ⟨fmt, arch, w, h, bdepth, bd⟩ := header
  simp only at hw hh
  subst hw hh
  rfl

/-- C2: the end-to-end grayscale scenario.  Version 8, `bit_count = 8`, `op_table = 0`,
`encode_type = 0`, a grayscale format, `blocking_degree = 1`, width 3, height 2, a zero
synchronization bit and a recognized architecture.  If the front-end's `decode` yields
`[a0, a1, a2, a3]` for the first block and `[b0, b1, b2, b3]` for the second (the second
`decode` being preceded by a `reset` exactly under the gamma architecture), then
`decode_lossless_pixel_data` returns the six bytes
`[a0, a0+a1, a0+a1+b0, a0+a2, a0+a1+a2+a3, a0+a1+a2+a3+b0+b2]`, each modulo 256. -/
theorem decode_gray_scenario {σ τ : Type} (D : Decoder σ τ) (K : EriImage)
    (header : EriHeader) (s : σ) (a0 a1 a2 a3 b0 b1 b2 b3 : Nat)
    (hfmt : header.format_type = K.Gray)
    (hfam : header.format_type &&& K.TypeMask = K.Gray)
    (hK : K.Rgb ≠ K.Gray)
    (hbd : header.blocking_degree = 1) (hw : header.width = 3) (hh : header.height = 2)
    (harch : header.architecture = Architecture.RunLengthGamma
      ∨ header.architecture = Architecture.RunLengthHuffman)
    (hfields : (read_fields D s).1 = (8, 0, 0, 8))
    (hsync : (D.get 1 (read_fields D s).2).1 = 0)
    (hA : (D.decode 4 (D.reset (D.get 1 (read_fields D s).2).2)).1 = [a0, a1, a2, a3])
    (hB : (D.decode 4
        (if header.architecture = Architecture.RunLengthGamma then
          D.reset (D.decode 4 (D.reset (D.get 1 (read_fields D s).2).2)).2
        else (D.decode 4 (D.reset (D.get 1 (read_fields D s).2).2)).2)).1
      = [b0, b1, b2, b3]) :
    decode_lossless_pixel_data D K header s
      = .ok ([a0 % 256, (a0 + a1) % 256, (a0 + a1 + b0) % 256, (a0 + a2) % 256,
              (a0 + a1 + a2 + a3) % 256, (a0 + a1 + a2 + a3 + b0 + b2) % 256],
          (D.decode 4
            (if header.architecture = Architecture.RunLengthGamma then
              D.reset (D.decode 4 (D.reset (D.get 1 (read_fields D s).2).2)).2
            else (D.decode 4 (D.reset (D.get 1 (read_fields D s).2).2)).2)).2) := by
  have hne : ¬ (K.Gray = K.Rgb) := fun h => hK h.symm
  have hcc : get_channel_count K header = .ok 1 := by
    simp [get_channel_count, hfam, hne]
  have hctx : make_ctx header (8, 0, 0, 8) 1 = grayCtx := by
    simp [make_ctx, grayCtx, hbd, hw, hh]
  have hval : validate_ctx grayCtx header = .ok () := by
    simp [validate_ctx, grayCtx, hbd]
  have hpre : ∀ t : σ, prefetch_transformer_codes D grayCtx header t D.tree
      = .ok ([], t, D.tree) := by
    intro t
    simp [prefetch_transformer_codes, grayCtx]
  have p1 : grayCtx.height_blocks = 1 := rfl
  have p2 : grayCtx.width_blocks = 2 := rfl
  have p3 : grayCtx.block_samples = 4 := rfl
  have p4 : grayCtx.channel_count = 1 := rfl
  have p5 : grayCtx.encode_type = 0 := rfl
  have p6 : grayCtx.block_stride = 2 := rfl
  have hcrop := gray_crop header hw hh
  unfold decode_lossless_pixel_data decode_setup
  simp only [hcc, hfields, hctx, hval, hpre, gray_permutation]
  rcases harch with hg | hhuf
  · rw [hg] at hB
    simp only [if_true] at hB
    simp [synchronize, hsync, hg, initial_state, bstr, p1, p2, p3, p4, p5, p6,
      decode_block_row, decode_block, for_list, List.range_succ, get_transformer_code, hA, hB,
      store_bytes, hfmt, gray_block_left, gray_block_right, gray_assemble_left,
      gray_assemble_right, hcrop]
    omega
  · rw [hhuf] at hB
    simp only [if_false, reduceCtorEq] at hB
    simp [synchronize, hsync, hhuf, initial_state, bstr, p1, p2, p3, p4, p5, p6,
      decode_block_row, decode_block, for_list, List.range_succ, get_transformer_code, hA, hB,
      store_bytes, hfmt, gray_block_left, gray_block_right, gray_assemble_left,
      gray_assemble_right, hcrop]
    omega

/-- C2 witness: the scenario on a scripted gamma front-end with blocks `[1, 2, 3, 4]` and
`[5, 6, 7, 8]`. -/
theorem decode_gray_scenario_witness :
    decode_lossless_pixel_data (scripted false) sampleImage
        (grayHeader Architecture.RunLengthGamma)
        (script [8, 0, 0, 8, 0] [[1, 2, 3, 4], [5, 6, 7, 8]])
      = .ok ([1 % 256, (1 + 2) % 256, (1 + 2 + 5) % 256, (1 + 3) % 256,
              (1 + 2 + 3 + 4) % 256, (1 + 2 + 3 + 4 + 5 + 7) % 256], grayFinal) :=
  decode_gray_scenario (scripted false) sampleImage (grayHeader Architecture.RunLengthGamma)
    (script [8, 0, 0, 8, 0] [[1, 2, 3, 4], [5, 6, 7, 8]]) 1 2 3 4 5 6 7 8
    rfl rfl (by decide) rfl rfl rfl (Or.inl rfl) rfl rfl rfl rfl

/-! ## Block geometry -/

theorem ceil_blocks_le_iff (n b m : Nat) (hb : 0 < b) : (n + b - 1) / b ≤ m ↔ n ≤ m * b := by
  constructor
  · intro h
    have h1 := ceil_blocks_cover n b hb
    have h2 : (n + b - 1) / b * b ≤ m * b := Nat.mul_le_mul_right b h
    omega
  · intro h
    have h1 : (n + b - 1) / b < m + 1 := by
      rw [Nat.div_lt_iff_lt_mul hb, Nat.add_mul]
      omega
    omega

/-- In exact arithmetic, for every header (width, height, blocking degree), fields and
channel count, the context has `block_size = 2 ^ blocking_degree`, and `width_blocks` and
`height_blocks` are the ceilings of `width / block_size` and `height / block_size`: the
least numbers of blocks that cover the width and the height.  In particular
`width_blocks * block_size >= width` and `height_blocks * block_size >= height`. -/
theorem make_ctx_block_counts (header : EriHeader) (fields : Nat × Nat × Nat × Nat)
    (channel_count : Nat) :
    (make_ctx header fields channel_count).block_size = 2 ^ header.blocking_degree
    ∧ header.width
        ≤ (make_ctx header fields channel_count).width_blocks
          * (make_ctx header fields channel_count).block_size
    ∧ header.height
        ≤ (make_ctx header fields channel_count).height_blocks
          * (make_ctx header fields channel_count).block_size
    ∧ (∀ m, header.width ≤ m * (make_ctx header fields channel_count).block_size
        → (make_ctx header fields channel_count).width_blocks ≤ m)
    ∧ (∀ m, header.height ≤ m * (make_ctx header fields channel_count).block_size
        → (make_ctx header fields channel_count).height_blocks ≤ m) := by
  have hpos := make_ctx_block_size_pos header fields channel_count
  refine ⟨?_, ?_, ?_, ?_, ?_⟩
  · simp only [make_ctx, Nat.one_shiftLeft]
  · exact ceil_blocks_cover header.width _ hpos
  · exact ceil_blocks_cover header.height _ hpos
  · intro m hm
    exact (ceil_blocks_le_iff header.width _ m hpos).2 hm
  · intro m hm
    exact (ceil_blocks_le_iff header.height _ m hpos).2 hm

/-! ## Bits of the transformer code -/

theorem land_byte (a m : Nat) (hm : m < 256) : a &&& m = (a % 256) &&& m := by
  apply Nat.eq_of_testBit_eq
  intro i
  have e : (256 : Nat) = 2 ^ 8 := by decide
  rw [Nat.testBit_and, Nat.testBit_and, e, Nat.testBit_mod_two_pow]
  by_cases hi : i < 8
  · simp [hi]
  · have : m.testBit i = false :=
      Nat.testBit_lt_two_pow (lt_of_lt_of_le hm (by
        rw [e]; exact Nat.pow_le_pow_right (by decide) (by omega)))
    simp [this]

theorem byte_bit6 (c : Nat) (h : c < 256) :
    ((c &&& 0xC0) >>> 6) &&& 1 ≠ 0 ↔ c &&& 0x40 ≠ 0 := by
  interval_cases c <;> decide

/-- Bit 0 of `diff_mode` is bit 6 of the transformer code. -/
theorem code_bit6 (c : Nat) : ((c &&& 0xC0) >>> 6) &&& 1 ≠ 0 ↔ c &&& 0x40 ≠ 0 := by
  rw [land_byte c 0xC0 (by decide), land_byte c 0x40 (by decide)]
  exact byte_bit6 (c % 256) (Nat.mod_lt _ (by decide))

/-- The permutation selector is one of the four segments. -/
theorem code_perm_lt (c : Nat) : (c &&& 0x30) >>> 4 < 4 := by
  rw [land_byte c 0x30 (by decide)]
  have h : c % 256 < 256 := Nat.mod_lt _ (by decide)
  generalize c % 256 = d at h
  interval_cases d <;> decide

theorem code_color_lt (c : Nat) : c &&& 0x0F < 16 :=
  lt_of_le_of_lt Nat.and_le_right (by decide)

/-- For a nonzero code, `transform` is the vertical pass run on the outcome of step 5. -/
theorem transform_nonzero (transformer_code : Nat) (ctx : DecodeContext)
    (permutation : List Nat) (arrange_buf : Bytes) (prev_block_row prev_block_col : Nat)
    (b : Buffers) (h : transformer_code ≠ 0) :
    transform transformer_code ctx permutation arrange_buf prev_block_row prev_block_col b
      = { block_out :=
            (transform_vertical ctx
              (transform_step5 transformer_code ctx permutation arrange_buf prev_block_col
                b).block_out b.prev_row prev_block_row).block_out
          prev_row :=
            (transform_vertical ctx
              (transform_step5 transformer_code ctx permutation arrange_buf prev_block_col
                b).block_out b.prev_row prev_block_row).prev_row
          prev_col :=
            (transform_step5 transformer_code ctx permutation arrange_buf prev_block_col
              b).prev_col } := by
  unfold transform transform_step5 transform_step4
  simp only [if_neg h]

/-! ## The grayscale fixed code -/

/-- C15: a header of the grayscale family (`format_type & TypeMask = Gray`, one channel by
`get_channel_count`) whose `format_type` also carries a flag outside the type mask:
`get_transformer_code` compares the unmasked `format_type` with `Gray` and returns
`0b00000000`, not `0b11000000`. -/
theorem get_transformer_code_gray_family_flagged :
    (grayAlphaHeader Architecture.RunLengthGamma).format_type &&& sampleImage.TypeMask
      = sampleImage.Gray
    ∧ get_channel_count sampleImage (grayAlphaHeader Architecture.RunLengthGamma) = .ok 1
    ∧ (get_transformer_code (scripted false) sampleImage
          (grayAlphaHeader Architecture.RunLengthGamma) grayCtx []
          { dec := script [] [], tree := (), codes_ptr := 0 }).map (fun r => r.1) = .ok 0
    ∧ (get_transformer_code (scripted false) sampleImage
          (grayHeader Architecture.RunLengthGamma) grayCtx []
          { dec := script [] [], tree := (), codes_ptr := 0 }).map (fun r => r.1)
        = .ok 0xC0 :=
  ⟨by decide, rfl, rfl, rfl⟩

/-! ## The scatter step -/

theorem ext_getD {l1 l2 : Bytes} (hlen : l1.length = l2.length)
    (h : ∀ k, k < l1.length → l1.getD k 0 = l2.getD k 0) : l1 = l2 := by
  apply List.ext_getElem hlen
  intro k h1 h2
  have := h k h1
  rw [List.getD_eq_getElem _ _ h1, List.getD_eq_getElem _ _ h2] at this
  exact this

/-- The scatter loop as one list of writes. -/
theorem transform_scatter_eq (ctx : DecodeContext) (permutation : List Nat)
    (perm_offset : Nat) (arrange_buf block_out : Bytes) :
    transform_scatter ctx permutation perm_offset arrange_buf block_out
      = apply_writes block_out ((List.range ctx.block_samples).map (fun i =>
          (permutation.getD (perm_offset * ctx.block_samples + i) 0, arrange_buf.getD i 0))) := by
  unfold transform_scatter apply_writes
  rw [List.foldl_map]

theorem flatMap_range' (n m a : Nat) :
    (List.range n).flatMap (fun j => List.range' (a + j * m) m) = List.range' a (n * m) := by
  induction n with
  | zero => simp
  | succ n ih =>
    rw [List.range_succ, List.flatMap_append, ih, List.flatMap_singleton,
      List.range'_append_1, Nat.succ_mul, Nat.add_comm m]

/-- A row-major loop nest enumerates `0, 1, 2, ...` in order. -/
theorem nest3_rowmajor (n1 n2 n3 : Nat) :
    nest3 n1 n2 n3 (fun i j k => i * (n2 * n3) + j * n3 + k)
      = List.range (n1 * (n2 * n3)) := by
  unfold nest3
  have inner : ∀ i j, (List.range n3).map (fun k => i * (n2 * n3) + j * n3 + k)
      = List.range' (i * (n2 * n3) + j * n3) n3 := by
    intro i j
    rw [List.range'_eq_map_range]
  simp only [inner, flatMap_range']
  have h := flatMap_range' n1 (n2 * n3) 0
  simp only [Nat.zero_add] at h
  rw [h, List.range_eq_range']

/-- The table has `4 * block_samples` entries and each of its four segments is a
rearrangement of `0 .. block_samples - 1`. -/
theorem init_permutation_segments (ctx : DecodeContext)
    (harea : ctx.block_area = ctx.block_size * ctx.block_size)
    (hsamples : ctx.block_samples = ctx.block_area * ctx.channel_count) :
    (init_permutation ctx).length = ctx.block_samples * 4
    ∧ ∀ k, k < 4 →
        (segment ctx (init_permutation ctx) k).Perm (List.range ctx.block_samples) := by
  have hN : ctx.block_samples = ctx.block_size * ctx.block_size * ctx.channel_count := by
    rw [hsamples, harea]
  have p1 := seg1_perm ctx.block_size ctx.channel_count
  have p2 := seg2_perm ctx.block_size ctx.channel_count
  have p3 := seg3_perm ctx.block_size ctx.channel_count
  have p4 := seg4_perm ctx.block_size ctx.channel_count
  rw [← hN] at p1 p2 p3 p4
  have l1 := p1.length_eq
  have l2 := p2.length_eq
  have l3 := p3.length_eq
  have l4 := p4.length_eq
  rw [List.length_range] at l1 l2 l3 l4
  have hseg := segment_append4 ctx.block_samples _ _ _ _ l1 l2 l3 l4
  rw [init_permutation_eq ctx harea hsamples]
  refine ⟨?_, ?_⟩
  · simp only [List.length_append, l1, l2, l3, l4]
    omega
  · intro k hk
    unfold segment
    interval_cases k
    · rw [hseg.1]; exact p1
    · rw [hseg.2.1]; exact p2
    · rw [hseg.2.2.1]; exact p3
    · rw [hseg.2.2.2]; exact p4

theorem segment_getD (ctx : DecodeContext) (permutation : List Nat) (k i : Nat)
    (hi : i < ctx.block_samples) :
    (segment ctx permutation k).getD i 0 = permutation.getD (k * ctx.block_samples + i) 0 := by
  unfold segment
  rw [List.getD_eq_getElem?_getD, List.getD_eq_getElem?_getD, List.getElem?_take, if_pos hi,
    List.getElem?_drop]

/-- Segment 1 of the table is the identity. -/
theorem init_permutation_getD_identity (ctx : DecodeContext)
    (harea : ctx.block_area = ctx.block_size * ctx.block_size)
    (hsamples : ctx.block_samples = ctx.block_area * ctx.channel_count)
    (i : Nat) (hi : i < ctx.block_samples) :
    (init_permutation ctx).getD i 0 = i := by
  have hN : ctx.channel_count * (ctx.block_size * ctx.block_size) = ctx.block_samples := by
    rw [hsamples, harea, Nat.mul_comm]
  rw [init_permutation_eq ctx harea hsamples, nest3_rowmajor, hN,
    List.getD_eq_getElem?_getD, List.getElem?_append_left (by simpa using hi),
    List.getElem?_range hi]
  rfl

/-- With the identity segment the scatter copies `arrange_buf` verbatim. -/
theorem transform_scatter_identity (ctx : DecodeContext)
    (harea : ctx.block_area = ctx.block_size * ctx.block_size)
    (hsamples : ctx.block_samples = ctx.block_area * ctx.channel_count)
    (arrange_buf block_out : Bytes) (harr : arrange_buf.length = ctx.block_samples)
    (hout : block_out.length = ctx.block_samples) :
    transform_scatter ctx (init_permutation ctx) 0 arrange_buf block_out = arrange_buf := by
  apply ext_getD
  · rw [transform_scatter_length, hout, harr]
  · intro k hk
    rw [transform_scatter_length, hout] at hk
    rw [transform_scatter_eq]
    apply apply_writes_getD_written
    · rw [hout]; exact hk
    · refine ⟨(k, arrange_buf.getD k 0), ?_, rfl⟩
      simp only [List.mem_map, List.mem_range]
      refine ⟨k, hk, ?_⟩
      rw [Nat.zero_mul, Nat.zero_add, init_permutation_getD_identity ctx harea hsamples k hk]
    · intro w hw hw1
      simp only [List.mem_map, List.mem_range] at hw
      obtain ⟨i, hi, rfl⟩ := hw
      simp only [Nat.zero_mul, Nat.zero_add,
        init_permutation_getD_identity ctx harea hsamples i hi] at hw1
      subst hw1
      rfl

/-- Every position of `block_out` receives exactly one sample of `arrange_buf`, whichever
segment is selected and whatever `block_out` held before. -/
theorem transform_scatter_covers (ctx : DecodeContext)
    (harea : ctx.block_area = ctx.block_size * ctx.block_size)
    (hsamples : ctx.block_samples = ctx.block_area * ctx.channel_count)
    (perm_offset : Nat) (hoff : perm_offset < 4) (arrange_buf : Bytes)
    (pos : Nat) (hpos : pos < ctx.block_samples) :
    ∃ i, i < ctx.block_samples
      ∧ (init_permutation ctx).getD (perm_offset * ctx.block_samples + i) 0 = pos
      ∧ ∀ block_out : Bytes, block_out.length = ctx.block_samples →
          (transform_scatter ctx (init_permutation ctx) perm_offset arrange_buf block_out).getD
            pos 0 = arrange_buf.getD i 0 := by
  have hperm := (init_permutation_segments ctx harea hsamples).2 perm_offset hoff
  have hnodup : (segment ctx (init_permutation ctx) perm_offset).Nodup :=
    (hperm.nodup_iff).2 (List.nodup_range _)
  have hseglen : (segment ctx (init_permutation ctx) perm_offset).length = ctx.block_samples := by
    rw [hperm.length_eq, List.length_range]
  have hmem : pos ∈ segment ctx (init_permutation ctx) perm_offset :=
    (hperm.mem_iff).2 (List.mem_range.2 hpos)
  obtain ⟨i, hi, hget⟩ := List.getElem_of_mem hmem
  have hi1 : i < ctx.block_samples := by rw [← hseglen]; exact hi
  have hgetD : (init_permutation ctx).getD (perm_offset * ctx.block_samples + i) 0 = pos := by
    rw [← segment_getD ctx _ perm_offset i hi1, List.getD_eq_getElem _ _ hi, hget]
  refine ⟨i, hi1, hgetD, ?_⟩
  intro block_out hout
  rw [transform_scatter_eq]
  apply apply_writes_getD_written
  · rw [hout]; exact hpos
  · refine ⟨((init_permutation ctx).getD (perm_offset * ctx.block_samples + i) 0,
        arrange_buf.getD i 0), ?_, hgetD⟩
    simp only [List.mem_map, List.mem_range]
    exact ⟨i, hi1, rfl⟩
  · intro w hw hw1
    simp only [List.mem_map, List.mem_range] at hw
    obtain ⟨i1, hi1lt, rfl⟩ := hw
    simp only at hw1
    have hi1' : i1 < (segment ctx (init_permutation ctx) perm_offset).length := by
      rw [hseglen]; exact hi1lt
    have e1 : (segment ctx (init_permutation ctx) perm_offset)[i1] = pos := by
      rw [← List.getD_eq_getElem _ 0 hi1', segment_getD ctx _ perm_offset i1 hi1lt, hw1]
    have : i1 = i := (hnodup.getElem_inj_iff).1 (e1.trans hget.symm)
    subst this
    rfl

/-- The outcome of the scatter does not depend on what `block_out` held before. -/
theorem transform_scatter_independent (ctx : DecodeContext)
    (harea : ctx.block_area = ctx.block_size * ctx.block_size)
    (hsamples : ctx.block_samples = ctx.block_area * ctx.channel_count)
    (perm_offset : Nat) (hoff : perm_offset < 4) (arrange_buf bo1 bo2 : Bytes)
    (h1 : bo1.length = ctx.block_samples) (h2 : bo2.length = ctx.block_samples) :
    transform_scatter ctx (init_permutation ctx) perm_offset arrange_buf bo1
      = transform_scatter ctx (init_permutation ctx) perm_offset arrange_buf bo2 := by
  apply ext_getD
  · rw [transform_scatter_length, transform_scatter_length, h1, h2]
  · intro k hk
    rw [transform_scatter_length, h1] at hk
    obtain ⟨i, _, _, hval⟩ :=
      transform_scatter_covers ctx harea hsamples perm_offset hoff arrange_buf k hk
    rw [hval bo1 h1, hval bo2 h2]

/-! ## Zero code, and independence from the old `block_out` -/

/-- C16: with the table of `init_permutation` and buffers of `block_samples` bytes, the
transform with code 0 only scatters through segment 1, which is the identity: `block_out`
becomes `arrange_buf` verbatim, and `prev_row` and `prev_col` are left exactly as they
were. -/
theorem transform_zero_code (ctx : DecodeContext) (arrange_buf : Bytes)
    (prev_block_row prev_block_col : Nat) (b : Buffers)
    (harea : ctx.block_area = ctx.block_size ^ 2)
    (hsamples : ctx.block_samples = ctx.block_area * ctx.channel_count)
    (harr : arrange_buf.length = ctx.block_samples)
    (hout : b.block_out.length = ctx.block_samples) :
    transform 0 ctx (init_permutation ctx) arrange_buf prev_block_row prev_block_col b
      = { block_out := arrange_buf, prev_row := b.prev_row, prev_col := b.prev_col } := by
  have harea1 : ctx.block_area = ctx.block_size * ctx.block_size := by rw [harea, Nat.pow_two]
  have hs := transform_scatter_identity ctx harea1 hsamples arrange_buf b.block_out harr hout
  unfold transform
  simp only [if_pos]
  have e : (0 &&& 0x30) >>> 4 = 0 := by decide
  rw [e, hs]

/-- C16 witness: three channels, block size 2. -/
theorem transform_zero_code_witness :
    transform 0 rgbCtx (init_permutation rgbCtx) [1, 2, 3, 4, 5, 6, 7, 8, 9, 10, 11, 12] 0 0
        { block_out := [9, 9, 9, 9, 9, 9, 9, 9, 9, 9, 9, 9], prev_row := [1, 2, 3, 4, 5, 6],
          prev_col := [7, 8, 9, 10, 11, 12] }
      = { block_out := [1, 2, 3, 4, 5, 6, 7, 8, 9, 10, 11, 12], prev_row := [1, 2, 3, 4, 5, 6],
          prev_col := [7, 8, 9, 10, 11, 12] } :=
  transform_zero_code rgbCtx [1, 2, 3, 4, 5, 6, 7, 8, 9, 10, 11, 12] 0 0
    { block_out := [9, 9, 9, 9, 9, 9, 9, 9, 9, 9, 9, 9], prev_row := [1, 2, 3, 4, 5, 6],
      prev_col := [7, 8, 9, 10, 11, 12] } (by decide) (by decide) (by decide) (by decide)

/-- C19: with the table of `init_permutation`, two runs of `transform` on the same code,
the same `arrange_buf` and the same row and column state, whose `block_out` buffers (both of
`block_samples` bytes) hold different bytes beforehand, produce the same `block_out`,
`prev_row` and `prev_col`. -/
theorem transform_ignores_old_block_out (transformer_code : Nat) (ctx : DecodeContext)
    (arrange_buf : Bytes) (prev_block_row prev_block_col : Nat) (b1 b2 : Buffers)
    (harea : ctx.block_area = ctx.block_size ^ 2)
    (hsamples : ctx.block_samples = ctx.block_area * ctx.channel_count)
    (hrow : b1.prev_row = b2.prev_row) (hcol : b1.prev_col = b2.prev_col)
    (h1 : b1.block_out.length = ctx.block_samples)
    (h2 : b2.block_out.length = ctx.block_samples) :
    transform transformer_code ctx (init_permutation ctx) arrange_buf prev_block_row
        prev_block_col b1
      = transform transformer_code ctx (init_permutation ctx) arrange_buf prev_block_row
          prev_block_col b2 := by
  have harea1 : ctx.block_area = ctx.block_size * ctx.block_size := by rw [harea, Nat.pow_two]
  have hs := transform_scatter_independent ctx harea1 hsamples
    ((transformer_code &&& 0x30) >>> 4) (code_perm_lt transformer_code) arrange_buf
    b1.block_out b2.block_out h1 h2
  unfold transform
  simp only [hs, hrow, hcol]

/-- C19 witness: code `0b11010101` (transposed scatter, colour operator 0101) on two
different scratch buffers. -/
theorem transform_ignores_old_block_out_witness :
    transform 0xD5 rgbCtx (init_permutation rgbCtx) [1, 2, 3, 4, 5, 6, 7, 8, 9, 10, 11, 12] 0 0
        { block_out := [9, 9, 9, 9, 9, 9, 9, 9, 9, 9, 9, 9], prev_row := [1, 2, 3, 4, 5, 6],
          prev_col := [7, 8, 9, 10, 11, 12] }
      = transform 0xD5 rgbCtx (init_permutation rgbCtx) [1, 2, 3, 4, 5, 6, 7, 8, 9, 10, 11, 12]
          0 0
          { block_out := [0, 0, 0, 0, 0, 0, 0, 0, 0, 0, 0, 0], prev_row := [1, 2, 3, 4, 5, 6],
            prev_col := [7, 8, 9, 10, 11, 12] } :=
  transform_ignores_old_block_out 0xD5 rgbCtx [1, 2, 3, 4, 5, 6, 7, 8, 9, 10, 11, 12] 0 0
    { block_out := [9, 9, 9, 9, 9, 9, 9, 9, 9, 9, 9, 9], prev_row := [1, 2, 3, 4, 5, 6],
      prev_col := [7, 8, 9, 10, 11, 12] }
    { block_out := [0, 0, 0, 0, 0, 0, 0, 0, 0, 0, 0, 0], prev_row := [1, 2, 3, 4, 5, 6],
      prev_col := [7, 8, 9, 10, 11, 12] }
    (by decide) (by decide) rfl rfl (by decide) (by decide)

/-! ## Colour predictors -/

/-- Invariant rule for a counted loop: the invariant may mention the iteration number. -/
theorem foldl_range_inv {α : Type} (P : Nat → α → Prop) (f : α → Nat → α) (n : Nat) (a : α)
    (h0 : P 0 a) (hstep : ∀ i a, i < n → P i a → P (i + 1) (f a i)) :
    P n ((List.range n).foldl f a) := by
  induction n with
  | zero => exact h0
  | succ n ih =>
    rw [List.range_succ, List.foldl_append]
    exact hstep n _ (Nat.lt_succ_self n)
      (ih (fun i a hi hp => hstep i a (Nat.lt_succ_of_lt hi) hp))

theorem getD_map_range (f : Nat → Nat) (n k : Nat) (hk : k < n) :
    ((List.range n).map f).getD k 0 = f k := by
  rw [List.getD_eq_getElem?_getD, List.getElem?_map, List.getElem?_range hk]
  rfl

theorem plane_mod (area t k : Nat) (h1 : t * area ≤ k) (h2 : k < t * area + area) :
    k % area = k - t * area := by
  obtain ⟨r, rfl⟩ : ∃ r, k = t * area + r := ⟨k - t * area, by omega⟩
  have hr : r < area := by omega
  rw [Nat.add_comm, Nat.add_mul_mod_self_right, Nat.mod_eq_of_lt hr]
  omega

/-- The single-target loop: each byte of the target range gets the original byte of the
source range added; nothing else changes. -/
theorem color_add1_getD (ctx : DecodeContext) (src dst : Nat) (buf : Bytes)
    (hdisj : src + ctx.block_area ≤ dst ∨ dst + ctx.block_area ≤ src)
    (hlen : dst + ctx.block_area ≤ buf.length) :
    (color_add1 ctx src dst buf).length = buf.length
    ∧ ∀ k, (color_add1 ctx src dst buf).getD k 0
        = if dst ≤ k ∧ k < dst + ctx.block_area then
            (buf.getD k 0 + buf.getD (k - dst + src) 0) % 256
          else buf.getD k 0 := by
  unfold color_add1
  refine foldl_range_inv
    (fun i (b : Bytes) => b.length = buf.length
      ∧ ∀ k, b.getD k 0
          = if dst ≤ k ∧ k < dst + i then (buf.getD k 0 + buf.getD (k - dst + src) 0) % 256
            else buf.getD k 0) _ _ _ ⟨rfl, fun k => by rw [if_neg (by omega)]⟩ ?_
  intro i b hi ⟨hl, hv⟩
  refine ⟨by simp only [List.length_set, hl], ?_⟩
  intro k
  have hsrc : b.getD (i + src) 0 = buf.getD (i + src) 0 := by
    rw [hv, if_neg (by omega)]
  have hdst : b.getD (i + dst) 0 = buf.getD (i + dst) 0 := by
    rw [hv, if_neg (by omega)]
  simp only [getD_set, hl, hsrc, hdst]
  by_cases hk : i + dst = k
  · subst hk
    have e : i + dst - dst + src = i + src := by omega
    rw [if_pos ⟨rfl, by omega⟩, if_pos ⟨by omega, by omega⟩, e]
  · have c : (dst ≤ k ∧ k < dst + (i + 1)) ↔ (dst ≤ k ∧ k < dst + i) := by omega
    rw [if_neg (fun h => hk h.1), hv]
    simp only [c]

/-- The dual-target loop: each byte of either target range gets the original byte of the
source range added; nothing else changes. -/
theorem color_add2_getD (ctx : DecodeContext) (src dst1 dst2 : Nat) (buf : Bytes)
    (hd1 : src + ctx.block_area ≤ dst1 ∨ dst1 + ctx.block_area ≤ src)
    (hd2 : src + ctx.block_area ≤ dst2 ∨ dst2 + ctx.block_area ≤ src)
    (hd12 : dst1 + ctx.block_area ≤ dst2 ∨ dst2 + ctx.block_area ≤ dst1)
    (hlen1 : dst1 + ctx.block_area ≤ buf.length)
    (hlen2 : dst2 + ctx.block_area ≤ buf.length) :
    (color_add2 ctx src dst1 dst2 buf).length = buf.length
    ∧ ∀ k, (color_add2 ctx src dst1 dst2 buf).getD k 0
        = if dst1 ≤ k ∧ k < dst1 + ctx.block_area then
            (buf.getD k 0 + buf.getD (k - dst1 + src) 0) % 256
          else if dst2 ≤ k ∧ k < dst2 + ctx.block_area then
            (buf.getD k 0 + buf.getD (k - dst2 + src) 0) % 256
          else buf.getD k 0 := by
  unfold color_add2
  refine foldl_range_inv
    (fun i (b : Bytes) => b.length = buf.length
      ∧ ∀ k, b.getD k 0
          = if dst1 ≤ k ∧ k < dst1 + i then (buf.getD k 0 + buf.getD (k - dst1 + src) 0) % 256
            else if dst2 ≤ k ∧ k < dst2 + i then
              (buf.getD k 0 + buf.getD (k - dst2 + src) 0) % 256
            else buf.getD k 0) _ _ _
    ⟨rfl, fun k => by rw [if_neg (by omega), if_neg (by omega)]⟩ ?_
  intro i b hi ⟨hl, hv⟩
  refine ⟨by simp only [List.length_set, hl], ?_⟩
  intro k
  have hsrc : b.getD (i + src) 0 = buf.getD (i + src) 0 := by
    rw [hv, if_neg (by omega), if_neg (by omega)]
  have hdst1 : b.getD (i + dst1) 0 = buf.getD (i + dst1) 0 := by
    rw [hv, if_neg (by omega), if_neg (by omega)]
  have hdst2 : b.getD (i + dst2) 0 = buf.getD (i + dst2) 0 := by
    rw [hv, if_neg (by omega), if_neg (by omega)]
  have hne : ¬ (i + dst1 = i + dst2 ∧ i + dst1 < buf.length) := by omega
  simp only [getD_set, List.length_set, hl, hsrc, hdst1, hdst2, if_neg hne]
  by_cases hk2 : i + dst2 = k
  · subst hk2
    have e : i + dst2 - dst2 + src = i + src := by omega
    rw [if_pos ⟨rfl, by omega⟩, if_neg (by omega), if_pos ⟨by omega, by omega⟩, e]
  · rw [if_neg (fun h => hk2 h.1)]
    by_cases hk1 : i + dst1 = k
    · subst hk1
      have e : i + dst1 - dst1 + src = i + src := by omega
      rw [if_pos ⟨rfl, by omega⟩, if_pos ⟨by omega, by omega⟩, e]
    · have c1 : (dst1 ≤ k ∧ k < dst1 + (i + 1)) ↔ (dst1 ≤ k ∧ k < dst1 + i) := by omega
      have c2 : (dst2 ≤ k ∧ k < dst2 + (i + 1)) ↔ (dst2 ≤ k ∧ k < dst2 + i) := by omega
      rw [if_neg (fun h => hk1 h.1), hv]
      simp only [c1, c2]

theorem plane_disjoint (area a b : Nat) (h : a ≠ b) :
    a * area + area ≤ b * area ∨ b * area + area ≤ a * area := by
  rcases Nat.lt_or_gt_of_ne h with h1 | h1
  · left
    have := Nat.mul_le_mul_right area (Nat.succ_le_of_lt h1)
    rw [Nat.succ_mul] at this
    exact this
  · right
    have := Nat.mul_le_mul_right area (Nat.succ_le_of_lt h1)
    rw [Nat.succ_mul] at this
    exact this

/-- The single-target loop from plane `base` into plane `t` does what the specification
says of a one-target predictor. -/
theorem color_add1_spec (ctx : DecodeContext) (base t : Nat) (buf : Bytes) (hne : base ≠ t)
    (hlen : t * ctx.block_area + ctx.block_area ≤ buf.length) :
    color_add1 ctx (base * ctx.block_area) (t * ctx.block_area) buf
      = (List.range buf.length).map (fun k =>
          if [t].any (fun t =>
              decide (t * ctx.block_area ≤ k ∧ k < t * ctx.block_area + ctx.block_area)) then
            (buf.getD k 0 + buf.getD (base * ctx.block_area + k % ctx.block_area) 0) % 256
          else buf.getD k 0) := by
  obtain ⟨hl, hv⟩ := color_add1_getD ctx (base * ctx.block_area) (t * ctx.block_area) buf
    (plane_disjoint _ _ _ hne) hlen
  apply ext_getD
  · rw [hl, List.length_map, List.length_range]
  · intro k hk
    rw [hl] at hk
    rw [hv, getD_map_range _ _ _ hk]
    simp only [List.any_cons, List.any_nil, Bool.or_false, decide_eq_true_eq]
    by_cases hc : t * ctx.block_area ≤ k ∧ k < t * ctx.block_area + ctx.block_area
    · rw [if_pos hc, if_pos hc, plane_mod _ _ _ hc.1 hc.2,
        Nat.add_comm (base * ctx.block_area)]
    · rw [if_neg hc, if_neg hc]

/-- The dual-target loop from plane `base` into planes `t1` and `t2` does what the
specification says of a two-target predictor. -/
theorem color_add2_spec (ctx : DecodeContext) (base t1 t2 : Nat) (buf : Bytes)
    (hne1 : base ≠ t1) (hne2 : base ≠ t2) (hne12 : t1 ≠ t2)
    (hlen1 : t1 * ctx.block_area + ctx.block_area ≤ buf.length)
    (hlen2 : t2 * ctx.block_area + ctx.block_area ≤ buf.length) :
    color_add2 ctx (base * ctx.block_area) (t1 * ctx.block_area) (t2 * ctx.block_area) buf
      = (List.range buf.length).map (fun k =>
          if [t1, t2].any (fun t =>
              decide (t * ctx.block_area ≤ k ∧ k < t * ctx.block_area + ctx.block_area)) then
            (buf.getD k 0 + buf.getD (base * ctx.block_area + k % ctx.block_area) 0) % 256
          else buf.getD k 0) := by
  obtain ⟨hl, hv⟩ := color_add2_getD ctx (base * ctx.block_area) (t1 * ctx.block_area)
    (t2 * ctx.block_area) buf (plane_disjoint _ _ _ hne1) (plane_disjoint _ _ _ hne2)
    (plane_disjoint _ _ _ hne12) hlen1 hlen2
  apply ext_getD
  · rw [hl, List.length_map, List.length_range]
  · intro k hk
    rw [hl] at hk
    rw [hv, getD_map_range _ _ _ hk]
    simp only [List.any_cons, List.any_nil, Bool.or_false, Bool.or_eq_true, decide_eq_true_eq]
    by_cases hc1 : t1 * ctx.block_area ≤ k ∧ k < t1 * ctx.block_area + ctx.block_area
    · rw [if_pos hc1, if_pos (Or.inl hc1), plane_mod _ _ _ hc1.1 hc1.2,
        Nat.add_comm (base * ctx.block_area)]
    · rw [if_neg hc1]
      by_cases hc2 : t2 * ctx.block_area ≤ k ∧ k < t2 * ctx.block_area + ctx.block_area
      · rw [if_pos hc2, if_pos (Or.inr hc2), plane_mod _ _ _ hc2.1 hc2.2,
          Nat.add_comm (base * ctx.block_area)]
      · rw [if_neg hc2, if_neg (fun h => h.elim hc1 hc2)]

/-- C12: for every 4-bit `color_op` and every `block_out` holding at least three planes of
`block_area` bytes, entry `color_op` of `color_ops` does exactly what the specification's
table says: the codes 0, 1, 2, 3, 4, 8, 12 return `block_out` unchanged, and each other code
adds (modulo 256) the original byte of its base plane at index `i` to the byte at index `i`
of its one or two target planes, for every `i < block_area`, and keeps every other byte
(the base plane, the third plane when it is not a target, any fourth plane). -/
theorem color_ops_table (ctx : DecodeContext) (color_op : Nat) (buf : Bytes)
    (hop : color_op < 16) (hlen : 3 * ctx.block_area ≤ buf.length) :
    (color_ops.getD color_op color_op_0000) buf ctx = color_spec ctx.block_area color_op buf := by
  have z : 0 * ctx.block_area = 0 := Nat.zero_mul _
  have o : 1 * ctx.block_area = ctx.block_area := Nat.one_mul _
  have t : 2 * ctx.block_area = ctx.block_area * 2 := Nat.mul_comm _ _
  have l0 : 0 * ctx.block_area + ctx.block_area ≤ buf.length := by omega
  have l1 : 1 * ctx.block_area + ctx.block_area ≤ buf.length := by omega
  have l2 : 2 * ctx.block_area + ctx.block_area ≤ buf.length := by omega
  interval_cases color_op
  · rfl
  · rfl
  · rfl
  · rfl
  · rfl
  · have h := color_add1_spec ctx 0 1 buf (by decide) l1
    have e : color_add1 ctx 0 ctx.block_area buf
        = color_add1 ctx (0 * ctx.block_area) (1 * ctx.block_area) buf := by rw [z, o]
    exact e.trans h
  · have h := color_add1_spec ctx 0 2 buf (by decide) l2
    have e : color_add1 ctx 0 (ctx.block_area * 2) buf
        = color_add1 ctx (0 * ctx.block_area) (2 * ctx.block_area) buf := by rw [z, t]
    exact e.trans h
  · have h := color_add2_spec ctx 0 1 2 buf (by decide) (by decide) (by decide) l1 l2
    have e : color_add2 ctx 0 ctx.block_area (ctx.block_area * 2) buf
        = color_add2 ctx (0 * ctx.block_area) (1 * ctx.block_area) (2 * ctx.block_area) buf := by
      rw [z, o, t]
    exact e.trans h
  · rfl
  · have h := color_add1_spec ctx 1 0 buf (by decide) l0
    have e : color_add1 ctx ctx.block_area 0 buf
        = color_add1 ctx (1 * ctx.block_area) (0 * ctx.block_area) buf := by rw [z, o]
    exact e.trans h
  · have h := color_add1_spec ctx 1 2 buf (by decide) l2
    have e : color_add1 ctx ctx.block_area (ctx.block_area * 2) buf
        = color_add1 ctx (1 * ctx.block_area) (2 * ctx.block_area) buf := by rw [o, t]
    exact e.trans h
  · have h := color_add2_spec ctx 1 0 2 buf (by decide) (by decide) (by decide) l0 l2
    have e : color_add2 ctx ctx.block_area 0 (ctx.block_area * 2) buf
        = color_add2 ctx (1 * ctx.block_area) (0 * ctx.block_area) (2 * ctx.block_area) buf := by
      rw [z, o, t]
    exact e.trans h
  · rfl
  · have h := color_add1_spec ctx 2 0 buf (by decide) l0
    have e : color_add1 ctx (ctx.block_area * 2) 0 buf
        = color_add1 ctx (2 * ctx.block_area) (0 * ctx.block_area) buf := by rw [z, t]
    exact e.trans h
  · have h := color_add1_spec ctx 2 1 buf (by decide) l1
    have e : color_add1 ctx (ctx.block_area * 2) ctx.block_area buf
        = color_add1 ctx (2 * ctx.block_area) (1 * ctx.block_area) buf := by rw [o, t]
    exact e.trans h
  · have h := color_add2_spec ctx 2 0 1 buf (by decide) (by decide) (by decide) l0 l1
    have e : color_add2 ctx (ctx.block_area * 2) 0 ctx.block_area buf
        = color_add2 ctx (2 * ctx.block_area) (0 * ctx.block_area) (1 * ctx.block_area) buf := by
      rw [z, o, t]
    exact e.trans h

/-- C12 witness: code 0101 with `block_area = 4`, plane 0 `[1, 2, 3, 4]`, plane 1
`[10, 20, 30, 40]`: plane 1 becomes `[11, 22, 33, 44]`, planes 0 and 2 are unchanged. -/
theorem color_ops_table_witness :
    (color_ops.getD 5 color_op_0000) [1, 2, 3, 4, 10, 20, 30, 40, 5, 6, 7, 8] colorCtx
      = [1, 2, 3, 4, 11, 22, 33, 44, 5, 6, 7, 8] :=
  color_ops_table colorCtx 5 [1, 2, 3, 4, 10, 20, 30, 40, 5, 6, 7, 8] (by decide) (by decide)

/-! ## The horizontal pass -/

theorem row_sum_succ (buf : Bytes) (start n : Nat) :
    row_sum buf start (n + 1) = row_sum buf start n + buf.getD (start + n) 0 := by
  simp [row_sum, List.range_succ]

theorem row_sum_congr (a b : Bytes) (start n : Nat)
    (h : ∀ j, j < n → a.getD (start + j) 0 = b.getD (start + j) 0) :
    row_sum a start n = row_sum b start n := by
  induction n with
  | zero => rfl
  | succ n ih =>
    rw [row_sum_succ, row_sum_succ, ih (fun j hj => h j (Nat.lt_succ_of_lt hj)),
      h n (Nat.lt_succ_self n)]

theorem transform_step4_length (transformer_code : Nat) (ctx : DecodeContext)
    (permutation : List Nat) (arrange_buf : Bytes) (b : Buffers) :
    (transform_step4 transformer_code ctx permutation arrange_buf b).length
      = b.block_out.length := by
  unfold transform_step4
  rw [color_ops_length, transform_scatter_length]

/-- The store-only loop: `block_out` is untouched; column-state byte `i` of the block's
slice becomes the last sample of logical row `i`; the rest of the column state is kept. -/
theorem transform_horizontal_store_spec (ctx : DecodeContext) (block_out prev_col : Bytes)
    (prev_block_col : Nat) (hlen : prev_block_col + ctx.block_stride ≤ prev_col.length) :
    (transform_horizontal_store ctx block_out prev_col prev_block_col).prev_col.length
      = prev_col.length
    ∧ (∀ i, i < ctx.block_stride →
        (transform_horizontal_store ctx block_out prev_col prev_block_col).prev_col.getD
            (prev_block_col + i) 0
          = block_out.getD (i * ctx.block_size + (ctx.block_size - 1)) 0)
    ∧ (∀ k, k < prev_block_col ∨ prev_block_col + ctx.block_stride ≤ k →
        (transform_horizontal_store ctx block_out prev_col prev_block_col).prev_col.getD k 0
          = prev_col.getD k 0) := by
  unfold transform_horizontal_store
  have key := foldl_range_inv
    (fun n (st : HState) =>
      st.block_out = block_out ∧ st.block_out_ptr = n * ctx.block_size
      ∧ st.next_block_col_ptr = prev_block_col + n
      ∧ st.prev_col.length = prev_col.length
      ∧ (∀ i, i < n → st.prev_col.getD (prev_block_col + i) 0
          = block_out.getD (i * ctx.block_size + (ctx.block_size - 1)) 0)
      ∧ (∀ k, k < prev_block_col ∨ prev_block_col + n ≤ k →
          st.prev_col.getD k 0 = prev_col.getD k 0))
    (fun (st : HState) (_i : Nat) =>
      ({ block_out := st.block_out
         block_out_ptr := st.block_out_ptr + ctx.block_size
         prev_col := st.prev_col.set st.next_block_col_ptr
           (st.block_out.getD (st.block_out_ptr + (ctx.block_size - 1)) 0)
         next_block_col_ptr := st.next_block_col_ptr + 1 } : HState))
    ctx.block_stride
    { block_out := block_out, block_out_ptr := 0, prev_col := prev_col,
      next_block_col_ptr := prev_block_col }
    ⟨rfl, by simp, rfl, rfl, fun i hi => absurd hi (Nat.not_lt_zero i), fun _ _ => rfl⟩
    (by
      intro n st hn ⟨h1, h2, h3, h4, h5, h6⟩
      refine ⟨h1, ?_, ?_, ?_, ?_, ?_⟩
      · show st.block_out_ptr + ctx.block_size = (n + 1) * ctx.block_size
        rw [h2, Nat.succ_mul]
      · show st.next_block_col_ptr + 1 = prev_block_col + (n + 1)
        rw [h3]; rfl
      · show (st.prev_col.set _ _).length = prev_col.length
        rw [List.length_set, h4]
      · intro i hi
        show (st.prev_col.set _ _).getD (prev_block_col + i) 0 = _
        rw [getD_set, h1, h2, h3, h4]
        by_cases hi' : i = n
        · subst hi'
          rw [if_pos ⟨rfl, by omega⟩]
        · rw [if_neg (fun h => hi' (by omega))]
          exact h5 i (by omega)
      · intro k hk
        show (st.prev_col.set _ _).getD k 0 = _
        rw [getD_set, h3, if_neg (fun h => by omega)]
        exact h6 k (by omega))
  exact ⟨key.2.2.2.1, key.2.2.2.2.1, key.2.2.2.2.2⟩

theorem transform_prev_col (transformer_code : Nat) (ctx : DecodeContext)
    (permutation : List Nat) (arrange_buf : Bytes) (prev_block_row prev_block_col : Nat)
    (b : Buffers) (h : transformer_code ≠ 0) :
    (transform transformer_code ctx permutation arrange_buf prev_block_row prev_block_col
        b).prev_col
      = (transform_step5 transformer_code ctx permutation arrange_buf prev_block_col
          b).prev_col := by
  rw [transform_nonzero _ _ _ _ _ _ _ h]

theorem transform_step5_store (transformer_code : Nat) (ctx : DecodeContext)
    (permutation : List Nat) (arrange_buf : Bytes) (prev_block_col : Nat) (b : Buffers)
    (hbit : transformer_code &&& 0x40 = 0) :
    transform_step5 transformer_code ctx permutation arrange_buf prev_block_col b
      = transform_horizontal_store ctx
          (transform_step4 transformer_code ctx permutation arrange_buf b) b.prev_col
          prev_block_col := by
  unfold transform_step5
  rw [if_neg (fun h => (code_bit6 transformer_code).1 h hbit)]

theorem transform_step5_accumulate (transformer_code : Nat) (ctx : DecodeContext)
    (permutation : List Nat) (arrange_buf : Bytes) (prev_block_col : Nat) (b : Buffers)
    (hbit : transformer_code &&& 0x40 ≠ 0) :
    transform_step5 transformer_code ctx permutation arrange_buf prev_block_col b
      = transform_horizontal_accumulate ctx
          (transform_step4 transformer_code ctx permutation arrange_buf b) b.prev_col
          prev_block_col := by
  unfold transform_step5
  rw [if_pos ((code_bit6 transformer_code).2 hbit)]

/-- C17: for every nonzero transformer code with bit 6 clear, step 5 leaves `block_out`
as the colour operator left it, and after the transform, for each of the `block_stride`
logical rows `i`, byte `i` of the block's column-state slice is the row's last sample,
`block_out[i * block_size + block_size - 1]`, as it was after the colour operator. -/
theorem transform_store_only (transformer_code : Nat) (ctx : DecodeContext)
    (permutation : List Nat) (arrange_buf : Bytes) (prev_block_row prev_block_col : Nat)
    (b : Buffers) (hne : transformer_code ≠ 0) (hbit : transformer_code &&& 0x40 = 0)
    (hlen : prev_block_col + ctx.block_stride ≤ b.prev_col.length) :
    (transform_step5 transformer_code ctx permutation arrange_buf prev_block_col b).block_out
      = transform_step4 transformer_code ctx permutation arrange_buf b
    ∧ ∀ i, i < ctx.block_stride →
        (transform transformer_code ctx permutation arrange_buf prev_block_row prev_block_col
            b).prev_col.getD (prev_block_col + i) 0
          = (transform_step4 transformer_code ctx permutation arrange_buf b).getD
              (i * ctx.block_size + ctx.block_size - 1) 0 := by
  rw [transform_prev_col _ _ _ _ _ _ _ hne, transform_step5_store _ _ _ _ _ _ hbit]
  refine ⟨transform_horizontal_store_block_out _ _ _ _, ?_⟩
  intro i hi
  rw [(transform_horizontal_store_spec ctx _ b.prev_col prev_block_col hlen).2.1 i hi]
  rcases Nat.eq_zero_or_pos ctx.block_size with h0 | h0
  · rw [h0]
    rfl
  · rw [Nat.add_sub_assoc h0]

/-- C17 witness: code `0b10000000` on the grayscale context (two logical rows of two
samples). -/
theorem transform_store_only_witness :
    (transform_step5 0x80 grayCtx (init_permutation grayCtx) [1, 2, 3, 4] 0
        { block_out := [0, 0, 0, 0], prev_row := [0, 0, 0, 0], prev_col := [7, 7] }).block_out
      = transform_step4 0x80 grayCtx (init_permutation grayCtx) [1, 2, 3, 4]
          { block_out := [0, 0, 0, 0], prev_row := [0, 0, 0, 0], prev_col := [7, 7] }
    ∧ ∀ i, i < grayCtx.block_stride →
        (transform 0x80 grayCtx (init_permutation grayCtx) [1, 2, 3, 4] 0 0
            { block_out := [0, 0, 0, 0], prev_row := [0, 0, 0, 0],
              prev_col := [7, 7] }).prev_col.getD (0 + i) 0
          = (transform_step4 0x80 grayCtx (init_permutation grayCtx) [1, 2, 3, 4]
              { block_out := [0, 0, 0, 0], prev_row := [0, 0, 0, 0],
                prev_col := [7, 7] }).getD (i * grayCtx.block_size + grayCtx.block_size - 1) 0 :=
  transform_store_only 0x80 grayCtx (init_permutation grayCtx) [1, 2, 3, 4] 0 0
    { block_out := [0, 0, 0, 0], prev_row := [0, 0, 0, 0], prev_col := [7, 7] }
    (by decide) (by decide) (by decide)

/-- One logical row of the accumulate branch: sample `j` of the row becomes the seed plus
the sum of the row's samples `0 .. j` (modulo 256); the bytes outside the row are kept; the
running value that is left is the row's last sample. -/
theorem accumulate_row_spec (ctx : DecodeContext) (bo : Bytes) (p last : Nat)
    (hlen : p + ctx.block_size ≤ bo.length) :
    (accumulate_row ctx (bo, p, last)).2.1 = p + ctx.block_size
    ∧ (accumulate_row ctx (bo, p, last)).1.length = bo.length
    ∧ (∀ j, j < ctx.block_size →
        (accumulate_row ctx (bo, p, last)).1.getD (p + j) 0
          = (last + row_sum bo p (j + 1)) % 256)
    ∧ (∀ k, k < p ∨ p + ctx.block_size ≤ k →
        (accumulate_row ctx (bo, p, last)).1.getD k 0 = bo.getD k 0)
    ∧ (0 < ctx.block_size →
        (accumulate_row ctx (bo, p, last)).2.2
          = (accumulate_row ctx (bo, p, last)).1.getD (p + ctx.block_size - 1) 0) := by
  unfold accumulate_row
  have key := foldl_range_inv
    (fun n (t : Bytes × Nat × Nat) =>
      n ≤ ctx.block_size ∧ t.2.1 = p + n ∧ t.1.length = bo.length
      ∧ (∀ j, j < n → t.1.getD (p + j) 0 = (last + row_sum bo p (j + 1)) % 256)
      ∧ (∀ k, k < p ∨ p + n ≤ k → t.1.getD k 0 = bo.getD k 0)
      ∧ t.2.2 % 256 = (last + row_sum bo p n) % 256
      ∧ (0 < n → t.2.2 = t.1.getD (p + n - 1) 0))
    (fun (t : Bytes × Nat × Nat) (_j : Nat) =>
      (t.1.set t.2.1 ((t.2.2 + t.1.getD t.2.1 0) % 256), t.2.1 + 1,
        (t.2.2 + t.1.getD t.2.1 0) % 256))
    ctx.block_size (bo, p, last)
    ⟨Nat.zero_le _, rfl, rfl, fun j hj => absurd hj (Nat.not_lt_zero j), fun _ _ => rfl,
      by simp [row_sum], fun h => absurd h (Nat.lt_irrefl 0)⟩
    (by
      intro n t hn ⟨_, h2, h3, h4, h5, h6, _⟩
      have hcur : t.1.getD (p + n) 0 = bo.getD (p + n) 0 := h5 (p + n) (Or.inr (Nat.le_refl _))
      have hv : (t.2.2 + t.1.getD t.2.1 0) % 256 = (last + row_sum bo p (n + 1)) % 256 := by
        rw [h2, hcur, row_sum_succ]
        omega
      refine ⟨hn, ?_, ?_, ?_, ?_, ?_, ?_⟩
      · show t.2.1 + 1 = p + (n + 1)
        rw [h2]; rfl
      · show (t.1.set _ _).length = bo.length
        rw [List.length_set, h3]
      · intro j hj
        show (t.1.set _ _).getD (p + j) 0 = _
        rw [getD_set, h2, h3]
        by_cases hjn : j = n
        · subst hjn
          rw [if_pos ⟨rfl, by omega⟩, ← h2, hv]
        · rw [if_neg (fun h => hjn (by omega))]
          exact h4 j (by omega)
      · intro k hk
        show (t.1.set _ _).getD k 0 = _
        rw [getD_set, h2, if_neg (fun h => by omega)]
        exact h5 k (by omega)
      · show ((t.2.2 + t.1.getD t.2.1 0) % 256) % 256 = _
        rw [hv, Nat.mod_mod]
      · intro _
        show (t.2.2 + t.1.getD t.2.1 0) % 256 = (t.1.set _ _).getD (p + (n + 1) - 1) 0
        rw [getD_set, h2, h3, if_pos ⟨by omega, by omega⟩])
  exact ⟨key.2.1, key.2.2.1, key.2.2.2.1, key.2.2.2.2.1, key.2.2.2.2.2.2⟩

/-- The accumulate branch: sample `j` of logical row `i` becomes the row's column-state
byte plus the sum of the row's samples `0 .. j` (modulo 256), the column-state byte becomes
the row's last sample, and everything outside the block's rows and column slice is kept. -/
theorem transform_horizontal_accumulate_spec (ctx : DecodeContext) (bo pc : Bytes) (co : Nat)
    (hbs : 0 < ctx.block_size) (hbo : ctx.block_stride * ctx.block_size ≤ bo.length)
    (hpc : co + ctx.block_stride ≤ pc.length) :
    (∀ i j, i < ctx.block_stride → j < ctx.block_size →
        (transform_horizontal_accumulate ctx bo pc co).block_out.getD (i * ctx.block_size + j) 0
          = (pc.getD (co + i) 0 + row_sum bo (i * ctx.block_size) (j + 1)) % 256)
    ∧ (∀ i, i < ctx.block_stride →
        (transform_horizontal_accumulate ctx bo pc co).prev_col.getD (co + i) 0
          = (transform_horizontal_accumulate ctx bo pc co).block_out.getD
              (i * ctx.block_size + ctx.block_size - 1) 0)
    ∧ (∀ k, ctx.block_stride * ctx.block_size ≤ k →
        (transform_horizontal_accumulate ctx bo pc co).block_out.getD k 0 = bo.getD k 0)
    ∧ (∀ k, k < co ∨ co + ctx.block_stride ≤ k →
        (transform_horizontal_accumulate ctx bo pc co).prev_col.getD k 0 = pc.getD k 0)
    ∧ (transform_horizontal_accumulate ctx bo pc co).prev_col.length = pc.length := by
  unfold transform_horizontal_accumulate
  have key := foldl_range_inv
    (fun n (st : HState) =>
      st.block_out_ptr = n * ctx.block_size ∧ st.next_block_col_ptr = co + n
      ∧ st.block_out.length = bo.length ∧ st.prev_col.length = pc.length
      ∧ (∀ i j, i < n → j < ctx.block_size →
          st.block_out.getD (i * ctx.block_size + j) 0
            = (pc.getD (co + i) 0 + row_sum bo (i * ctx.block_size) (j + 1)) % 256)
      ∧ (∀ k, n * ctx.block_size ≤ k → st.block_out.getD k 0 = bo.getD k 0)
      ∧ (∀ i, i < n →
          st.prev_col.getD (co + i) 0
            = st.block_out.getD (i * ctx.block_size + ctx.block_size - 1) 0)
      ∧ (∀ k, k < co ∨ co + n ≤ k → st.prev_col.getD k 0 = pc.getD k 0))
    (fun (st : HState) (_i : Nat) =>
      ({ block_out :=
           (accumulate_row ctx
             (st.block_out, st.block_out_ptr, st.prev_col.getD st.next_block_col_ptr 0)).1
         block_out_ptr :=
           (accumulate_row ctx
             (st.block_out, st.block_out_ptr, st.prev_col.getD st.next_block_col_ptr 0)).2.1
         prev_col := st.prev_col.set st.next_block_col_ptr
           (accumulate_row ctx
             (st.block_out, st.block_out_ptr, st.prev_col.getD st.next_block_col_ptr 0)).2.2
         next_block_col_ptr := st.next_block_col_ptr + 1 } : HState))
    ctx.block_stride
    { block_out := bo, block_out_ptr := 0, prev_col := pc,
      next_block_col_ptr := co }
    ⟨by simp, rfl, rfl, rfl, fun i j hi _ => absurd hi (Nat.not_lt_zero i), fun _ _ => rfl,
      fun i hi => absurd hi (Nat.not_lt_zero i), fun _ _ => rfl⟩
    (by
      intro n st hn ⟨h1, h2, h3, h4, hA, hB, hC, hD⟩
      rcases st with ⟨sbo, sp, spc, sq⟩
      simp only at h1 h2 h3 h4 hA hB hC hD
      subst h1 h2
      have hrow : n * ctx.block_size + ctx.block_size ≤ bo.length := by
        have := Nat.mul_le_mul_right ctx.block_size (Nat.succ_le_of_lt hn)
        rw [Nat.succ_mul] at this
        omega
      have hlast : spc.getD (co + n) 0 = pc.getD (co + n) 0 :=
        hD (co + n) (Or.inr (Nat.le_refl _))
      obtain ⟨R1, R2, R3, R4, R5⟩ := accumulate_row_spec ctx sbo (n * ctx.block_size)
        (spc.getD (co + n) 0) (by rw [h3]; exact hrow)
      have hbefore : ∀ i j, i < n → j < ctx.block_size →
          i * ctx.block_size + j < n * ctx.block_size := fun i j hi hj => radix_lt hj hi
      refine ⟨?_, ?_, ?_, ?_, ?_, ?_, ?_, ?_⟩
      · show (accumulate_row ctx _).2.1 = (n + 1) * ctx.block_size
        rw [R1, Nat.succ_mul]
      · rfl
      · show (accumulate_row ctx _).1.length = bo.length
        rw [R2, h3]
      · show (spc.set _ _).length = pc.length
        rw [List.length_set, h4]
      · intro i j hi hj
        show (accumulate_row ctx _).1.getD (i * ctx.block_size + j) 0 = _
        by_cases hin : i = n
        · subst hin
          rw [R3 j hj, hlast,
            row_sum_congr sbo bo (i * ctx.block_size) (j + 1)
              (fun j1 _ => hB _ (Nat.le_add_right _ _))]
        · have hi' : i < n := by omega
          rw [R4 _ (Or.inl (hbefore i j hi' hj))]
          exact hA i j hi' hj
      · intro k hk
        show (accumulate_row ctx _).1.getD k 0 = _
        rw [Nat.succ_mul] at hk
        rw [R4 k (Or.inr hk)]
        exact hB k (by omega)
      · intro i hi
        show (spc.set (co + n) _).getD (co + i) 0
          = (accumulate_row ctx _).1.getD (i * ctx.block_size + ctx.block_size - 1) 0
        rw [getD_set, h4]
        by_cases hin : i = n
        · subst hin
          rw [if_pos ⟨rfl, by omega⟩, R5 hbs]
        · have hi' : i < n := by omega
          rw [if_neg (fun h => hin (by omega))]
          have hpos : i * ctx.block_size + ctx.block_size - 1 < n * ctx.block_size := by
            have := hbefore i (ctx.block_size - 1) hi' (by omega)
            omega
          rw [R4 _ (Or.inl hpos)]
          exact hC i hi'
      · intro k hk
        show (spc.set (co + n) _).getD k 0 = _
        rw [getD_set, if_neg (fun h => by omega)]
        exact hD k (by omega))
  exact ⟨fun i j hi hj => key.2.2.2.2.1 i j hi hj, key.2.2.2.2.2.2.1, key.2.2.2.2.2.1,
    key.2.2.2.2.2.2.2, key.2.2.2.1⟩

/-- C13: for every transformer code with bit 6 set, for each of the `block_stride` logical
rows `i` and each `j < block_size`, the sample at `i * block_size + j` after step 5 is the
row's column-state byte at entry plus the sum of the row's samples `0 .. j` before step 5,
modulo 256, and after the transform the row's column-state byte is the row's last sample
after step 5.  (The block's rows lie inside `block_out`, its column slice inside
`prev_col`.) -/
theorem transform_accumulate (transformer_code : Nat) (ctx : DecodeContext)
    (permutation : List Nat) (arrange_buf : Bytes) (prev_block_row prev_block_col : Nat)
    (b : Buffers) (hbit : transformer_code &&& 0x40 ≠ 0) (hbs : 0 < ctx.block_size)
    (hbo : ctx.block_stride * ctx.block_size ≤ b.block_out.length)
    (hpc : prev_block_col + ctx.block_stride ≤ b.prev_col.length) :
    ∀ i j, i < ctx.block_stride → j < ctx.block_size →
      (transform_step5 transformer_code ctx permutation arrange_buf prev_block_col
          b).block_out.getD (i * ctx.block_size + j) 0
        = (b.prev_col.getD (prev_block_col + i) 0
            + row_sum (transform_step4 transformer_code ctx permutation arrange_buf b)
                (i * ctx.block_size) (j + 1)) % 256
      ∧ (transform transformer_code ctx permutation arrange_buf prev_block_row prev_block_col
            b).prev_col.getD (prev_block_col + i) 0
          = (transform_step5 transformer_code ctx permutation arrange_buf prev_block_col
              b).block_out.getD (i * ctx.block_size + ctx.block_size - 1) 0 := by
  have hne : transformer_code ≠ 0 := by
    intro h
    rw [h] at hbit
    exact hbit (by decide)
  have hspec := transform_horizontal_accumulate_spec ctx
    (transform_step4 transformer_code ctx permutation arrange_buf b) b.prev_col prev_block_col
    hbs (by rw [transform_step4_length]; exact hbo) hpc
  intro i j hi hj
  rw [transform_prev_col _ _ _ _ _ _ _ hne, transform_step5_accumulate _ _ _ _ _ _ hbit]
  exact ⟨hspec.1 i j hi hj, hspec.2.1 i hi⟩

/-- C13 witness: block size 4, first row `[1, 1, 1, 1]` with column-state seed 5: the row
becomes `[6, 7, 8, 9]` and the stored column state is 9. -/
theorem transform_accumulate_witness :
    (∀ i j, i < rowCtx.block_stride → j < rowCtx.block_size →
      (transform_step5 0xC0 rowCtx (init_permutation rowCtx) rowSamples 0
          rowBuffers).block_out.getD (i * rowCtx.block_size + j) 0
        = (rowBuffers.prev_col.getD (0 + i) 0
            + row_sum (transform_step4 0xC0 rowCtx (init_permutation rowCtx) rowSamples
                rowBuffers) (i * rowCtx.block_size) (j + 1)) % 256
      ∧ (transform 0xC0 rowCtx (init_permutation rowCtx) rowSamples 0 0
            rowBuffers).prev_col.getD (0 + i) 0
          = (transform_step5 0xC0 rowCtx (init_permutation rowCtx) rowSamples 0
              rowBuffers).block_out.getD (i * rowCtx.block_size + rowCtx.block_size - 1) 0)
    ∧ (transform_step4 0xC0 rowCtx (init_permutation rowCtx) rowSamples rowBuffers).take 4
        = [1, 1, 1, 1]
    ∧ (transform_step5 0xC0 rowCtx (init_permutation rowCtx) rowSamples 0
        rowBuffers).block_out.take 4 = [6, 7, 8, 9]
    ∧ (transform 0xC0 rowCtx (init_permutation rowCtx) rowSamples 0 0
        rowBuffers).prev_col.getD 0 0 = 9 :=
  ⟨transform_accumulate 0xC0 rowCtx (init_permutation rowCtx) rowSamples 0 0 rowBuffers
      (by decide) (by decide) (by decide) (by decide),
    by decide, by decide, by decide⟩

/-! ## The vertical pass -/

theorem col_sum_succ (buf : Bytes) (start stride n : Nat) :
    col_sum buf start stride (n + 1)
      = col_sum buf start stride n + buf.getD (start + n * stride) 0 := by
  simp [col_sum, List.range_succ]

theorem col_sum_congr (a b : Bytes) (start stride n : Nat)
    (h : ∀ r, r < n → a.getD (start + r * stride) 0 = b.getD (start + r * stride) 0) :
    col_sum a start stride n = col_sum b start stride n := by
  induction n with
  | zero => rfl
  | succ n ih =>
    rw [col_sum_succ, col_sum_succ, ih (fun r hr => h r (Nat.lt_succ_of_lt hr)),
      h n (Nat.lt_succ_self n)]

theorem rowptr_add_zero (ptr : RowPtr) : ptr.add 0 = ptr := by
  cases ptr <;> rfl

theorem rowptr_add_next (ptr : RowPtr) (n : Nat) : (ptr.add n).next = ptr.add (n + 1) := by
  cases ptr <;> rfl

/-- One line of the vertical pass: byte `j` of the line at `block_out_ptr` gets the byte
the source pointer aims at added (modulo 256), provided a source line inside `block_out`
lies before the current line; everything else is kept. -/
theorem vertical_add_line_spec (ctx : DecodeContext) (st : VState)
    (hsrc : ∀ q, st.prev_block_row_ptr = RowPtr.out q → q + ctx.block_size ≤ st.block_out_ptr)
    (hlen : st.block_out_ptr + ctx.block_size ≤ st.block_out.length) :
    (vertical_add_line ctx st).block_out_ptr = st.block_out_ptr + ctx.block_size
    ∧ (vertical_add_line ctx st).prev_row = st.prev_row
    ∧ (vertical_add_line ctx st).prev_block_row_base = st.prev_block_row_base
    ∧ (vertical_add_line ctx st).block_out.length = st.block_out.length
    ∧ (∀ j, j < ctx.block_size →
        (vertical_add_line ctx st).block_out.getD (st.block_out_ptr + j) 0
          = (st.block_out.getD (st.block_out_ptr + j) 0
              + RowPtr.read st.block_out st.prev_row (st.prev_block_row_ptr.add j)) % 256)
    ∧ (∀ k, k < st.block_out_ptr ∨ st.block_out_ptr + ctx.block_size ≤ k →
        (vertical_add_line ctx st).block_out.getD k 0 = st.block_out.getD k 0) := by
  rcases st with ⟨bo, p, pr, base, ptr⟩
  simp only at hsrc hlen ⊢
  unfold vertical_add_line
  have key := foldl_range_inv
    (fun n (u : VState) =>
      u.block_out_ptr = p + n ∧ u.prev_block_row_ptr = ptr.add n ∧ u.prev_row = pr
      ∧ u.prev_block_row_base = base ∧ u.block_out.length = bo.length
      ∧ (∀ j, j < n → u.block_out.getD (p + j) 0
          = (bo.getD (p + j) 0 + RowPtr.read bo pr (ptr.add j)) % 256)
      ∧ (∀ k, k < p ∨ p + n ≤ k → u.block_out.getD k 0 = bo.getD k 0))
    (fun (st : VState) (_j : Nat) =>
      ({ block_out := st.block_out.set st.block_out_ptr
           ((st.block_out.getD st.block_out_ptr 0
             + st.prev_block_row_ptr.read st.block_out st.prev_row) % 256)
         block_out_ptr := st.block_out_ptr + 1
         prev_row := st.prev_row
         prev_block_row_base := st.prev_block_row_base
         prev_block_row_ptr := st.prev_block_row_ptr.next } : VState))
    ctx.block_size
    { block_out := bo, block_out_ptr := p, prev_row := pr, prev_block_row_base := base,
      prev_block_row_ptr := ptr }
    ⟨rfl, (rowptr_add_zero ptr).symm, rfl, rfl, rfl,
      fun j hj => absurd hj (Nat.not_lt_zero j), fun _ _ => rfl⟩
    (by
      intro n u hn ⟨h1, h2, h3, h4, h5, h6, h7⟩
      rcases u with ⟨ubo, up, upr, ubase, uptr⟩
      simp only at h1 h2 h3 h4 h5 h6 h7
      subst h1 h2 h3 h4
      have hread : RowPtr.read ubo upr (ptr.add n) = RowPtr.read bo upr (ptr.add n) := by
        cases ptr with
        | row q => rfl
        | out q =>
          show ubo.getD (q + n) 0 = bo.getD (q + n) 0
          have := hsrc q rfl
          exact h7 (q + n) (Or.inl (by omega))
      have hcur : ubo.getD (p + n) 0 = bo.getD (p + n) 0 :=
        h7 (p + n) (Or.inr (Nat.le_refl _))
      refine ⟨rfl, rowptr_add_next ptr n, rfl, rfl, ?_, ?_, ?_⟩
      · show (ubo.set _ _).length = bo.length
        rw [List.length_set, h5]
      · intro j hj
        show (ubo.set (p + n) _).getD (p + j) 0 = _
        rw [getD_set, h5]
        by_cases hjn : j = n
        · subst hjn
          rw [if_pos ⟨rfl, by omega⟩, hcur, hread]
        · rw [if_neg (fun h => hjn (by omega))]
          exact h6 j (by omega)
      · intro k hk
        show (ubo.set (p + n) _).getD k 0 = _
        rw [getD_set, if_neg (fun h => by omega)]
        exact h7 k (by omega))
  exact ⟨key.1, key.2.2.1, key.2.2.2.1, key.2.2.2.2.1, key.2.2.2.2.2.1, key.2.2.2.2.2.2⟩

/-- The lines of one channel plane: line `r`, byte `j` becomes the row-state byte `j` the
pass started from plus the sum of the plane's bytes `j` of lines `0 .. r` (modulo 256);
afterwards the source pointer aims at the plane's last line. -/
theorem vertical_add_plane_spec (ctx : DecodeContext) (st : VState) (q0 : Nat)
    (hbs : 0 < ctx.block_size)
    (hptr : st.prev_block_row_ptr = RowPtr.row q0)
    (hlen : st.block_out_ptr + ctx.block_size * ctx.block_size ≤ st.block_out.length) :
    (vertical_add_plane ctx st).block_out_ptr
      = st.block_out_ptr + ctx.block_size * ctx.block_size
    ∧ (vertical_add_plane ctx st).prev_row = st.prev_row
    ∧ (vertical_add_plane ctx st).prev_block_row_base = st.prev_block_row_base
    ∧ (vertical_add_plane ctx st).block_out.length = st.block_out.length
    ∧ (vertical_add_plane ctx st).prev_block_row_ptr
        = RowPtr.out (st.block_out_ptr + (ctx.block_size - 1) * ctx.block_size)
    ∧ (∀ r j, r < ctx.block_size → j < ctx.block_size →
        (vertical_add_plane ctx st).block_out.getD
            (st.block_out_ptr + r * ctx.block_size + j) 0
          = (st.prev_row.getD (q0 + j) 0
              + col_sum st.block_out (st.block_out_ptr + j) ctx.block_size (r + 1)) % 256)
    ∧ (∀ k, k < st.block_out_ptr ∨ st.block_out_ptr + ctx.block_size * ctx.block_size ≤ k →
        (vertical_add_plane ctx st).block_out.getD k 0 = st.block_out.getD k 0) := by
  rcases st with ⟨bo, p0, pr, base, ptr⟩
  simp only at hptr hlen ⊢
  subst hptr
  unfold vertical_add_plane
  have key := foldl_range_inv
    (fun i (u : VState) =>
      u.block_out_ptr = p0 + i * ctx.block_size ∧ u.prev_row = pr
      ∧ u.prev_block_row_base = base ∧ u.block_out.length = bo.length
      ∧ ((i = 0 ∧ u.prev_block_row_ptr = RowPtr.row q0)
          ∨ (∃ i1, i = i1 + 1 ∧ u.prev_block_row_ptr = RowPtr.out (p0 + i1 * ctx.block_size)))
      ∧ (∀ r j, r < i → j < ctx.block_size →
          u.block_out.getD (p0 + r * ctx.block_size + j) 0
            = (pr.getD (q0 + j) 0 + col_sum bo (p0 + j) ctx.block_size (r + 1)) % 256)
      ∧ (∀ k, k < p0 ∨ p0 + i * ctx.block_size ≤ k → u.block_out.getD k 0 = bo.getD k 0))
    (fun (st : VState) (_i : Nat) =>
      ({ block_out := (vertical_add_line ctx st).block_out
         block_out_ptr := (vertical_add_line ctx st).block_out_ptr
         prev_row := (vertical_add_line ctx st).prev_row
         prev_block_row_base := (vertical_add_line ctx st).prev_block_row_base
         prev_block_row_ptr := RowPtr.out st.block_out_ptr } : VState))
    ctx.block_size
    { block_out := bo, block_out_ptr := p0, prev_row := pr, prev_block_row_base := base,
      prev_block_row_ptr := RowPtr.row q0 }
    ⟨by simp, rfl, rfl, rfl, Or.inl ⟨rfl, rfl⟩,
      fun r j hr _ => absurd hr (Nat.not_lt_zero r), fun _ _ => rfl⟩
    (by
      intro i u hi ⟨h1, h2, h3, h4, h5, h6, h7⟩
      have hline : p0 + i * ctx.block_size + ctx.block_size ≤ bo.length := by
        have := Nat.mul_le_mul_right ctx.block_size (Nat.succ_le_of_lt hi)
        rw [Nat.succ_mul] at this
        omega
      have hsrc : ∀ q, u.prev_block_row_ptr = RowPtr.out q →
          q + ctx.block_size ≤ u.block_out_ptr := by
        intro q hq
        rcases h5 with ⟨_, h5⟩ | ⟨i1, hi1, h5⟩
        · rw [h5] at hq; cases hq
        · rw [h5] at hq
          cases hq
          rw [h1, hi1, Nat.succ_mul]
          omega
      obtain ⟨L1, L2, L3, L4, L5, L6⟩ := vertical_add_line_spec ctx u hsrc
        (by rw [h1, h4]; exact hline)
      rw [h1] at L1 L5 L6
      refine ⟨?_, ?_, ?_, ?_, ?_, ?_, ?_⟩
      · show (vertical_add_line ctx u).block_out_ptr = p0 + (i + 1) * ctx.block_size
        rw [L1, Nat.succ_mul]
        omega
      · show (vertical_add_line ctx u).prev_row = pr
        rw [L2, h2]
      · show (vertical_add_line ctx u).prev_block_row_base = base
        rw [L3, h3]
      · show (vertical_add_line ctx u).block_out.length = bo.length
        rw [L4, h4]
      · right
        exact ⟨i, rfl, by show RowPtr.out u.block_out_ptr = _; rw [h1]⟩
      · intro r j hr hj
        show (vertical_add_line ctx u).block_out.getD (p0 + r * ctx.block_size + j) 0 = _
        by_cases hri : r = i
        · subst hri
          rw [L5 j hj, h7 _ (Or.inr (Nat.le_add_right _ _)), col_sum_succ, h2]
          have e : p0 + j + r * ctx.block_size = p0 + r * ctx.block_size + j := by omega
          rw [e]
          rcases h5 with ⟨hr0, h5⟩ | ⟨i1, hi1, h5⟩
          · subst hr0
            rw [h5]
            show (_ + pr.getD (q0 + j) 0) % 256 = _
            simp only [col_sum, List.range_zero, List.map_nil, List.sum_nil]
            omega
          · subst hi1
            rw [h5]
            show (_ + u.block_out.getD (p0 + i1 * ctx.block_size + j) 0) % 256 = _
            rw [h6 i1 j (Nat.lt_succ_self i1) hj]
            omega
        · have hr' : r < i := by omega
          have hpos : p0 + r * ctx.block_size + j < p0 + i * ctx.block_size := by
            have := @radix_lt ctx.block_size i j r hj hr'
            omega
          rw [L6 _ (Or.inl hpos)]
          exact h6 r j hr' hj
      · intro k hk
        show (vertical_add_line ctx u).block_out.getD k 0 = _
        rw [Nat.succ_mul] at hk
        rw [L6 k (by omega)]
        exact h7 k (by omega))
  refine ⟨key.1, key.2.1, key.2.2.1, key.2.2.2.1, ?_, key.2.2.2.2.2.1, key.2.2.2.2.2.2⟩
  rcases key.2.2.2.2.1 with ⟨h0, _⟩ | ⟨i1, hi1, hp⟩
  · omega
  · rw [hp]
    have : i1 = ctx.block_size - 1 := by omega
    rw [this]

/-- The copy loop closing a channel's iteration: the line of `block_out` the pointer aims
at is copied into the row state at `prev_block_row_base`; the rest of the row state and
`block_out` are kept. -/
theorem vertical_store_row_spec (ctx : DecodeContext) (st : VState) (q : Nat)
    (hptr : st.prev_block_row_ptr = RowPtr.out q)
    (hlen : st.prev_block_row_base + ctx.block_size ≤ st.prev_row.length) :
    (vertical_store_row ctx st).block_out = st.block_out
    ∧ (vertical_store_row ctx st).block_out_ptr = st.block_out_ptr
    ∧ (vertical_store_row ctx st).prev_block_row_base
        = st.prev_block_row_base + ctx.block_size
    ∧ (vertical_store_row ctx st).prev_row.length = st.prev_row.length
    ∧ (∀ j, j < ctx.block_size →
        (vertical_store_row ctx st).prev_row.getD (st.prev_block_row_base + j) 0
          = st.block_out.getD (q + j) 0)
    ∧ (∀ k, k < st.prev_block_row_base ∨ st.prev_block_row_base + ctx.block_size ≤ k →
        (vertical_store_row ctx st).prev_row.getD k 0 = st.prev_row.getD k 0) := by
  rcases st with ⟨bo, p, pr, base, ptr⟩
  simp only at hptr hlen ⊢
  subst hptr
  unfold vertical_store_row
  have key := foldl_range_inv
    (fun n (u : VState) =>
      u.block_out = bo ∧ u.block_out_ptr = p ∧ u.prev_block_row_base = base + n
      ∧ u.prev_block_row_ptr = RowPtr.out (q + n) ∧ u.prev_row.length = pr.length
      ∧ (∀ j, j < n → u.prev_row.getD (base + j) 0 = bo.getD (q + j) 0)
      ∧ (∀ k, k < base ∨ base + n ≤ k → u.prev_row.getD k 0 = pr.getD k 0))
    (fun (st : VState) (_j : Nat) =>
      ({ block_out := st.block_out
         block_out_ptr := st.block_out_ptr
         prev_row := st.prev_row.set st.prev_block_row_base
           (st.prev_block_row_ptr.read st.block_out st.prev_row)
         prev_block_row_base := st.prev_block_row_base + 1
         prev_block_row_ptr := st.prev_block_row_ptr.next } : VState))
    ctx.block_size
    { block_out := bo, block_out_ptr := p, prev_row := pr, prev_block_row_base := base,
      prev_block_row_ptr := RowPtr.out q }
    ⟨rfl, rfl, rfl, rfl, rfl, fun j hj => absurd hj (Nat.not_lt_zero j), fun _ _ => rfl⟩
    (by
      intro n u hn ⟨h1, h2, h3, h4, h5, h6, h7⟩
      rcases u with ⟨ubo, up, upr, ubase, uptr⟩
      simp only at h1 h2 h3 h4 h5 h6 h7
      subst h1 h2 h3 h4
      refine ⟨rfl, rfl, rfl, rfl, ?_, ?_, ?_⟩
      · show (upr.set _ _).length = pr.length
        rw [List.length_set, h5]
      · intro j hj
        show (upr.set (base + n) (ubo.getD (q + n) 0)).getD (base + j) 0 = _
        rw [getD_set, h5]
        by_cases hjn : j = n
        · subst hjn
          rw [if_pos ⟨rfl, by omega⟩]
        · rw [if_neg (fun h => hjn (by omega))]
          exact h6 j (by omega)
      · intro k hk
        show (upr.set (base + n) _).getD k 0 = _
        rw [getD_set, if_neg (fun h => by omega)]
        exact h7 k (by omega))
  exact ⟨key.1, key.2.1, key.2.2.1, key.2.2.2.2.1, key.2.2.2.2.2.1, key.2.2.2.2.2.2⟩

/-- The vertical pass: byte `j` of line `r` of plane `k` becomes the plane's row-state byte
`j` at entry plus the sum of the plane's bytes `j` of lines `0 .. r` (modulo 256), and the
plane's row-state slice becomes the plane's last line. -/
theorem transform_vertical_spec (ctx : DecodeContext) (bo pr : Bytes) (ro : Nat)
    (hbs : 0 < ctx.block_size)
    (hbo : ctx.channel_count * (ctx.block_size * ctx.block_size) ≤ bo.length)
    (hpr : ro + ctx.channel_count * ctx.block_size ≤ pr.length) :
    (∀ k r j, k < ctx.channel_count → r < ctx.block_size → j < ctx.block_size →
        (transform_vertical ctx bo pr ro).block_out.getD
            (k * (ctx.block_size * ctx.block_size) + r * ctx.block_size + j) 0
          = (pr.getD (ro + k * ctx.block_size + j) 0
              + col_sum bo (k * (ctx.block_size * ctx.block_size) + j) ctx.block_size
                  (r + 1)) % 256)
    ∧ (∀ k j, k < ctx.channel_count → j < ctx.block_size →
        (transform_vertical ctx bo pr ro).prev_row.getD (ro + k * ctx.block_size + j) 0
          = (transform_vertical ctx bo pr ro).block_out.getD
              (k * (ctx.block_size * ctx.block_size)
                + (ctx.block_size - 1) * ctx.block_size + j) 0)
    ∧ (∀ pos, ctx.channel_count * (ctx.block_size * ctx.block_size) ≤ pos →
        (transform_vertical ctx bo pr ro).block_out.getD pos 0 = bo.getD pos 0)
    ∧ (∀ pos, pos < ro ∨ ro + ctx.channel_count * ctx.block_size ≤ pos →
        (transform_vertical ctx bo pr ro).prev_row.getD pos 0 = pr.getD pos 0) := by
  unfold transform_vertical
  have key := foldl_range_inv
    (fun n (u : VState) =>
      u.block_out_ptr = n * (ctx.block_size * ctx.block_size)
      ∧ u.prev_block_row_base = ro + n * ctx.block_size
      ∧ u.block_out.length = bo.length ∧ u.prev_row.length = pr.length
      ∧ (∀ k r j, k < n → r < ctx.block_size → j < ctx.block_size →
          u.block_out.getD (k * (ctx.block_size * ctx.block_size) + r * ctx.block_size + j) 0
            = (pr.getD (ro + k * ctx.block_size + j) 0
                + col_sum bo (k * (ctx.block_size * ctx.block_size) + j) ctx.block_size
                    (r + 1)) % 256)
      ∧ (∀ pos, n * (ctx.block_size * ctx.block_size) ≤ pos →
          u.block_out.getD pos 0 = bo.getD pos 0)
      ∧ (∀ k j, k < n → j < ctx.block_size →
          u.prev_row.getD (ro + k * ctx.block_size + j) 0
            = u.block_out.getD
                (k * (ctx.block_size * ctx.block_size)
                  + (ctx.block_size - 1) * ctx.block_size + j) 0)
      ∧ (∀ pos, pos < ro ∨ ro + n * ctx.block_size ≤ pos →
          u.prev_row.getD pos 0 = pr.getD pos 0))
    (fun (st : VState) (_k : Nat) =>
      vertical_store_row ctx (vertical_add_plane ctx
        { block_out := st.block_out
          block_out_ptr := st.block_out_ptr
          prev_row := st.prev_row
          prev_block_row_base := st.prev_block_row_base
          prev_block_row_ptr := RowPtr.row st.prev_block_row_base }))
    ctx.channel_count
    { block_out := bo, block_out_ptr := 0, prev_row := pr, prev_block_row_base := ro,
      prev_block_row_ptr := RowPtr.row ro }
    ⟨by simp, by simp, rfl, rfl, fun k r j hk _ _ => absurd hk (Nat.not_lt_zero k),
      fun _ _ => rfl, fun k j hk _ => absurd hk (Nat.not_lt_zero k), fun _ _ => rfl⟩
    (by
      intro n u hn ⟨h1, h2, h3, h4, hA, hB, hC, hD⟩
      rcases u with ⟨ubo, up, upr, ubase, uptr⟩
      simp only at h1 h2 h3 h4 hA hB hC hD
      subst h1 h2
      have hplane : n * (ctx.block_size * ctx.block_size) + ctx.block_size * ctx.block_size
          ≤ bo.length := by
        have := Nat.mul_le_mul_right (ctx.block_size * ctx.block_size) (Nat.succ_le_of_lt hn)
        rw [Nat.succ_mul] at this
        omega
      have hslice : ro + n * ctx.block_size + ctx.block_size ≤ pr.length := by
        have := Nat.mul_le_mul_right ctx.block_size (Nat.succ_le_of_lt hn)
        rw [Nat.succ_mul] at this
        omega
      obtain ⟨P1, P2, P3, P4, P5, P6, P7⟩ := vertical_add_plane_spec ctx
        { block_out := ubo, block_out_ptr := n * (ctx.block_size * ctx.block_size),
          prev_row := upr, prev_block_row_base := ro + n * ctx.block_size,
          prev_block_row_ptr := RowPtr.row (ro + n * ctx.block_size) }
        (ro + n * ctx.block_size) hbs rfl (by rw [h3]; exact hplane)
      simp only at P1 P2 P3 P4 P5 P6 P7
      obtain ⟨S1, S2, S3, S4, S5, S6⟩ := vertical_store_row_spec ctx _ _ P5
        (by rw [P3, P2, h4]; exact hslice)
      rw [P3] at S3 S5 S6
      rw [P2] at S4 S6
      rw [P1] at S2
      have hlast : ∀ j, j < ctx.block_size →
          (ctx.block_size - 1) * ctx.block_size + j < ctx.block_size * ctx.block_size :=
        fun j hj => radix_lt hj (by omega)
      have hbefore : ∀ k x, k < n → x < ctx.block_size * ctx.block_size →
          k * (ctx.block_size * ctx.block_size) + x
            < n * (ctx.block_size * ctx.block_size) := fun k x hk hx => radix_lt hx hk
      refine ⟨?_, ?_, ?_, ?_, ?_, ?_, ?_, ?_⟩
      · rw [S2, Nat.succ_mul]
      · rw [S3, Nat.succ_mul]
        omega
      · rw [S1, P4, h3]
      · rw [S4, h4]
      · intro k r j hk hr hj
        rw [S1]
        by_cases hkn : k = n
        · subst hkn
          rw [P6 r j hr hj, hD _ (Or.inr (Nat.le_add_right _ _)),
            col_sum_congr ubo bo _ _ _ (fun r1 _ => hB _ (by omega))]
        · have hk' : k < n := by omega
          have hx : r * ctx.block_size + j < ctx.block_size * ctx.block_size := radix_lt hj hr
          have := hbefore k _ hk' hx
          rw [P7 _ (Or.inl (by omega))]
          exact hA k r j hk' hr hj
      · intro pos hpos
        rw [Nat.succ_mul] at hpos
        rw [S1, P7 pos (Or.inr hpos)]
        exact hB pos (by omega)
      · intro k j hk hj
        rw [S1]
        by_cases hkn : k = n
        · subst hkn
          exact S5 j hj
        · have hk' : k < n := by omega
          have h5 : k * ctx.block_size + j < n * ctx.block_size := radix_lt hj hk'
          have := hbefore k _ hk' (hlast j hj)
          rw [S6 _ (Or.inl (by omega)), P7 _ (Or.inl (by omega))]
          exact hC k j hk' hj
      · intro pos hpos
        rw [Nat.succ_mul] at hpos
        rw [S6 pos (by omega)]
        exact hD pos (by omega))
  exact ⟨key.2.2.2.2.1, key.2.2.2.2.2.2.1, key.2.2.2.2.2.1, key.2.2.2.2.2.2.2⟩

theorem transform_step5_length (transformer_code : Nat) (ctx : DecodeContext)
    (permutation : List Nat) (arrange_buf : Bytes) (prev_block_col : Nat) (b : Buffers) :
    (transform_step5 transformer_code ctx permutation arrange_buf prev_block_col
        b).block_out.length = b.block_out.length := by
  unfold transform_step5
  split
  · rw [transform_horizontal_accumulate_length, transform_step4_length]
  · rw [transform_horizontal_store_block_out, transform_step4_length]

/-- C20: the vertical pass of `transform` is a running column sum.  For every nonzero
transformer code, channel `k`, row `r` and column `j` below their bounds, the byte of
`block_out` at plane `k`, line `r`, column `j` (planes of `block_size * block_size` bytes)
after the transform is the row-state byte `k * block_size + j` of the block's slice at entry
plus the sum over the lines `0 .. r` of the plane's bytes in column `j` as they were after
step 5, modulo 256; and afterwards that row-state byte is the plane's last line at column
`j`.  (The planes lie inside `block_out`, the block's slice inside `prev_row`.) -/
theorem transform_vertical_running_sum (transformer_code : Nat) (ctx : DecodeContext)
    (permutation : List Nat) (arrange_buf : Bytes) (prev_block_row prev_block_col : Nat)
    (b : Buffers) (hne : transformer_code ≠ 0) (hbs : 0 < ctx.block_size)
    (hbo : ctx.channel_count * (ctx.block_size * ctx.block_size) ≤ b.block_out.length)
    (hpr : prev_block_row + ctx.channel_count * ctx.block_size ≤ b.prev_row.length) :
    ∀ k r j, k < ctx.channel_count → r < ctx.block_size → j < ctx.block_size →
      (transform transformer_code ctx permutation arrange_buf prev_block_row prev_block_col
          b).block_out.getD (k * (ctx.block_size * ctx.block_size) + r * ctx.block_size + j) 0
        = (b.prev_row.getD (prev_block_row + k * ctx.block_size + j) 0
            + col_sum
                (transform_step5 transformer_code ctx permutation arrange_buf prev_block_col
                  b).block_out
                (k * (ctx.block_size * ctx.block_size) + j) ctx.block_size (r + 1)) % 256
      ∧ (transform transformer_code ctx permutation arrange_buf prev_block_row prev_block_col
            b).prev_row.getD (prev_block_row + k * ctx.block_size + j) 0
          = (transform transformer_code ctx permutation arrange_buf prev_block_row
              prev_block_col b).block_out.getD
                (k * (ctx.block_size * ctx.block_size)
                  + (ctx.block_size - 1) * ctx.block_size + j) 0 := by
  have hspec := transform_vertical_spec ctx
    (transform_step5 transformer_code ctx permutation arrange_buf prev_block_col b).block_out
    b.prev_row prev_block_row hbs (by rw [transform_step5_length]; exact hbo) hpr
  intro k r j hk hr hj
  rw [transform_nonzero _ _ _ _ _ _ _ hne]
  exact ⟨hspec.1 k r j hk hr hj, hspec.2.1 k j hk hj⟩

/-- C20 witness: three planes of 2 x 2 bytes, code `0b10000000`, row state
`[10, 20, 30, 40, 50, 60]`: plane 0 holds `[1, 2, 3, 4]` after step 5 and becomes
`[11, 22, 14, 26]`; the row state becomes the three last lines. -/
theorem transform_vertical_running_sum_witness :
    (∀ k r j, k < colorCtx.channel_count → r < colorCtx.block_size → j < colorCtx.block_size →
      (transform 0x80 colorCtx (init_permutation colorCtx)
          [1, 2, 3, 4, 5, 6, 7, 8, 9, 10, 11, 12] 0 0
          { block_out := List.replicate 12 0, prev_row := [10, 20, 30, 40, 50, 60],
            prev_col := List.replicate 6 0 }).block_out.getD
          (k * (colorCtx.block_size * colorCtx.block_size) + r * colorCtx.block_size + j) 0
        = (([10, 20, 30, 40, 50, 60] : Bytes).getD (0 + k * colorCtx.block_size + j) 0
            + col_sum
                (transform_step5 0x80 colorCtx (init_permutation colorCtx)
                  [1, 2, 3, 4, 5, 6, 7, 8, 9, 10, 11, 12] 0
                  { block_out := List.replicate 12 0, prev_row := [10, 20, 30, 40, 50, 60],
                    prev_col := List.replicate 6 0 }).block_out
                (k * (colorCtx.block_size * colorCtx.block_size) + j) colorCtx.block_size
                (r + 1)) % 256
      ∧ (transform 0x80 colorCtx (init_permutation colorCtx)
            [1, 2, 3, 4, 5, 6, 7, 8, 9, 10, 11, 12] 0 0
            { block_out := List.replicate 12 0, prev_row := [10, 20, 30, 40, 50, 60],
              prev_col := List.replicate 6 0 }).prev_row.getD
            (0 + k * colorCtx.block_size + j) 0
          = (transform 0x80 colorCtx (init_permutation colorCtx)
              [1, 2, 3, 4, 5, 6, 7, 8, 9, 10, 11, 12] 0 0
              { block_out := List.replicate 12 0, prev_row := [10, 20, 30, 40, 50, 60],
                prev_col := List.replicate 6 0 }).block_out.getD
                (k * (colorCtx.block_size * colorCtx.block_size)
                  + (colorCtx.block_size - 1) * colorCtx.block_size + j) 0)
    ∧ (transform_step5 0x80 colorCtx (init_permutation colorCtx)
          [1, 2, 3, 4, 5, 6, 7, 8, 9, 10, 11, 12] 0
          { block_out := List.replicate 12 0, prev_row := [10, 20, 30, 40, 50, 60],
            prev_col := List.replicate 6 0 }).block_out
        = [1, 2, 3, 4, 5, 6, 7, 8, 9, 10, 11, 12]
    ∧ (transform 0x80 colorCtx (init_permutation colorCtx)
          [1, 2, 3, 4, 5, 6, 7, 8, 9, 10, 11, 12] 0 0
          { block_out := List.replicate 12 0, prev_row := [10, 20, 30, 40, 50, 60],
            prev_col := List.replicate 6 0 }).block_out
        = [11, 22, 14, 26, 35, 46, 42, 54, 59, 70, 70, 82]
    ∧ (transform 0x80 colorCtx (init_permutation colorCtx)
          [1, 2, 3, 4, 5, 6, 7, 8, 9, 10, 11, 12] 0 0
          { block_out := List.replicate 12 0, prev_row := [10, 20, 30, 40, 50, 60],
            prev_col := List.replicate 6 0 }).prev_row
        = [14, 26, 42, 54, 70, 82] :=
  ⟨transform_vertical_running_sum 0x80 colorCtx (init_permutation colorCtx)
      [1, 2, 3, 4, 5, 6, 7, 8, 9, 10, 11, 12] 0 0
      { block_out := List.replicate 12 0, prev_row := [10, 20, 30, 40, 50, 60],
        prev_col := List.replicate 6 0 }
      (by decide) (by decide) (by decide) (by decide),
    by decide, by decide, by decide⟩

/-- C14 counterexample: one plane of 2 x 2 bytes `[1, 1, 1, 1]`, code `0b10000000`, row
state `[5, 5]`.  Adding the entry row state to every line would give `[6, 6, 6, 6]`; the
code produces `[6, 6, 7, 7]`, because line 1 receives line 0 as it is after its own
addition. -/
theorem transform_vertical_row_state_counterexample :
    (0x80 : Nat) ≠ 0
    ∧ ¬ (∀ k r j, k < grayCtx.channel_count → r < grayCtx.block_size → j < grayCtx.block_size →
        (transform 0x80 grayCtx (init_permutation grayCtx) [1, 1, 1, 1] 0 0
            { block_out := [0, 0, 0, 0], prev_row := [5, 5], prev_col := [0, 0] }).block_out.getD
            (k * (grayCtx.block_size * grayCtx.block_size) + r * grayCtx.block_size + j) 0
          = ((transform_step5 0x80 grayCtx (init_permutation grayCtx) [1, 1, 1, 1] 0
                { block_out := [0, 0, 0, 0], prev_row := [5, 5],
                  prev_col := [0, 0] }).block_out.getD
                (k * (grayCtx.block_size * grayCtx.block_size) + r * grayCtx.block_size + j) 0
              + ([5, 5] : Bytes).getD (0 + k * grayCtx.block_size + j) 0) % 256)
    ∧ (transform_step5 0x80 grayCtx (init_permutation grayCtx) [1, 1, 1, 1] 0
          { block_out := [0, 0, 0, 0], prev_row := [5, 5], prev_col := [0, 0] }).block_out
        = [1, 1, 1, 1]
    ∧ (transform 0x80 grayCtx (init_permutation grayCtx) [1, 1, 1, 1] 0 0
          { block_out := [0, 0, 0, 0], prev_row := [5, 5], prev_col := [0, 0] }).block_out
        = [6, 6, 7, 7] := by
  refine ⟨by decide, ?_, by decide, by decide⟩
  intro h
  have h1 := h 0 1 0 (by decide) (by decide) (by decide)
  revert h1
  decide

/-- C14, amended: for every nonzero transformer code and each channel plane `k` (planes of
`block_size * block_size` bytes), line 0 after the vertical pass is line 0 before it plus
the plane's row-state slice at entry, and every later line `r + 1` after the pass is that
line before the pass plus line `r` of the plane as it is after the pass, byte-wise modulo
256.  (The planes lie inside `block_out`, the block's slice inside `prev_row`.) -/
theorem transform_vertical_recurrence (transformer_code : Nat) (ctx : DecodeContext)
    (permutation : List Nat) (arrange_buf : Bytes) (prev_block_row prev_block_col : Nat)
    (b : Buffers) (hne : transformer_code ≠ 0) (hbs : 0 < ctx.block_size)
    (hbo : ctx.channel_count * (ctx.block_size * ctx.block_size) ≤ b.block_out.length)
    (hpr : prev_block_row + ctx.channel_count * ctx.block_size ≤ b.prev_row.length) :
    ∀ k j, k < ctx.channel_count → j < ctx.block_size →
      (transform transformer_code ctx permutation arrange_buf prev_block_row prev_block_col
          b).block_out.getD (k * (ctx.block_size * ctx.block_size) + 0 * ctx.block_size + j) 0
        = ((transform_step5 transformer_code ctx permutation arrange_buf prev_block_col
              b).block_out.getD
              (k * (ctx.block_size * ctx.block_size) + 0 * ctx.block_size + j) 0
            + b.prev_row.getD (prev_block_row + k * ctx.block_size + j) 0) % 256
      ∧ ∀ r, r + 1 < ctx.block_size →
          (transform transformer_code ctx permutation arrange_buf prev_block_row prev_block_col
              b).block_out.getD
              (k * (ctx.block_size * ctx.block_size) + (r + 1) * ctx.block_size + j) 0
            = ((transform_step5 transformer_code ctx permutation arrange_buf prev_block_col
                  b).block_out.getD
                  (k * (ctx.block_size * ctx.block_size) + (r + 1) * ctx.block_size + j) 0
                + (transform transformer_code ctx permutation arrange_buf prev_block_row
                    prev_block_col b).block_out.getD
                    (k * (ctx.block_size * ctx.block_size) + r * ctx.block_size + j) 0)
              % 256 := by
  have hspec := (transform_vertical_spec ctx
    (transform_step5 transformer_code ctx permutation arrange_buf prev_block_col b).block_out
    b.prev_row prev_block_row hbs (by rw [transform_step5_length]; exact hbo) hpr).1
  intro k j hk hj
  rw [transform_nonzero _ _ _ _ _ _ _ hne]
  refine ⟨?_, ?_⟩
  · show (transform_vertical ctx _ b.prev_row prev_block_row).block_out.getD _ 0 = _
    rw [hspec k 0 j hk hbs hj, col_sum_succ]
    have e : k * (ctx.block_size * ctx.block_size) + j + 0 * ctx.block_size
        = k * (ctx.block_size * ctx.block_size) + 0 * ctx.block_size + j := by omega
    rw [e]
    simp only [col_sum, List.range_zero, List.map_nil, List.sum_nil, Nat.zero_add]
    rw [Nat.add_comm]
  · intro r hr
    show (transform_vertical ctx _ b.prev_row prev_block_row).block_out.getD _ 0
      = (_ + (transform_vertical ctx _ b.prev_row prev_block_row).block_out.getD _ 0) % 256
    rw [hspec k (r + 1) j hk hr hj, hspec k r j hk (by omega) hj, col_sum_succ _ _ _ (r + 1)]
    have e : k * (ctx.block_size * ctx.block_size) + j + (r + 1) * ctx.block_size
        = k * (ctx.block_size * ctx.block_size) + (r + 1) * ctx.block_size + j := by omega
    rw [e]
    omega

/-- C14 witness: the plane `[1, 1, 1, 1]` with row state `[5, 5]` becomes `[6, 6, 7, 7]`:
line 0 is `1 + 5`, line 1 is `1 + 6`. -/
theorem transform_vertical_recurrence_witness :
    (∀ k j, k < grayCtx.channel_count → j < grayCtx.block_size →
      (transform 0x80 grayCtx (init_permutation grayCtx) [1, 1, 1, 1] 0 0
          { block_out := [0, 0, 0, 0], prev_row := [5, 5], prev_col := [0, 0] }).block_out.getD
          (k * (grayCtx.block_size * grayCtx.block_size) + 0 * grayCtx.block_size + j) 0
        = ((transform_step5 0x80 grayCtx (init_permutation grayCtx) [1, 1, 1, 1] 0
              { block_out := [0, 0, 0, 0], prev_row := [5, 5],
                prev_col := [0, 0] }).block_out.getD
              (k * (grayCtx.block_size * grayCtx.block_size) + 0 * grayCtx.block_size + j) 0
            + ([5, 5] : Bytes).getD (0 + k * grayCtx.block_size + j) 0) % 256
      ∧ ∀ r, r + 1 < grayCtx.block_size →
          (transform 0x80 grayCtx (init_permutation grayCtx) [1, 1, 1, 1] 0 0
              { block_out := [0, 0, 0, 0], prev_row := [5, 5],
                prev_col := [0, 0] }).block_out.getD
              (k * (grayCtx.block_size * grayCtx.block_size) + (r + 1) * grayCtx.block_size
                + j) 0
            = ((transform_step5 0x80 grayCtx (init_permutation grayCtx) [1, 1, 1, 1] 0
                  { block_out := [0, 0, 0, 0], prev_row := [5, 5],
                    prev_col := [0, 0] }).block_out.getD
                  (k * (grayCtx.block_size * grayCtx.block_size)
                    + (r + 1) * grayCtx.block_size + j) 0
                + (transform 0x80 grayCtx (init_permutation grayCtx) [1, 1, 1, 1] 0 0
                    { block_out := [0, 0, 0, 0], prev_row := [5, 5],
                      prev_col := [0, 0] }).block_out.getD
                    (k * (grayCtx.block_size * grayCtx.block_size) + r * grayCtx.block_size
                      + j) 0) % 256)
    ∧ (transform 0x80 grayCtx (init_permutation grayCtx) [1, 1, 1, 1] 0 0
          { block_out := [0, 0, 0, 0], prev_row := [5, 5], prev_col := [0, 0] })
        = { block_out := [6, 6, 7, 7], prev_row := [7, 7], prev_col := [1, 1] } :=
  ⟨transform_vertical_recurrence 0x80 grayCtx (init_permutation grayCtx) [1, 1, 1, 1] 0 0
      { block_out := [0, 0, 0, 0], prev_row := [5, 5], prev_col := [0, 0] }
      (by decide) (by decide) (by decide) (by decide),
    by decide⟩

/-! ## Bulk mode: the prefetched transformer codes -/

theorem prefetch_loop_length {σ τ : Type} (D : Decoder σ τ) (header : EriHeader) (n : Nat) :
    ∀ (acc : List Nat) (s : σ) (t : τ) (codes : List Nat) (s1 : σ) (t1 : τ),
      prefetch_loop D header n acc s t = .ok (codes, s1, t1) →
      codes.length = acc.length + n := by
  induction n with
  | zero =>
    intro acc s t codes s1 t1 h
    simp only [prefetch_loop] at h
    cases h
    rfl
  | succ n ih =>
    intro acc s t codes s1 t1 h
    simp only [prefetch_loop] at h
    split at h
    · have := ih _ _ _ _ _ _ h
      rw [this, List.length_append, List.length_singleton]
      omega
    · split at h
      · split at h
        · cases h
        · have := ih _ _ _ _ _ _ h
          rw [this, List.length_append, List.length_singleton]
          omega
      · cases h

theorem prefetch_loop_returns {σ τ : Type} (D : Decoder σ τ) (header : EriHeader)
    (hrec : header.architecture = Architecture.RunLengthGamma
      ∨ (header.architecture = Architecture.RunLengthHuffman ∧ D.huffman ≠ none)) (n : Nat) :
    ∀ (acc : List Nat) (s : σ) (t : τ),
      ∃ codes s1 t1, prefetch_loop D header n acc s t = .ok (codes, s1, t1) := by
  induction n with
  | zero =>
    intro acc s t
    exact ⟨acc, s, t, rfl⟩
  | succ n ih =>
    intro acc s t
    rcases hrec with hg | ⟨hh, hd⟩
    · simp only [prefetch_loop, if_pos hg]
      exact ih _ _ _
    · have hg : header.architecture ≠ Architecture.RunLengthGamma := by
        rw [hh]
        decide
      cases hD : D.huffman with
      | none => exact absurd hD hd
      | some g =>
        simp only [prefetch_loop, if_neg hg, if_pos hh, hD]
        exact ih _ _ _

theorem prefetch_loop_throws {σ τ : Type} (D : Decoder σ τ) (header : EriHeader) (n : Nat)
    (acc : List Nat) (s : σ) (t : τ)
    (hrec : ¬ (header.architecture = Architecture.RunLengthGamma
      ∨ (header.architecture = Architecture.RunLengthHuffman ∧ D.huffman ≠ none))) :
    prefetch_loop D header (n + 1) acc s t
      = .error (.object (if header.architecture = Architecture.RunLengthHuffman then .bad_cast
          else .NotSupportedError "Architecture not supported"), s) := by
  have hg : header.architecture ≠ Architecture.RunLengthGamma := fun h => hrec (Or.inl h)
  by_cases hh : header.architecture = Architecture.RunLengthHuffman
  · have hd : D.huffman = none := by
      by_contra hd
      exact hrec (Or.inr ⟨hh, hd⟩)
    simp only [prefetch_loop, if_neg hg, if_pos hh, hd]
  · simp only [prefetch_loop, if_neg hg, if_neg hh]

/-- A loop whose body never throws and advances a counter by `d` returns, with the counter
advanced by `d` per iteration. -/
theorem for_list_total {ε α β : Type} (body : α → β → Except ε α) (m : α → Nat) (d : Nat)
    (hstep : ∀ a b, ∃ a1, body a b = .ok a1 ∧ m a1 = m a + d) (l : List β) :
    ∀ a, ∃ c, for_list body l a = .ok c ∧ m c = m a + l.length * d := by
  induction l with
  | nil =>
    intro a
    exact ⟨a, rfl, by simp⟩
  | cons b l ih =>
    intro a
    obtain ⟨a1, h1, h2⟩ := hstep a b
    obtain ⟨c, h3, h4⟩ := ih a1
    refine ⟨c, ?_, ?_⟩
    · simp only [for_list, h1]
      exact h3
    · rw [h4, h2, List.length_cons, Nat.succ_mul]
      omega

/-- In bulk mode `get_transformer_code` returns the code under the pointer and advances
the pointer by one. -/
theorem get_transformer_code_bulk {σ τ : Type} (D : Decoder σ τ) (K : EriImage)
    (header : EriHeader) (ctx : DecodeContext) (codes : List Nat) (f : Front σ τ)
    (hbit : ctx.encode_type &&& 1 ≠ 0) (hcc : 3 ≤ ctx.channel_count) :
    get_transformer_code D K header ctx codes f
      = .ok (codes.getD f.codes_ptr 0, { f with codes_ptr := f.codes_ptr + 1 }) := by
  unfold get_transformer_code
  rw [if_neg (by omega), if_pos hbit]

/-- In bulk mode the body of the block loop does not throw; it runs `transform` with the
code under the pointer and advances the pointer by one. -/
theorem decode_block_bulk {σ τ : Type} (D : Decoder σ τ) (K : EriImage)
    (header : EriHeader) (ctx : DecodeContext) (permutation codes : List Nat) (y x : Nat)
    (st : LoopState σ τ) (hbit : ctx.encode_type &&& 1 ≠ 0) (hcc : 3 ≤ ctx.channel_count) :
    ∃ st1, decode_block D K header ctx permutation codes y st x = .ok st1
      ∧ st1.front.codes_ptr = st.front.codes_ptr + 1
      ∧ st1.buffers = transform (codes.getD st.front.codes_ptr 0) ctx permutation
          st1.arrange_buf (x * ctx.block_stride) (y * ctx.block_stride) st.buffers := by
  unfold decode_block
  rw [get_transformer_code_bulk D K header ctx codes st.front hbit hcc]
  exact ⟨_, rfl, rfl, rfl⟩

theorem decode_setup_prefetch {σ τ : Type} {D : Decoder σ τ} {K : EriImage}
    {header : EriHeader} {s : σ} {su : Setup σ τ} (h : decode_setup D K header s = .ok su) :
    ∃ s1 s2 t1, prefetch_transformer_codes D su.ctx header (read_fields D s).2 D.tree
        = .ok (su.transformer_codes, s1, t1)
      ∧ su.init = initial_state su.ctx s2 t1 := by
  unfold decode_setup at h
  simp only [] at h
  split at h
  · cases h
  · rename_i cc hcc
    split at h
    · cases h
    · rename_i hval
      split at h
      · cases h
      · rename_i codes s1 t1 hpre
        split at h
        · cases h
        · rename_i s2 hsync
          cases h
          exact ⟨s1, s2, t1, hpre, rfl⟩

/-- C18 counterexample: bulk mode (`encode_type` bit 0 set, three channels, two blocks)
with an unrecognized architecture: `prefetch_transformer_codes` does not return two codes,
it throws `NotSupportedError` in its first iteration. -/
theorem prefetch_bulk_counterexample :
    (make_ctx (rgbHeader (Architecture.Other 0)) (8, 0, 1, 8) 3).encode_type &&& 0x01 ≠ 0
    ∧ 3 ≤ (make_ctx (rgbHeader (Architecture.Other 0)) (8, 0, 1, 8) 3).channel_count
    ∧ (make_ctx (rgbHeader (Architecture.Other 0)) (8, 0, 1, 8) 3).width_blocks
        * (make_ctx (rgbHeader (Architecture.Other 0)) (8, 0, 1, 8) 3).height_blocks = 2
    ∧ prefetch_transformer_codes (scripted false)
        (make_ctx (rgbHeader (Architecture.Other 0)) (8, 0, 1, 8) 3)
        (rgbHeader (Architecture.Other 0)) (script [5, 9, 0] []) ()
      = .error (.object (.NotSupportedError "Architecture not supported"),
          script [5, 9, 0] []) :=
  ⟨by decide, by decide, by decide, rfl⟩

/-- C18, amended: `prefetch_transformer_codes` returns an empty list when `encode_type`
bit 0 is clear or `channel_count < 3`.  When bit 0 is set and `channel_count >= 3` it
returns exactly `width_blocks * height_blocks` codes provided the architecture is
`RunLengthGamma`, or `RunLengthHuffman` with a decoder that is a `HuffmanDecoder`; for any
other architecture or decoder, and at least one block, it throws in its first iteration.
In bulk mode, once the setup has succeeded, the buffer holds `width_blocks * height_blocks`
codes, the block loop reaches every block, and for the block at block-row `y` and
block-column `x` the pointer is at index `y * width_blocks + x`, which lies inside the
buffer; the block's `transform` runs with the code at that index and the pointer advances
by one.  Every index of the buffer belongs to exactly one block. -/
theorem bulk_transformer_codes {σ τ : Type} (D : Decoder σ τ) (K : EriImage)
    (header : EriHeader) (s : σ) :
    (∀ (ctx : DecodeContext) (s0 : σ) (t0 : τ),
        ctx.encode_type &&& 0x01 = 0 ∨ ctx.channel_count < 3 →
        prefetch_transformer_codes D ctx header s0 t0 = .ok ([], s0, t0))
    ∧ (∀ (ctx : DecodeContext) (s0 : σ) (t0 : τ),
        ctx.encode_type &&& 0x01 ≠ 0 → 3 ≤ ctx.channel_count →
        (header.architecture = Architecture.RunLengthGamma
          ∨ (header.architecture = Architecture.RunLengthHuffman ∧ D.huffman ≠ none)) →
        ∃ codes s1 t1, prefetch_transformer_codes D ctx header s0 t0 = .ok (codes, s1, t1)
          ∧ codes.length = ctx.width_blocks * ctx.height_blocks)
    ∧ (∀ (ctx : DecodeContext) (s0 : σ) (t0 : τ),
        ctx.encode_type &&& 0x01 ≠ 0 → 3 ≤ ctx.channel_count →
        ¬ (header.architecture = Architecture.RunLengthGamma
          ∨ (header.architecture = Architecture.RunLengthHuffman ∧ D.huffman ≠ none)) →
        0 < ctx.width_blocks * ctx.height_blocks →
        prefetch_transformer_codes D ctx header s0 t0
          = .error (.object
              (if header.architecture = Architecture.RunLengthHuffman then .bad_cast
                else .NotSupportedError "Architecture not supported"), s0))
    ∧ (∀ (su : Setup σ τ), decode_setup D K header s = .ok su →
        su.ctx.encode_type &&& 0x01 ≠ 0 → 3 ≤ su.ctx.channel_count →
        su.transformer_codes.length = su.ctx.width_blocks * su.ctx.height_blocks
        ∧ (∀ y x, y < su.ctx.height_blocks → x < su.ctx.width_blocks →
            y * su.ctx.width_blocks + x < su.transformer_codes.length
            ∧ ∃ st st1, state_before_block D K header s y x = some st
                ∧ st.front.codes_ptr = y * su.ctx.width_blocks + x
                ∧ decode_block D K header su.ctx su.permutation su.transformer_codes y st x
                    = .ok st1
                ∧ st1.buffers
                    = transform (su.transformer_codes.getD (y * su.ctx.width_blocks + x) 0)
                        su.ctx su.permutation st1.arrange_buf (x * su.ctx.block_stride)
                        (y * su.ctx.block_stride) st.buffers
                ∧ st1.front.codes_ptr = y * su.ctx.width_blocks + x + 1)
        ∧ (∀ i, i < su.transformer_codes.length →
            ∃ y x, y < su.ctx.height_blocks ∧ x < su.ctx.width_blocks
              ∧ i = y * su.ctx.width_blocks + x
              ∧ ∀ y1 x1, y1 < su.ctx.height_blocks → x1 < su.ctx.width_blocks →
                  i = y1 * su.ctx.width_blocks + x1 → y1 = y ∧ x1 = x)) := by
  refine ⟨?_, ?_, ?_, ?_⟩
  · intro ctx s0 t0 h
    unfold prefetch_transformer_codes
    rw [if_pos h]
  · intro ctx s0 t0 hbit hcc hrec
    have hb : ¬ (ctx.encode_type &&& 0x01 = 0 ∨ ctx.channel_count < 3) := by
      rintro (h | h)
      · exact hbit h
      · omega
    obtain ⟨codes, s1, t1, h⟩ := prefetch_loop_returns D header hrec
      (ctx.width_blocks * ctx.height_blocks) [] s0 t0
    refine ⟨codes, s1, t1, ?_, ?_⟩
    · unfold prefetch_transformer_codes
      rw [if_neg hb]
      exact h
    · rw [prefetch_loop_length D header _ _ _ _ _ _ _ h]
      simp
  · intro ctx s0 t0 hbit hcc hrec hpos
    have hb : ¬ (ctx.encode_type &&& 0x01 = 0 ∨ ctx.channel_count < 3) := by
      rintro (h | h)
      · exact hbit h
      · omega
    obtain ⟨n, hn⟩ : ∃ n, ctx.width_blocks * ctx.height_blocks = n + 1 :=
      ⟨ctx.width_blocks * ctx.height_blocks - 1, by omega⟩
    unfold prefetch_transformer_codes
    rw [if_neg hb, hn]
    exact prefetch_loop_throws D header n [] s0 t0 hrec
  · intro su hsu hbit hcc
    have hb : ¬ (su.ctx.encode_type &&& 0x01 = 0 ∨ su.ctx.channel_count < 3) := by
      rintro (h | h)
      · exact hbit h
      · omega
    obtain ⟨s1, s2, t1, hpre, hinit⟩ := decode_setup_prefetch hsu
    have hlen : su.transformer_codes.length = su.ctx.width_blocks * su.ctx.height_blocks := by
      unfold prefetch_transformer_codes at hpre
      rw [if_neg hb] at hpre
      rw [prefetch_loop_length D header _ _ _ _ _ _ _ hpre]
      simp
    have h0 : su.init.front.codes_ptr = 0 := by
      rw [hinit]
      rfl
    have hblock : ∀ y (a : LoopState σ τ) (b : Nat),
        ∃ a1, decode_block D K header su.ctx su.permutation su.transformer_codes y a b = .ok a1
          ∧ a1.front.codes_ptr = a.front.codes_ptr + 1 := by
      intro y a b
      obtain ⟨a1, h1, h2, _⟩ := decode_block_bulk D K header su.ctx su.permutation
        su.transformer_codes y b a hbit hcc
      exact ⟨a1, h1, h2⟩
    have hrow : ∀ (a : LoopState σ τ) (y : Nat),
        ∃ a1, decode_block_row D K header su.ctx su.permutation su.transformer_codes a y
            = .ok a1
          ∧ a1.front.codes_ptr = a.front.codes_ptr + su.ctx.width_blocks := by
      intro a y
      obtain ⟨c, h1, h2⟩ := for_list_total
        (decode_block D K header su.ctx su.permutation su.transformer_codes y)
        (fun (u : LoopState σ τ) => u.front.codes_ptr) 1 (hblock y)
        (List.range su.ctx.width_blocks) a
      refine ⟨c, h1, ?_⟩
      rw [List.length_range, Nat.mul_one] at h2
      exact h2
    refine ⟨hlen, ?_, ?_⟩
    · intro y x hy hx
      have hidx : y * su.ctx.width_blocks + x < su.transformer_codes.length := by
        rw [hlen, Nat.mul_comm su.ctx.width_blocks]
        exact radix_lt hx hy
      refine ⟨hidx, ?_⟩
      obtain ⟨stR, hR1, hR2⟩ := for_list_total
        (decode_block_row D K header su.ctx su.permutation su.transformer_codes)
        (fun (u : LoopState σ τ) => u.front.codes_ptr) su.ctx.width_blocks hrow
        (List.range y) su.init
      obtain ⟨stB, hB1, hB2⟩ := for_list_total
        (decode_block D K header su.ctx su.permutation su.transformer_codes y)
        (fun (u : LoopState σ τ) => u.front.codes_ptr) 1 (hblock y)
        (List.range x) stR
      rw [List.length_range] at hR2 hB2
      have hptr : stB.front.codes_ptr = y * su.ctx.width_blocks + x := by
        have e1 : stB.front.codes_ptr = stR.front.codes_ptr + x * 1 := hB2
        have e2 : stR.front.codes_ptr = su.init.front.codes_ptr + y * su.ctx.width_blocks :=
          hR2
        rw [e1, e2, h0]
        omega
      obtain ⟨st1, hD1, hD2, hD3⟩ := decode_block_bulk D K header su.ctx su.permutation
        su.transformer_codes y x stB hbit hcc
      refine ⟨stB, st1, ?_, hptr, hD1, ?_, ?_⟩
      · simp only [state_before_block, hsu, hR1, hB1]
      · rw [hD3, hptr]
      · rw [hD2, hptr]
    · intro i hi
      rw [hlen] at hi
      have hw : 0 < su.ctx.width_blocks := by
        rcases Nat.eq_zero_or_pos su.ctx.width_blocks with h | h
        · rw [h, Nat.zero_mul] at hi
          exact absurd hi (Nat.not_lt_zero i)
        · exact h
      refine ⟨i / su.ctx.width_blocks, i % su.ctx.width_blocks,
        Nat.div_lt_of_lt_mul hi, Nat.mod_lt _ hw, (Nat.div_add_mod' i _).symm, ?_⟩
      intro y1 x1 _ hx1 he
      have := radix_inj (Nat.mod_lt i hw) hx1 ((Nat.div_add_mod' i _).trans he)
      exact ⟨this.1.symm, this.2.symm⟩

/-- C18 witness: the 3 x 2 RGB image with block size 2 (two blocks in one block-row).
Without bulk mode the prefetch returns no codes; in bulk mode with the gamma architecture it
returns two codes, `0xC5` and `0xC9`, block `(x, y) = (0, 0)` runs with the first and block
`(1, 0)` with the second; with an unrecognized architecture it throws. -/
theorem bulk_transformer_codes_witness :
    prefetch_transformer_codes (scripted false) rgbCtx
        (rgbHeader Architecture.RunLengthGamma) (script [5, 9, 0] []) ()
      = .ok ([], script [5, 9, 0] [], ())
    ∧ (∃ codes s1 t1,
        prefetch_transformer_codes (scripted false) bulkCtx
            (rgbHeader Architecture.RunLengthGamma) (script [5, 9, 0] []) ()
          = .ok (codes, s1, t1)
        ∧ codes.length = bulkCtx.width_blocks * bulkCtx.height_blocks)
    ∧ prefetch_transformer_codes (scripted false) bulkCtx
          (rgbHeader (Architecture.Other 0)) (script [5, 9, 0] []) ()
        = .error (.object
            (if (rgbHeader (Architecture.Other 0)).architecture
                = Architecture.RunLengthHuffman then .bad_cast
              else .NotSupportedError "Architecture not supported"), script [5, 9, 0] [])
    ∧ (bulkSetup.transformer_codes.length
          = bulkSetup.ctx.width_blocks * bulkSetup.ctx.height_blocks
        ∧ (∀ y x, y < bulkSetup.ctx.height_blocks → x < bulkSetup.ctx.width_blocks →
            y * bulkSetup.ctx.width_blocks + x < bulkSetup.transformer_codes.length
            ∧ ∃ st st1,
                state_before_block (scripted false) sampleImage
                    (rgbHeader Architecture.RunLengthGamma) bulkStream y x = some st
                ∧ st.front.codes_ptr = y * bulkSetup.ctx.width_blocks + x
                ∧ decode_block (scripted false) sampleImage
                    (rgbHeader Architecture.RunLengthGamma) bulkSetup.ctx
                    bulkSetup.permutation bulkSetup.transformer_codes y st x = .ok st1
                ∧ st1.buffers
                    = transform
                        (bulkSetup.transformer_codes.getD
                          (y * bulkSetup.ctx.width_blocks + x) 0)
                        bulkSetup.ctx bulkSetup.permutation st1.arrange_buf
                        (x * bulkSetup.ctx.block_stride) (y * bulkSetup.ctx.block_stride)
                        st.buffers
                ∧ st1.front.codes_ptr = y * bulkSetup.ctx.width_blocks + x + 1)
        ∧ (∀ i, i < bulkSetup.transformer_codes.length →
            ∃ y x, y < bulkSetup.ctx.height_blocks ∧ x < bulkSetup.ctx.width_blocks
              ∧ i = y * bulkSetup.ctx.width_blocks + x
              ∧ ∀ y1 x1, y1 < bulkSetup.ctx.height_blocks →
                  x1 < bulkSetup.ctx.width_blocks →
                  i = y1 * bulkSetup.ctx.width_blocks + x1 → y1 = y ∧ x1 = x))
    ∧ decode_setup (scripted false) sampleImage (rgbHeader Architecture.RunLengthGamma)
        bulkStream = .ok bulkSetup
    ∧ (prefetch_transformer_codes (scripted false) bulkCtx
          (rgbHeader Architecture.RunLengthGamma) (script [5, 9, 0] []) ()).map
          (fun r => r.1) = .ok [0xC5, 0xC9]
    ∧ (state_before_block (scripted false) sampleImage
          (rgbHeader Architecture.RunLengthGamma) bulkStream 0 1).map
          (fun st => st.front.codes_ptr) = some 1
    ∧ (state_after_block (scripted false) sampleImage
          (rgbHeader Architecture.RunLengthGamma) bulkStream 0 1).map
          (fun st => st.front.codes_ptr) = some 2 :=
  ⟨(bulk_transformer_codes (scripted false) sampleImage
      (rgbHeader Architecture.RunLengthGamma) bulkStream).1 rgbCtx (script [5, 9, 0] []) ()
      (Or.inl (by decide)),
    (bulk_transformer_codes (scripted false) sampleImage
      (rgbHeader Architecture.RunLengthGamma) bulkStream).2.1 bulkCtx (script [5, 9, 0] []) ()
      (by decide) (by decide) (Or.inl rfl),
    (bulk_transformer_codes (scripted false) sampleImage
      (rgbHeader (Architecture.Other 0)) bulkStream).2.2.1 bulkCtx (script [5, 9, 0] []) ()
      (by decide) (by decide)
      (fun h => h.elim (fun h1 => absurd h1 (by decide)) (fun h2 => absurd h2.1 (by decide)))
      (by decide),
    (bulk_transformer_codes (scripted false) sampleImage
      (rgbHeader Architecture.RunLengthGamma) bulkStream).2.2.2 bulkSetup rfl
      (by decide) (by decide),
    rfl, rfl, rfl, rfl⟩

/-! ## Bit 7 of the transformer code -/

theorem xor_land_disjoint (c a m : Nat) (h : a &&& m = 0) : (c ^^^ a) &&& m = c &&& m := by
  apply Nat.eq_of_testBit_eq
  intro i
  have hi : (a &&& m).testBit i = false := by rw [h]; exact Nat.zero_testBit i
  rw [Nat.testBit_and] at hi
  rw [Nat.testBit_and, Nat.testBit_and, Nat.testBit_xor]
  cases hc : c.testBit i <;> cases ha : a.testBit i <;> cases hm : m.testBit i <;>
    simp_all

theorem transform_step4_xor_bit7 (c : Nat) (ctx : DecodeContext) (permutation : List Nat)
    (arrange_buf : Bytes) (b : Buffers) :
    transform_step4 (c ^^^ 0x80) ctx permutation arrange_buf b
      = transform_step4 c ctx permutation arrange_buf b := by
  unfold transform_step4
  rw [xor_land_disjoint c 0x80 0x0F (by decide), xor_land_disjoint c 0x80 0x30 (by decide)]

theorem transform_step5_xor_bit7 (c : Nat) (ctx : DecodeContext) (permutation : List Nat)
    (arrange_buf : Bytes) (prev_block_col : Nat) (b : Buffers) :
    transform_step5 (c ^^^ 0x80) ctx permutation arrange_buf prev_block_col b
      = transform_step5 c ctx permutation arrange_buf prev_block_col b := by
  have hx : (c ^^^ 0x80) &&& 0x40 = c &&& 0x40 := xor_land_disjoint c 0x80 0x40 (by decide)
  by_cases hb : c &&& 0x40 = 0
  · rw [transform_step5_store c _ _ _ _ _ hb,
      transform_step5_store (c ^^^ 0x80) _ _ _ _ _ (by rw [hx]; exact hb),
      transform_step4_xor_bit7]
  · rw [transform_step5_accumulate c _ _ _ _ _ hb,
      transform_step5_accumulate (c ^^^ 0x80) _ _ _ _ _ (by rw [hx]; exact hb),
      transform_step4_xor_bit7]

/-- C22: bit 7 of the transformer code matters only between `0x80` and `0x00`.  For every
code `c` whose low seven bits are not all zero, and every table, `arrange_buf`, state
offsets and buffers, `transform` with `c` and with `c XOR 0x80` give the same `block_out`,
`prev_row` and `prev_col`.  Code `0x80` runs the store-only horizontal step and the vertical
pass on the scattered block, code `0x00` returns after the scatter. -/
theorem transform_bit7 (c : Nat) (ctx : DecodeContext) (permutation : List Nat)
    (arrange_buf : Bytes) (prev_block_row prev_block_col : Nat) (b : Buffers)
    (h : c &&& 0x7F ≠ 0) :
    transform (c ^^^ 0x80) ctx permutation arrange_buf prev_block_row prev_block_col b
      = transform c ctx permutation arrange_buf prev_block_row prev_block_col b
    ∧ transform 0x80 ctx permutation arrange_buf prev_block_row prev_block_col b
      = { block_out :=
            (transform_vertical ctx
              (transform_horizontal_store ctx
                (transform_scatter ctx permutation 0 arrange_buf b.block_out) b.prev_col
                prev_block_col).block_out b.prev_row prev_block_row).block_out
          prev_row :=
            (transform_vertical ctx
              (transform_horizontal_store ctx
                (transform_scatter ctx permutation 0 arrange_buf b.block_out) b.prev_col
                prev_block_col).block_out b.prev_row prev_block_row).prev_row
          prev_col :=
            (transform_horizontal_store ctx
              (transform_scatter ctx permutation 0 arrange_buf b.block_out) b.prev_col
              prev_block_col).prev_col }
    ∧ transform 0x00 ctx permutation arrange_buf prev_block_row prev_block_col b
      = { block_out := transform_scatter ctx permutation 0 arrange_buf b.block_out
          prev_row := b.prev_row
          prev_col := b.prev_col } := by
  have hc : c ≠ 0 := by
    intro h0
    rw [h0] at h
    exact h (by decide)
  have hx : c ^^^ 0x80 ≠ 0 := by
    intro h0
    have e := xor_land_disjoint c 0x80 0x7F (by decide)
    rw [h0] at e
    exact h (e.symm.trans (by decide))
  refine ⟨?_, rfl, rfl⟩
  rw [transform_nonzero _ _ _ _ _ _ _ hc, transform_nonzero _ _ _ _ _ _ _ hx,
    transform_step5_xor_bit7]

/-- C22 witness: codes `0x45` and `0xC5` on three planes of 2 x 2 bytes give the same
buffers; on one plane `[1, 1, 1, 1]` with row state `[5, 5]`, code `0x80` gives
`[6, 6, 7, 7]` and code `0x00` gives `[1, 1, 1, 1]`. -/
theorem transform_bit7_witness :
    (transform (0x45 ^^^ 0x80) colorCtx (init_permutation colorCtx)
          [1, 2, 3, 4, 5, 6, 7, 8, 9, 10, 11, 12] 0 0
          { block_out := List.replicate 12 0, prev_row := [10, 20, 30, 40, 50, 60],
            prev_col := [1, 2, 3, 4, 5, 6] }
        = transform 0x45 colorCtx (init_permutation colorCtx)
            [1, 2, 3, 4, 5, 6, 7, 8, 9, 10, 11, 12] 0 0
            { block_out := List.replicate 12 0, prev_row := [10, 20, 30, 40, 50, 60],
              prev_col := [1, 2, 3, 4, 5, 6] }
      ∧ transform 0x80 colorCtx (init_permutation colorCtx)
            [1, 2, 3, 4, 5, 6, 7, 8, 9, 10, 11, 12] 0 0
            { block_out := List.replicate 12 0, prev_row := [10, 20, 30, 40, 50, 60],
              prev_col := [1, 2, 3, 4, 5, 6] }
        = { block_out :=
              (transform_vertical colorCtx
                (transform_horizontal_store colorCtx
                  (transform_scatter colorCtx (init_permutation colorCtx) 0
                    [1, 2, 3, 4, 5, 6, 7, 8, 9, 10, 11, 12] (List.replicate 12 0))
                  [1, 2, 3, 4, 5, 6] 0).block_out [10, 20, 30, 40, 50, 60] 0).block_out
            prev_row :=
              (transform_vertical colorCtx
                (transform_horizontal_store colorCtx
                  (transform_scatter colorCtx (init_permutation colorCtx) 0
                    [1, 2, 3, 4, 5, 6, 7, 8, 9, 10, 11, 12] (List.replicate 12 0))
                  [1, 2, 3, 4, 5, 6] 0).block_out [10, 20, 30, 40, 50, 60] 0).prev_row
            prev_col :=
              (transform_horizontal_store colorCtx
                (transform_scatter colorCtx (init_permutation colorCtx) 0
                  [1, 2, 3, 4, 5, 6, 7, 8, 9, 10, 11, 12] (List.replicate 12 0))
                [1, 2, 3, 4, 5, 6] 0).prev_col }
      ∧ transform 0x00 colorCtx (init_permutation colorCtx)
            [1, 2, 3, 4, 5, 6, 7, 8, 9, 10, 11, 12] 0 0
            { block_out := List.replicate 12 0, prev_row := [10, 20, 30, 40, 50, 60],
              prev_col := [1, 2, 3, 4, 5, 6] }
        = { block_out :=
              transform_scatter colorCtx (init_permutation colorCtx) 0
                [1, 2, 3, 4, 5, 6, 7, 8, 9, 10, 11, 12] (List.replicate 12 0)
            prev_row := [10, 20, 30, 40, 50, 60]
            prev_col := [1, 2, 3, 4, 5, 6] })
    ∧ (0x45 ^^^ 0x80 : Nat) = 0xC5
    ∧ transform 0x80 grayCtx (init_permutation grayCtx) [1, 1, 1, 1] 0 0
          { block_out := [0, 0, 0, 0], prev_row := [5, 5], prev_col := [0, 0] }
        = { block_out := [6, 6, 7, 7], prev_row := [7, 7], prev_col := [1, 1] }
    ∧ transform 0x00 grayCtx (init_permutation grayCtx) [1, 1, 1, 1] 0 0
          { block_out := [0, 0, 0, 0], prev_row := [5, 5], prev_col := [0, 0] }
        = { block_out := [1, 1, 1, 1], prev_row := [5, 5], prev_col := [0, 0] } :=
  ⟨transform_bit7 0x45 colorCtx (init_permutation colorCtx)
      [1, 2, 3, 4, 5, 6, 7, 8, 9, 10, 11, 12] 0 0
      { block_out := List.replicate 12 0, prev_row := [10, 20, 30, 40, 50, 60],
        prev_col := [1, 2, 3, 4, 5, 6] } (by decide),
    by decide, by decide, by decide⟩

/-! ## Sums -/

theorem sum_upto_zero (f : Nat → Nat) : sum_upto f 0 = 0 := rfl

theorem sum_upto_succ (f : Nat → Nat) (n : Nat) :
    sum_upto f (n + 1) = sum_upto f n + f n := by
  simp [sum_upto, List.range_succ]

theorem sum_upto_congr (f g : Nat → Nat) (n : Nat) (h : ∀ i, i < n → f i = g i) :
    sum_upto f n = sum_upto g n := by
  induction n with
  | zero => rfl
  | succ n ih =>
    rw [sum_upto_succ, sum_upto_succ, ih (fun i hi => h i (Nat.lt_succ_of_lt hi)),
      h n (Nat.lt_succ_self n)]

theorem sum_upto_add (f : Nat → Nat) (n m : Nat) :
    sum_upto f (n + m) = sum_upto f n + sum_upto (fun i => f (n + i)) m := by
  induction m with
  | zero => rfl
  | succ m ih =>
    rw [← Nat.add_assoc, sum_upto_succ, sum_upto_succ, ih]
    omega

theorem sum_upto_mod (f : Nat → Nat) (n : Nat) :
    sum_upto (fun i => f i % 256) n % 256 = sum_upto f n % 256 := by
  induction n with
  | zero => rfl
  | succ n ih =>
    rw [sum_upto_succ, sum_upto_succ]
    omega

theorem rect_sum_zero (d : Nat → Nat → Nat) (n : Nat) : rect_sum d 0 n = 0 := rfl

theorem rect_sum_add (d : Nat → Nat → Nat) (m k n : Nat) :
    rect_sum d (m + k) n
      = rect_sum d m n + sum_upto (fun r => sum_upto (d (m + r)) n) k := by
  unfold rect_sum
  rw [sum_upto_add]

theorem naive_double_sum_eq (d : Nat → Nat → Nat) (Y X : Nat) :
    naive_double_sum d Y X = rect_sum d (Y + 1) (X + 1) % 256 := rfl

theorem row_sum_eq (buf : Bytes) (start n : Nat) :
    row_sum buf start n = sum_upto (fun j => buf.getD (start + j) 0) n := rfl

theorem col_sum_eq (buf : Bytes) (start stride n : Nat) :
    col_sum buf start stride n = sum_upto (fun r => buf.getD (start + r * stride) 0) n := rfl

theorem bstr_getD (n k : Nat) : (bstr n).getD k 0 = 0 := by
  unfold bstr
  rw [List.getD_eq_getElem?_getD]
  by_cases h : k < n
  · rw [List.getElem?_replicate, if_pos h]
    rfl
  · rw [List.getElem?_eq_none (by simpa using h)]
    rfl

theorem bstr_length (n : Nat) : (bstr n).length = n := by
  simp [bstr]

/-! ## The row state keeps its size -/

theorem vertical_add_line_prev_row (ctx : DecodeContext) (st : VState) :
    (vertical_add_line ctx st).prev_row = st.prev_row := by
  unfold vertical_add_line
  apply foldl_inv (fun (u : VState) => u.prev_row = st.prev_row) _ _ _ rfl
  intro u i h
  exact h

theorem vertical_add_plane_prev_row (ctx : DecodeContext) (st : VState) :
    (vertical_add_plane ctx st).prev_row = st.prev_row := by
  unfold vertical_add_plane
  apply foldl_inv (fun (u : VState) => u.prev_row = st.prev_row) _ _ _ rfl
  intro u i h
  show (vertical_add_line ctx u).prev_row = st.prev_row
  rw [vertical_add_line_prev_row, h]

theorem vertical_store_row_prev_row_length (ctx : DecodeContext) (st : VState) :
    (vertical_store_row ctx st).prev_row.length = st.prev_row.length := by
  unfold vertical_store_row
  apply foldl_inv (fun (u : VState) => u.prev_row.length = st.prev_row.length) _ _ _ rfl
  intro u i h
  show (u.prev_row.set _ _).length = st.prev_row.length
  rw [List.length_set, h]

theorem transform_vertical_prev_row_length (ctx : DecodeContext) (block_out prev_row : Bytes)
    (prev_block_row : Nat) :
    (transform_vertical ctx block_out prev_row prev_block_row).prev_row.length
      = prev_row.length := by
  unfold transform_vertical
  apply foldl_inv (fun (u : VState) => u.prev_row.length = prev_row.length) _ _ _ rfl
  intro u i h
  rw [vertical_store_row_prev_row_length, vertical_add_plane_prev_row]
  exact h

/-! ## One channel, code `0b11000000` -/

theorem transform_step4_gray (ctx : DecodeContext) (a : Bytes) (b : Buffers)
    (harea : ctx.block_area = ctx.block_size * ctx.block_size)
    (hsamples : ctx.block_samples = ctx.block_area * ctx.channel_count)
    (ha : a.length = ctx.block_samples) (hbo : b.block_out.length = ctx.block_samples) :
    transform_step4 0xC0 ctx (init_permutation ctx) a b = a := by
  unfold transform_step4
  exact transform_scatter_identity ctx harea hsamples a b.block_out ha hbo

/-- The transform of one block of a one-channel image with code `0b11000000`: sample
`(r, j)` becomes the row-state byte `j` plus, for the lines `0 .. r`, the column-state byte
of the line plus the line's samples `0 .. j`; the column state gains each line's total and
the row state becomes the block's last line. -/
theorem transform_gray_block (ctx : DecodeContext) (a : Bytes) (ro co : Nat) (b T : Buffers)
    (hT : transform 0xC0 ctx (init_permutation ctx) a ro co b = T)
    (hcc : ctx.channel_count = 1) (hbs : 0 < ctx.block_size)
    (harea : ctx.block_area = ctx.block_size * ctx.block_size)
    (hsamples : ctx.block_samples = ctx.block_area * ctx.channel_count)
    (hstride : ctx.block_stride = ctx.block_size * ctx.channel_count)
    (ha : a.length = ctx.block_samples) (hbo : b.block_out.length = ctx.block_samples)
    (hpr : ro + ctx.block_size ≤ b.prev_row.length)
    (hpc : co + ctx.block_size ≤ b.prev_col.length) :
    T.block_out.length = ctx.block_size * ctx.block_size
    ∧ T.prev_row.length = b.prev_row.length
    ∧ T.prev_col.length = b.prev_col.length
    ∧ (∀ r j, r < ctx.block_size → j < ctx.block_size →
        T.block_out.getD (r * ctx.block_size + j) 0
          = (b.prev_row.getD (ro + j) 0
              + sum_upto (fun r1 =>
                  b.prev_col.getD (co + r1) 0
                    + sum_upto (fun j1 => a.getD (r1 * ctx.block_size + j1) 0) (j + 1))
                  (r + 1)) % 256)
    ∧ (∀ i, i < ctx.block_size →
        T.prev_col.getD (co + i) 0
          = (b.prev_col.getD (co + i) 0
              + sum_upto (fun j1 => a.getD (i * ctx.block_size + j1) 0) ctx.block_size) % 256)
    ∧ (∀ k, k < co ∨ co + ctx.block_size ≤ k → T.prev_col.getD k 0 = b.prev_col.getD k 0)
    ∧ (∀ j, j < ctx.block_size →
        T.prev_row.getD (ro + j) 0
          = T.block_out.getD ((ctx.block_size - 1) * ctx.block_size + j) 0)
    ∧ (∀ k, k < ro ∨ ro + ctx.block_size ≤ k → T.prev_row.getD k 0 = b.prev_row.getD k 0) := by
  have hst : ctx.block_stride = ctx.block_size := by rw [hstride, hcc, Nat.mul_one]
  have hsm : ctx.block_samples = ctx.block_size * ctx.block_size := by
    rw [hsamples, hcc, Nat.mul_one, harea]
  have e4 := transform_step4_gray ctx a b harea hsamples ha hbo
  have e5 := transform_step5_accumulate 0xC0 ctx (init_permutation ctx) a co b (by decide)
  rw [e4] at e5
  obtain ⟨H1, H2, H3, H4, H5⟩ := transform_horizontal_accumulate_spec ctx a b.prev_col co hbs
    (by rw [hst, ha, hsm]) (by rw [hst]; exact hpc)
  have hhlen : (transform_horizontal_accumulate ctx a b.prev_col co).block_out.length
      = ctx.block_size * ctx.block_size := by
    rw [transform_horizontal_accumulate_length, ha, hsm]
  obtain ⟨V1, V2, V3, V4⟩ := transform_vertical_spec ctx
    (transform_horizontal_accumulate ctx a b.prev_col co).block_out b.prev_row ro hbs
    (by rw [hcc, Nat.one_mul, hhlen]) (by rw [hcc, Nat.one_mul]; exact hpr)
  rw [transform_nonzero _ _ _ _ _ _ _ (by decide), e5] at hT
  subst hT
  rw [hst] at H1 H2 H4
  rw [hcc] at V1 V2 V4
  refine ⟨?_, ?_, ?_, ?_, ?_, ?_, ?_, ?_⟩
  · show (transform_vertical ctx _ b.prev_row ro).block_out.length = _
    rw [transform_vertical_length, hhlen]
  · show (transform_vertical ctx _ b.prev_row ro).prev_row.length = _
    rw [transform_vertical_prev_row_length]
  · exact H5
  · intro r j hr hj
    have v := V1 0 r j (by decide) hr hj
    simp only [Nat.zero_mul, Nat.zero_add, Nat.add_zero] at v
    show (transform_vertical ctx _ b.prev_row ro).block_out.getD _ 0 = _
    rw [v, col_sum_eq,
      sum_upto_congr _ (fun r1 => (b.prev_col.getD (co + r1) 0
        + sum_upto (fun j1 => a.getD (r1 * ctx.block_size + j1) 0) (j + 1)) % 256) (r + 1)
        (fun r1 hr1 => by
          rw [Nat.add_comm j (r1 * ctx.block_size), H1 r1 j (by omega) hj, row_sum_eq])]
    have := sum_upto_mod (fun r1 => b.prev_col.getD (co + r1) 0
        + sum_upto (fun j1 => a.getD (r1 * ctx.block_size + j1) 0) (j + 1)) (r + 1)
    omega
  · intro i hi
    show (transform_horizontal_accumulate ctx a b.prev_col co).prev_col.getD (co + i) 0 = _
    rw [H2 i hi, Nat.add_sub_assoc hbs, H1 i (ctx.block_size - 1) hi (by omega), row_sum_eq,
      Nat.sub_add_cancel hbs]
  · intro k hk
    exact H4 k hk
  · intro j hj
    have v := V2 0 j (by decide) hj
    simp only [Nat.zero_mul, Nat.zero_add, Nat.add_zero] at v
    exact v
  · intro k hk
    exact V4 k (by rw [Nat.one_mul]; exact hk)

theorem sum_upto_mod_congr (f g : Nat → Nat) (n : Nat)
    (h : ∀ i, i < n → f i % 256 = g i % 256) :
    sum_upto f n % 256 = sum_upto g n % 256 := by
  rw [← sum_upto_mod f, ← sum_upto_mod g,
    sum_upto_congr (fun i => f i % 256) (fun i => g i % 256) n h]

theorem gray_inv_init (d : Nat → Nat → Nat) (bs wb hb : Nat) :
    GrayInv d bs wb hb 0 0
      { block_out := bstr (bs * bs), prev_col := bstr (hb * bs), prev_row := bstr (wb * bs) } := by
  refine ⟨bstr_length _, bstr_length _, bstr_length _, ?_, ?_, ?_, ?_⟩
  · intro i _
    show (bstr _).getD _ 0 = _
    rw [bstr_getD, Nat.zero_mul, sum_upto_zero]
  · intro k _
    exact bstr_getD _ _
  · intro X hX
    rw [Nat.zero_mul] at hX
    exact absurd hX (Nat.not_lt_zero X)
  · intro X _ _
    show (bstr _).getD _ 0 = _
    rw [bstr_getD, Nat.zero_mul, rect_sum_zero]

theorem gray_inv_next_row (d : Nat → Nat → Nat) (bs wb hb y : Nat) (b : Buffers)
    (h : GrayInv d bs wb hb y wb b) : GrayInv d bs wb hb (y + 1) 0 b := by
  obtain ⟨h1, h2, h3, _, h5, h6, _⟩ := h
  refine ⟨h1, h2, h3, ?_, ?_, ?_, ?_⟩
  · intro i _
    rw [Nat.zero_mul, sum_upto_zero]
    exact h5 _ (Nat.le_add_right _ _)
  · intro k hk
    refine h5 k (Nat.le_trans ?_ hk)
    exact Nat.mul_le_mul_right bs (Nat.le_succ _)
  · intro X hX
    rw [Nat.zero_mul] at hX
    exact absurd hX (Nat.not_lt_zero X)
  · intro X _ hX
    exact h6 X hX

/-- One block of a one-channel decode keeps the invariant and yields the double running sum
on the block. -/
theorem gray_inv_step (d : Nat → Nat → Nat) (ctx : DecodeContext) (wb hb y x : Nat)
    (a : Bytes) (b T : Buffers)
    (hT : transform 0xC0 ctx (init_permutation ctx) a (x * ctx.block_stride)
      (y * ctx.block_stride) b = T)
    (hcc : ctx.channel_count = 1) (hbs : 0 < ctx.block_size)
    (harea : ctx.block_area = ctx.block_size * ctx.block_size)
    (hsamples : ctx.block_samples = ctx.block_area * ctx.channel_count)
    (hstride : ctx.block_stride = ctx.block_size * ctx.channel_count)
    (ha : a.length = ctx.block_samples)
    (hx : x < wb) (hy : y < hb)
    (hd : ∀ r j, r < ctx.block_size → j < ctx.block_size →
      d (y * ctx.block_size + r) (x * ctx.block_size + j)
        = a.getD (r * ctx.block_size + j) 0)
    (hinv : GrayInv d ctx.block_size wb hb y x b) :
    GrayInv d ctx.block_size wb hb y (x + 1) T
    ∧ ∀ r j, r < ctx.block_size → j < ctx.block_size →
        T.block_out.getD (r * ctx.block_size + j) 0
          = rect_sum d (y * ctx.block_size + r + 1) (x * ctx.block_size + j + 1) % 256 := by
  obtain ⟨I1, I2, I3, I4, I5, I6, I7⟩ := hinv
  have hst : ctx.block_stride = ctx.block_size := by rw [hstride, hcc, Nat.mul_one]
  have hsm : ctx.block_samples = ctx.block_size * ctx.block_size := by
    rw [hsamples, hcc, Nat.mul_one, harea]
  rw [hst] at hT
  have hxb : x * ctx.block_size + ctx.block_size ≤ wb * ctx.block_size := by
    have := Nat.mul_le_mul_right ctx.block_size (Nat.succ_le_of_lt hx)
    rw [Nat.succ_mul] at this
    exact this
  have hyb : y * ctx.block_size + ctx.block_size ≤ hb * ctx.block_size := by
    have := Nat.mul_le_mul_right ctx.block_size (Nat.succ_le_of_lt hy)
    rw [Nat.succ_mul] at this
    exact this
  have ex : (x + 1) * ctx.block_size = x * ctx.block_size + ctx.block_size := Nat.succ_mul _ _
  have ey : (y + 1) * ctx.block_size = y * ctx.block_size + ctx.block_size := Nat.succ_mul _ _
  obtain ⟨G1, G2, G3, G4, G5, G6, G7, G8⟩ := transform_gray_block ctx a (x * ctx.block_size)
    (y * ctx.block_size) b T hT hcc hbs harea hsamples hstride ha (by rw [I1, hsm])
    (by rw [I2]; exact hxb) (by rw [I3]; exact hyb)
  -- the samples of a line of the block are the grid samples
  have hrow : ∀ r n, r < ctx.block_size → n ≤ ctx.block_size →
      sum_upto (fun j1 => a.getD (r * ctx.block_size + j1) 0) n
        = sum_upto (fun j1 => d (y * ctx.block_size + r) (x * ctx.block_size + j1)) n := by
    intro r n hr hn
    exact sum_upto_congr _ _ n (fun j1 hj1 => (hd r j1 hr (by omega)).symm)
  -- the block's samples
  have hval : ∀ r j, r < ctx.block_size → j < ctx.block_size →
      T.block_out.getD (r * ctx.block_size + j) 0
        = rect_sum d (y * ctx.block_size + r + 1) (x * ctx.block_size + j + 1) % 256 := by
    intro r j hr hj
    rw [G4 r j hr hj, I7 (x * ctx.block_size + j) (by omega) (by omega),
      Nat.add_assoc (y * ctx.block_size) r 1, rect_sum_add]
    have hc := sum_upto_mod_congr
      (fun r1 => b.prev_col.getD (y * ctx.block_size + r1) 0
        + sum_upto (fun j1 => a.getD (r1 * ctx.block_size + j1) 0) (j + 1))
      (fun r1 => sum_upto (d (y * ctx.block_size + r1)) (x * ctx.block_size + j + 1)) (r + 1)
      (by
        intro r1 hr1
        show (b.prev_col.getD (y * ctx.block_size + r1) 0
          + sum_upto (fun j1 => a.getD (r1 * ctx.block_size + j1) 0) (j + 1)) % 256
          = sum_upto (d (y * ctx.block_size + r1)) (x * ctx.block_size + j + 1) % 256
        rw [I4 r1 (by omega), hrow r1 (j + 1) (by omega) (by omega),
          Nat.add_assoc (x * ctx.block_size) j 1,
          sum_upto_add (d (y * ctx.block_size + r1)) (x * ctx.block_size) (j + 1)]
        omega)
    omega
  refine ⟨⟨G1, by rw [G2, I2], by rw [G3, I3], ?_, ?_, ?_, ?_⟩, hval⟩
  · intro i hi
    rw [G5 i hi, I4 i hi, hrow i ctx.block_size hi (Nat.le_refl _), ex,
      sum_upto_add (d (y * ctx.block_size + i)) (x * ctx.block_size) ctx.block_size]
    omega
  · intro k hk
    rw [G6 k (Or.inr (by omega))]
    exact I5 k hk
  · intro X hX
    by_cases hlt : X < x * ctx.block_size
    · rw [G8 X (Or.inl hlt)]
      exact I6 X hlt
    · obtain ⟨j, rfl⟩ : ∃ j, X = x * ctx.block_size + j := ⟨X - x * ctx.block_size, by omega⟩
      have hj : j < ctx.block_size := by omega
      rw [G7 j hj, hval (ctx.block_size - 1) j (by omega) hj]
      have e : y * ctx.block_size + (ctx.block_size - 1) + 1 = (y + 1) * ctx.block_size := by
        omega
      rw [e]
  · intro X hX1 hX2
    rw [G8 X (Or.inr (by omega))]
    exact I7 X (by omega) hX2

/-! ## Walking the block loop -/

theorem store_bytes_length (n : Nat) (r : List Nat) : (store_bytes n r).length = n := by
  simp [store_bytes]

theorem state_before_block_start {σ τ : Type} {D : Decoder σ τ} {K : EriImage}
    {header : EriHeader} {s : σ} {su : Setup σ τ}
    (hsu : decode_setup D K header s = .ok su) :
    state_before_block D K header s 0 0 = some su.init := by
  simp only [state_before_block, hsu, List.range_zero, for_list]

theorem state_before_block_ok {σ τ : Type} {D : Decoder σ τ} {K : EriImage}
    {header : EriHeader} {s : σ} {su : Setup σ τ} {y x : Nat} {st : LoopState σ τ}
    (hsu : decode_setup D K header s = .ok su)
    (h : state_before_block D K header s y x = some st) :
    ∃ stA,
      for_list (decode_block_row D K header su.ctx su.permutation su.transformer_codes)
        (List.range y) su.init = .ok stA
      ∧ for_list (decode_block D K header su.ctx su.permutation su.transformer_codes y)
          (List.range x) stA = .ok st := by
  simp only [state_before_block, hsu] at h
  cases hR : for_list (decode_block_row D K header su.ctx su.permutation su.transformer_codes)
      (List.range y) su.init with
  | error e => rw [hR] at h; cases h
  | ok stA =>
    rw [hR] at h
    simp only [] at h
    cases hB : for_list (decode_block D K header su.ctx su.permutation su.transformer_codes y)
        (List.range x) stA with
    | error e => rw [hB] at h; cases h
    | ok stB =>
      rw [hB] at h
      cases h
      exact ⟨stA, rfl, hB⟩

theorem state_before_block_step {σ τ : Type} {D : Decoder σ τ} {K : EriImage}
    {header : EriHeader} {s : σ} {su : Setup σ τ} {y x : Nat} {st st1 : LoopState σ τ}
    (hsu : decode_setup D K header s = .ok su)
    (h : state_before_block D K header s y x = some st)
    (hb : decode_block D K header su.ctx su.permutation su.transformer_codes y st x = .ok st1) :
    state_before_block D K header s y (x + 1) = some st1
    ∧ state_after_block D K header s y x = some st1 := by
  obtain ⟨stA, hR, hB⟩ := state_before_block_ok hsu h
  constructor
  · simp only [state_before_block, hsu, hR, List.range_succ, for_list_append, hB, for_list, hb]
  · simp only [state_after_block, hsu, hR, List.range_succ, for_list_append, hB, for_list, hb]

theorem state_before_block_next_row {σ τ : Type} {D : Decoder σ τ} {K : EriImage}
    {header : EriHeader} {s : σ} {su : Setup σ τ} {y : Nat} {st : LoopState σ τ}
    (hsu : decode_setup D K header s = .ok su)
    (h : state_before_block D K header s y su.ctx.width_blocks = some st) :
    state_before_block D K header s (y + 1) 0 = some st := by
  obtain ⟨stA, hR, hB⟩ := state_before_block_ok hsu h
  have hrow : decode_block_row D K header su.ctx su.permutation su.transformer_codes stA y
      = .ok st := hB
  simp only [state_before_block, hsu, List.range_succ, for_list_append, hR, for_list, hrow,
    List.range_zero]

theorem state_before_block_end {σ τ : Type} {D : Decoder σ τ} {K : EriImage}
    {header : EriHeader} {s : σ} {su : Setup σ τ} {y : Nat} {st : LoopState σ τ}
    (hsu : decode_setup D K header s = .ok su)
    (h : state_before_block D K header s y 0 = some st) :
    for_list (decode_block_row D K header su.ctx su.permutation su.transformer_codes)
      (List.range y) su.init = .ok st := by
  obtain ⟨stA, hR, hB⟩ := state_before_block_ok hsu h
  simp only [List.range_zero, for_list] at hB
  cases hB
  exact hR

/-- With one channel and `format_type = Gray` the body of the block loop does not throw and
runs `transform` with the fixed code `0b11000000`. -/
theorem decode_block_gray {σ τ : Type} (D : Decoder σ τ) (K : EriImage)
    (header : EriHeader) (ctx : DecodeContext) (permutation codes : List Nat) (y x : Nat)
    (st : LoopState σ τ) (hcc : ctx.channel_count = 1) (hg : header.format_type = K.Gray) :
    ∃ st1, decode_block D K header ctx permutation codes y st x = .ok st1
      ∧ st1.buffers = transform 0xC0 ctx permutation st1.arrange_buf (x * ctx.block_stride)
          (y * ctx.block_stride) st.buffers
      ∧ st1.arrange_buf.length = st.arrange_buf.length := by
  have h3 : ctx.channel_count < 3 := by omega
  unfold decode_block get_transformer_code
  simp only [if_pos h3, if_pos hg]
  exact ⟨_, rfl, rfl, store_bytes_length _ _⟩

/-! ## The one-channel decode as a double running sum -/

theorem decoded_sample_block {σ τ : Type} {D : Decoder σ τ} {K : EriImage}
    {header : EriHeader} {s : σ} {y x r j : Nat} {st1 : LoopState σ τ}
    (h : state_after_block D K header s y x = some st1)
    (hr : r < 1 <<< header.blocking_degree) (hj : j < 1 <<< header.blocking_degree) :
    decoded_sample D K header s (y * (1 <<< header.blocking_degree) + r)
        (x * (1 <<< header.blocking_degree) + j)
      = st1.arrange_buf.getD (r * (1 <<< header.blocking_degree) + j) 0 := by
  have hB : 0 < 1 <<< header.blocking_degree := by omega
  have e1 : (y * (1 <<< header.blocking_degree) + r) / (1 <<< header.blocking_degree) = y := by
    rw [Nat.add_comm, Nat.add_mul_div_right _ _ hB, Nat.div_eq_of_lt hr, Nat.zero_add]
  have e2 : (x * (1 <<< header.blocking_degree) + j) / (1 <<< header.blocking_degree) = x := by
    rw [Nat.add_comm, Nat.add_mul_div_right _ _ hB, Nat.div_eq_of_lt hj, Nat.zero_add]
  have e3 : (y * (1 <<< header.blocking_degree) + r) % (1 <<< header.blocking_degree) = r := by
    rw [Nat.add_comm, Nat.add_mul_mod_self_right, Nat.mod_eq_of_lt hr]
  have e4 : (x * (1 <<< header.blocking_degree) + j) % (1 <<< header.blocking_degree) = j := by
    rw [Nat.add_comm, Nat.add_mul_mod_self_right, Nat.mod_eq_of_lt hj]
  unfold decoded_sample
  rw [e1, e2, e3, e4, h]

/-- The geometry of the context of a one-channel decode. -/
theorem gray_ctx_facts {σ τ : Type} {D : Decoder σ τ} {K : EriImage} {header : EriHeader}
    {s : σ} {su : Setup σ τ} (hsu : decode_setup D K header s = .ok su)
    (hcc : get_channel_count K header = .ok 1) :
    su.ctx.channel_count = 1 ∧ 0 < su.ctx.block_size
    ∧ su.ctx.block_size = 1 <<< header.blocking_degree
    ∧ su.ctx.block_area = su.ctx.block_size * su.ctx.block_size
    ∧ su.ctx.block_samples = su.ctx.block_area * su.ctx.channel_count
    ∧ su.ctx.block_stride = su.ctx.block_size * su.ctx.channel_count
    ∧ su.permutation = init_permutation su.ctx
    ∧ header.width ≤ su.ctx.width_blocks * su.ctx.block_size
    ∧ header.height ≤ su.ctx.height_blocks * su.ctx.block_size
    ∧ ∃ s2 t1, su.init = initial_state su.ctx s2 t1 := by
  obtain ⟨cc, s2, t1, hcc1, hctx, _, hperm, hinit⟩ := decode_setup_ok hsu
  rw [hcc] at hcc1
  cases hcc1
  have hbs : 0 < su.ctx.block_size := by
    rw [hctx]
    exact make_ctx_block_size_pos header (read_fields D s).1 1
  refine ⟨by rw [hctx]; rfl, hbs, by rw [hctx]; rfl, by rw [hctx]; rfl, by rw [hctx]; rfl,
    by rw [hctx]; rfl, hperm, ?_, ?_, s2, t1, hinit⟩
  · rw [hctx]
    exact ceil_blocks_cover header.width _ (make_ctx_block_size_pos header (read_fields D s).1 1)
  · rw [hctx]
    exact ceil_blocks_cover header.height _
      (make_ctx_block_size_pos header (read_fields D s).1 1)

/-- A one-channel decode with `format_type = Gray` reaches every block of a block-row it has
entered, with the invariant of the row and column state. -/
theorem gray_reach_row {σ τ : Type} {D : Decoder σ τ} {K : EriImage} {header : EriHeader}
    {s : σ} {su : Setup σ τ} (hsu : decode_setup D K header s = .ok su)
    (hcc : get_channel_count K header = .ok 1) (hg : header.format_type = K.Gray)
    (y : Nat) (hy : y < su.ctx.height_blocks) (st0 : LoopState σ τ)
    (h0 : state_before_block D K header s y 0 = some st0)
    (hinv0 : GrayInv (decoded_sample D K header s) su.ctx.block_size su.ctx.width_blocks
      su.ctx.height_blocks y 0 st0.buffers)
    (hlen0 : st0.arrange_buf.length = su.ctx.block_samples) :
    ∀ x, x ≤ su.ctx.width_blocks →
      ∃ st, state_before_block D K header s y x = some st
        ∧ GrayInv (decoded_sample D K header s) su.ctx.block_size su.ctx.width_blocks
            su.ctx.height_blocks y x st.buffers
        ∧ st.arrange_buf.length = su.ctx.block_samples := by
  obtain ⟨c1, hbs, hbsdef, harea, hsamples, hstride, hperm, _, _, _⟩ := gray_ctx_facts hsu hcc
  intro x
  induction x with
  | zero =>
    intro _
    exact ⟨st0, h0, hinv0, hlen0⟩
  | succ x ih =>
    intro hx
    obtain ⟨st, hst, hinv, hlen⟩ := ih (by omega)
    obtain ⟨st1, hb, hbuf, hal⟩ := decode_block_gray D K header su.ctx su.permutation
      su.transformer_codes y x st c1 hg
    obtain ⟨hnext, hafter⟩ := state_before_block_step hsu hst hb
    rw [hperm] at hbuf
    have hstep := gray_inv_step (decoded_sample D K header s) su.ctx su.ctx.width_blocks
      su.ctx.height_blocks y x st1.arrange_buf st.buffers st1.buffers hbuf.symm c1 hbs harea
      hsamples hstride (by rw [hal, hlen]) (by omega) hy
      (by
        intro r j hr hj
        rw [hbsdef] at hr hj ⊢
        exact decoded_sample_block hafter hr hj)
      hinv
    exact ⟨st1, hnext, hstep.1, by rw [hal, hlen]⟩

/-- A one-channel decode with `format_type = Gray` reaches the start of every block-row,
and the end of the loop, with the invariant of the row and column state. -/
theorem gray_reach {σ τ : Type} {D : Decoder σ τ} {K : EriImage} {header : EriHeader}
    {s : σ} {su : Setup σ τ} (hsu : decode_setup D K header s = .ok su)
    (hcc : get_channel_count K header = .ok 1) (hg : header.format_type = K.Gray) :
    ∀ y, y ≤ su.ctx.height_blocks →
      ∃ st, state_before_block D K header s y 0 = some st
        ∧ GrayInv (decoded_sample D K header s) su.ctx.block_size su.ctx.width_blocks
            su.ctx.height_blocks y 0 st.buffers
        ∧ st.arrange_buf.length = su.ctx.block_samples := by
  obtain ⟨c1, hbs, hbsdef, harea, hsamples, hstride, hperm, _, _, s2, t1, hinit⟩ :=
    gray_ctx_facts hsu hcc
  have hst : su.ctx.block_stride = su.ctx.block_size := by rw [hstride, c1, Nat.mul_one]
  have hsm : su.ctx.block_samples = su.ctx.block_size * su.ctx.block_size := by
    rw [hsamples, c1, Nat.mul_one, harea]
  intro y
  induction y with
  | zero =>
    intro _
    refine ⟨su.init, state_before_block_start hsu, ?_, ?_⟩
    · rw [hinit]
      unfold initial_state
      simp only []
      rw [hsm, hst]
      exact gray_inv_init _ _ _ _
    · rw [hinit]
      exact bstr_length _
  | succ y ih =>
    intro hy
    obtain ⟨st0, h0, hinv0, hlen0⟩ := ih (by omega)
    obtain ⟨st, h1, hinv, hlen⟩ := gray_reach_row hsu hcc hg y (by omega) st0 h0 hinv0 hlen0
      su.ctx.width_blocks (Nat.le_refl _)
    exact ⟨st, state_before_block_next_row hsu h1, gray_inv_next_row _ _ _ _ _ _ hinv, hlen⟩

/-- Every block of a one-channel decode with `format_type = Gray` ends with the double
running sum of the decoded samples in `block_out`. -/
theorem gray_block_values {σ τ : Type} {D : Decoder σ τ} {K : EriImage} {header : EriHeader}
    {s : σ} {su : Setup σ τ} (hsu : decode_setup D K header s = .ok su)
    (hcc : get_channel_count K header = .ok 1) (hg : header.format_type = K.Gray)
    (y x : Nat) (hy : y < su.ctx.height_blocks) (hx : x < su.ctx.width_blocks) :
    ∃ st1, state_after_block D K header s y x = some st1
      ∧ ∀ r j, r < su.ctx.block_size → j < su.ctx.block_size →
          st1.buffers.block_out.getD (r * su.ctx.block_size + j) 0
            = rect_sum (decoded_sample D K header s) (y * su.ctx.block_size + r + 1)
                (x * su.ctx.block_size + j + 1) % 256 := by
  obtain ⟨c1, hbs, hbsdef, harea, hsamples, hstride, hperm, _, _, _⟩ := gray_ctx_facts hsu hcc
  obtain ⟨st0, h0, hinv0, hlen0⟩ := gray_reach hsu hcc hg y (by omega)
  obtain ⟨st, hst, hinv, hlen⟩ := gray_reach_row hsu hcc hg y hy st0 h0 hinv0 hlen0 x
    (by omega)
  obtain ⟨st1, hb, hbuf, hal⟩ := decode_block_gray D K header su.ctx su.permutation
    su.transformer_codes y x st c1 hg
  obtain ⟨_, hafter⟩ := state_before_block_step hsu hst hb
  rw [hperm] at hbuf
  have hstep := gray_inv_step (decoded_sample D K header s) su.ctx su.ctx.width_blocks
    su.ctx.height_blocks y x st1.arrange_buf st.buffers st1.buffers hbuf.symm c1 hbs harea
    hsamples hstride (by rw [hal, hlen]) hx hy
    (by
      intro r j hr hj
      rw [hbsdef] at hr hj ⊢
      exact decoded_sample_block hafter hr hj)
    hinv
  exact ⟨st1, hafter, hstep.2⟩

/-- C21: for a grayscale image (`format_type = Gray`, one channel, hence the fixed code
`0b11000000`, with the zero-initialised row and column state) whose setup succeeds, the
block loop completes and the decoder equals the naive two-dimensional running sum of the
decoded samples: every byte of the padded canvas at row `Y`, column `X` is the sum of the
decoded samples `d[Y1][X1]` over `Y1 ≤ Y`, `X1 ≤ X`, modulo 256, and the returned buffer is
that canvas cropped to `width` x `height`, so its byte `Y * width + X` is the same sum. -/
theorem decode_gray_double_sum {σ τ : Type} (D : Decoder σ τ) (K : EriImage)
    (header : EriHeader) (s : σ) (su : Setup σ τ)
    (hsu : decode_setup D K header s = .ok su)
    (hcc : get_channel_count K header = .ok 1) (hg : header.format_type = K.Gray) :
    ∃ stF,
      for_list (decode_block_row D K header su.ctx su.permutation su.transformer_codes)
        (List.range su.ctx.height_blocks) su.init = .ok stF
      ∧ decode_lossless_pixel_data D K header s
          = .ok (crop stF.output su.ctx header, stF.front.dec)
      ∧ (∀ Y X, Y < su.ctx.height_blocks * su.ctx.block_size →
          X < su.ctx.width_blocks * su.ctx.block_size →
          stF.output.getD (canvas_index su.ctx Y X 0) 0
            = naive_double_sum (decoded_sample D K header s) Y X)
      ∧ (∀ Y X, Y < header.height → X < header.width →
          (crop stF.output su.ctx header).getD (Y * header.width + X) 0
            = naive_double_sum (decoded_sample D K header s) Y X) := by
  obtain ⟨c1, hbs, hbsdef, harea, hsamples, hstride, hperm, hwb, hhb, s2, t1, hinit⟩ :=
    gray_ctx_facts hsu hcc
  obtain ⟨stF, hend, _, _⟩ := gray_reach hsu hcc hg su.ctx.height_blocks (Nat.le_refl _)
  have hF := state_before_block_end hsu hend
  have hlen0 : su.init.output.length
      = su.ctx.height_blocks * su.ctx.block_size * (su.ctx.width_blocks * su.ctx.block_size)
          * su.ctx.channel_count := by
    rw [hinit]
    simp only [initial_state, bstr, List.length_replicate, hsamples, harea]
    ring
  have hcanvas : ∀ Y X, Y < su.ctx.height_blocks * su.ctx.block_size →
      X < su.ctx.width_blocks * su.ctx.block_size →
      stF.output.getD (canvas_index su.ctx Y X 0) 0
        = naive_double_sum (decoded_sample D K header s) Y X := by
    intro Y X hY hX
    have hy : Y / su.ctx.block_size < su.ctx.height_blocks :=
      (Nat.div_lt_iff_lt_mul hbs).2 hY
    have hx : X / su.ctx.block_size < su.ctx.width_blocks :=
      (Nat.div_lt_iff_lt_mul hbs).2 hX
    have hyy : Y % su.ctx.block_size < su.ctx.block_size := Nat.mod_lt _ hbs
    have hxx : X % su.ctx.block_size < su.ctx.block_size := Nat.mod_lt _ hbs
    have hY_eq : Y / su.ctx.block_size * su.ctx.block_size + Y % su.ctx.block_size = Y :=
      Nat.div_add_mod' Y _
    have hX_eq : X / su.ctx.block_size * su.ctx.block_size + X % su.ctx.block_size = X :=
      Nat.div_add_mod' X _
    obtain ⟨stA, stC, hA, hC, hval⟩ :=
      canvas_block hF hlen0 (Y / su.ctx.block_size) (X / su.ctx.block_size) hy hx
    obtain ⟨st1, hafter, hsum⟩ :=
      gray_block_values hsu hcc hg (Y / su.ctx.block_size) (X / su.ctx.block_size) hy hx
    simp only [state_after_block, hsu, hA, hC] at hafter
    cases hafter
    have hv := hval 0 (Y % su.ctx.block_size) (X % su.ctx.block_size) (by omega) hyy hxx
    rw [hY_eq, hX_eq, Nat.zero_mul, Nat.zero_add, hsum _ _ hyy hxx, hY_eq, hX_eq] at hv
    rw [hv, naive_double_sum_eq]
  refine ⟨stF, hF, ?_, hcanvas, ?_⟩
  · unfold decode_lossless_pixel_data
    simp only [hsu, hF]
  · intro Y X hY hX
    have hcrop := crop_getD stF.output su.ctx header Y X hY (by rw [c1, Nat.mul_one]; exact hX)
    have e1 : Y * header.width * su.ctx.channel_count + X = Y * header.width + X := by
      rw [c1, Nat.mul_one]
    have e2 : Y * su.ctx.width_blocks * su.ctx.block_stride + X
        = canvas_index su.ctx Y X 0 := by
      unfold canvas_index
      rw [hstride, c1]
      ring
    rw [e1, e2] at hcrop
    rw [hcrop]
    exact hcanvas Y X (by omega) (by omega)

/-- C21 witness: the 3 x 2 grayscale image with block size 2.  The decoded blocks
`[1, 2, 3, 4]` and `[5, 6, 7, 8]` give the sample grid `1 2 5 / 3 4 7` on the image, whose
double running sum is `1 3 8 / 4 10 22`, the returned buffer. -/
theorem decode_gray_double_sum_witness :
    (∃ stF,
      for_list (decode_block_row (scripted false) sampleImage
          (grayHeader Architecture.RunLengthGamma) graySetup.ctx graySetup.permutation
          graySetup.transformer_codes)
        (List.range graySetup.ctx.height_blocks) graySetup.init = .ok stF
      ∧ decode_lossless_pixel_data (scripted false) sampleImage
          (grayHeader Architecture.RunLengthGamma) grayStream
          = .ok (crop stF.output graySetup.ctx (grayHeader Architecture.RunLengthGamma),
              stF.front.dec)
      ∧ (∀ Y X, Y < graySetup.ctx.height_blocks * graySetup.ctx.block_size →
          X < graySetup.ctx.width_blocks * graySetup.ctx.block_size →
          stF.output.getD (canvas_index graySetup.ctx Y X 0) 0
            = naive_double_sum
                (decoded_sample (scripted false) sampleImage
                  (grayHeader Architecture.RunLengthGamma) grayStream) Y X)
      ∧ (∀ Y X, Y < (grayHeader Architecture.RunLengthGamma).height →
          X < (grayHeader Architecture.RunLengthGamma).width →
          (crop stF.output graySetup.ctx (grayHeader Architecture.RunLengthGamma)).getD
              (Y * (grayHeader Architecture.RunLengthGamma).width + X) 0
            = naive_double_sum
                (decoded_sample (scripted false) sampleImage
                  (grayHeader Architecture.RunLengthGamma) grayStream) Y X))
    ∧ decode_lossless_pixel_data (scripted false) sampleImage
        (grayHeader Architecture.RunLengthGamma) grayStream
      = .ok ([1, 3, 8, 4, 10, 22], grayFinal)
    ∧ (List.range 2).map (fun Y => (List.range 3).map (fun X =>
        decoded_sample (scripted false) sampleImage
          (grayHeader Architecture.RunLengthGamma) grayStream Y X))
      = [[1, 2, 5], [3, 4, 7]]
    ∧ (List.range 2).map (fun Y => (List.range 3).map (fun X =>
        naive_double_sum
          (decoded_sample (scripted false) sampleImage
            (grayHeader Architecture.RunLengthGamma) grayStream) Y X))
      = [[1, 3, 8], [4, 10, 22]] :=
  ⟨decode_gray_double_sum (scripted false) sampleImage
      (grayHeader Architecture.RunLengthGamma) grayStream graySetup rfl rfl rfl,
    rfl, by decide, by decide⟩

/-! ## Bounds: the checked model agrees with the model -/

theorem rd_eq {buf : Bytes} {i : Nat} (h : i < buf.length) :
    rd buf i = some (buf.getD i 0) := if_pos h

theorem wr_eq {buf : Bytes} {i : Nat} (v : Nat) (h : i < buf.length) :
    wr buf i v = some (buf.set i v) := if_pos h

theorem rd_slice_eq {buf : Bytes} {lo len i : Nat} (h1 : lo ≤ i) (h2 : i < lo + len)
    (h3 : lo + len ≤ buf.length) : rd_slice buf lo len i = some (buf.getD i 0) :=
  if_pos ⟨h1, h2, h3⟩

theorem wr_slice_eq {buf : Bytes} {lo len i : Nat} (v : Nat) (h1 : lo ≤ i) (h2 : i < lo + len)
    (h3 : lo + len ≤ buf.length) : wr_slice buf lo len i v = some (buf.set i v) :=
  if_pos ⟨h1, h2, h3⟩

theorem loopM_append {α β : Type} (body : α → β → Option α) (l1 l2 : List β) (a : α) :
    loopM body (l1 ++ l2) a = (loopM body l1 a).bind (loopM body l2) := by
  induction l1 generalizing a with
  | nil => rfl
  | cons b l1 ih =>
    simp only [List.cons_append, loopM]
    cases body a b with
    | none => rfl
    | some a1 => exact ih a1

/-- A checked loop whose every iteration is in range, under an invariant indexed by the
iteration count, is the unchecked loop. -/
theorem loopM_range_eq {α : Type} (P : Nat → α → Prop) (body : α → Nat → Option α)
    (f : α → Nat → α) (n : Nat) (a : α) (h0 : P 0 a)
    (hstep : ∀ i a, i < n → P i a → body a i = some (f a i) ∧ P (i + 1) (f a i)) :
    loopM body (List.range n) a = some ((List.range n).foldl f a)
    ∧ P n ((List.range n).foldl f a) := by
  induction n with
  | zero => exact ⟨rfl, h0⟩
  | succ n ih =>
    obtain ⟨h1, h2⟩ := ih (fun i a hi hp => hstep i a (Nat.lt_succ_of_lt hi) hp)
    obtain ⟨h3, h4⟩ := hstep n _ (Nat.lt_succ_self n) h2
    rw [List.range_succ, loopM_append, h1, List.foldl_append]
    refine ⟨?_, h4⟩
    simp only [Option.some_bind, loopM, List.foldl, h3]

theorem transform_scatter_checked_eq (ctx : DecodeContext) (permutation : List Nat)
    (perm_offset : Nat) (arrange_buf block_out : Bytes)
    (hp : ∀ i, i < ctx.block_samples →
      perm_offset * ctx.block_samples + i < permutation.length
      ∧ permutation.getD (perm_offset * ctx.block_samples + i) 0 < block_out.length)
    (ha : ctx.block_samples ≤ arrange_buf.length) :
    transform_scatter_checked ctx permutation perm_offset arrange_buf block_out
      = some (transform_scatter ctx permutation perm_offset arrange_buf block_out) := by
  unfold transform_scatter_checked transform_scatter
  refine (loopM_range_eq (fun _ (b : Bytes) => b.length = block_out.length) _ _ _ _ rfl ?_).1
  intro i b hi hb
  obtain ⟨h1, h2⟩ := hp i hi
  refine ⟨?_, by simp only [List.length_set]; exact hb⟩
  rw [rd_eq h1, Option.some_bind, rd_eq (by omega), Option.some_bind,
    wr_eq _ (by rw [hb]; exact h2)]

theorem color_add1_checked_eq (ctx : DecodeContext) (src dst : Nat) (buf : Bytes)
    (hs : src + ctx.block_area ≤ buf.length) (hd : dst + ctx.block_area ≤ buf.length) :
    color_add1_checked ctx src dst buf = some (color_add1 ctx src dst buf) := by
  unfold color_add1_checked color_add1
  refine (loopM_range_eq (fun _ (b : Bytes) => b.length = buf.length) _ _ _ _ rfl ?_).1
  intro i b hi hb
  refine ⟨?_, by simp only [List.length_set]; exact hb⟩
  rw [rd_eq (by omega), Option.some_bind, rd_eq (by omega), Option.some_bind,
    wr_eq _ (by omega)]

theorem color_add2_checked_eq (ctx : DecodeContext) (src dst1 dst2 : Nat) (buf : Bytes)
    (hs : src + ctx.block_area ≤ buf.length) (hd1 : dst1 + ctx.block_area ≤ buf.length)
    (hd2 : dst2 + ctx.block_area ≤ buf.length) :
    color_add2_checked ctx src dst1 dst2 buf = some (color_add2 ctx src dst1 dst2 buf) := by
  unfold color_add2_checked color_add2
  refine (loopM_range_eq (fun _ (b : Bytes) => b.length = buf.length) _ _ _ _ rfl ?_).1
  intro i b hi hb
  refine ⟨?_, by simp only [List.length_set]; exact hb⟩
  rw [rd_eq (by omega), Option.some_bind, rd_eq (by omega), Option.some_bind,
    wr_eq _ (by omega), Option.some_bind, rd_eq (by rw [List.length_set]; omega),
    Option.some_bind, wr_eq _ (by rw [List.length_set]; omega)]

theorem color_ops_call_checked_eq (color_op : Nat) (buf : Bytes) (ctx : DecodeContext)
    (hop : color_op < 16) (h : color_op = 0 ∨ 3 * ctx.block_area ≤ buf.length) :
    color_ops_call_checked color_op buf ctx
      = some ((color_ops.getD color_op color_op_0000) buf ctx) := by
  interval_cases color_op <;>
    first
    | rfl
    | (have h3 := h.resolve_left (by decide)
       first
       | exact color_add1_checked_eq _ _ _ _ (by omega) (by omega)
       | exact color_add2_checked_eq _ _ _ _ _ (by omega) (by omega) (by omega))

theorem accumulate_row_checked_eq (ctx : DecodeContext) (bo : Bytes) (p last : Nat)
    (hlen : p + ctx.block_size ≤ bo.length) :
    accumulate_row_checked ctx (bo, p, last) = some (accumulate_row ctx (bo, p, last))
    ∧ (accumulate_row ctx (bo, p, last)).2.1 = p + ctx.block_size
    ∧ (accumulate_row ctx (bo, p, last)).1.length = bo.length := by
  unfold accumulate_row_checked accumulate_row
  refine loopM_range_eq
    (fun n (t : Bytes × Nat × Nat) => t.2.1 = p + n ∧ t.1.length = bo.length) _ _ _ _
    ⟨rfl, rfl⟩ ?_
  intro i t hi ⟨h1, h2⟩
  refine ⟨?_, by simp only [h1]; omega, by simp only [List.length_set]; exact h2⟩
  rw [rd_eq (by omega), Option.some_bind, wr_eq _ (by omega), Option.some_bind]

theorem transform_horizontal_accumulate_checked_eq (ctx : DecodeContext) (bo pc : Bytes)
    (co : Nat) (hbo : ctx.block_stride * ctx.block_size ≤ bo.length)
    (hpc : co + ctx.block_stride ≤ pc.length) :
    transform_horizontal_accumulate_checked ctx bo pc co
      = some (transform_horizontal_accumulate ctx bo pc co) := by
  unfold transform_horizontal_accumulate_checked transform_horizontal_accumulate
  refine (loopM_range_eq
    (fun n (st : HState) => st.block_out_ptr = n * ctx.block_size
      ∧ st.next_block_col_ptr = co + n ∧ st.block_out.length = bo.length
      ∧ st.prev_col.length = pc.length) _ _ _ _ ⟨by simp, rfl, rfl, rfl⟩ ?_).1
  intro n st hn ⟨h1, h2, h3, h4⟩
  rcases st with ⟨sbo, sp, spc, sq⟩
  simp only at h1 h2 h3 h4
  subst h1 h2
  have hrow : n * ctx.block_size + ctx.block_size ≤ sbo.length := by
    have := Nat.mul_le_mul_right ctx.block_size (Nat.succ_le_of_lt hn)
    rw [Nat.succ_mul] at this
    omega
  obtain ⟨A1, A2, A3⟩ := accumulate_row_checked_eq ctx sbo (n * ctx.block_size)
    (spc.getD (co + n) 0) hrow
  refine ⟨?_, ?_, rfl, ?_, ?_⟩
  · simp only []
    rw [rd_slice_eq (Nat.le_add_right _ _) (by omega) (by omega), Option.some_bind, A1,
      Option.some_bind, wr_slice_eq _ (Nat.le_add_right _ _) (by omega) (by omega),
      Option.some_bind]
  · show (accumulate_row ctx _).2.1 = (n + 1) * ctx.block_size
    rw [A2, Nat.succ_mul]
  · show (accumulate_row ctx _).1.length = bo.length
    rw [A3, h3]
  · show (spc.set _ _).length = pc.length
    rw [List.length_set, h4]

theorem transform_horizontal_store_checked_eq (ctx : DecodeContext) (bo pc : Bytes)
    (co : Nat) (hbs : 0 < ctx.block_size)
    (hbo : ctx.block_stride * ctx.block_size ≤ bo.length)
    (hpc : co + ctx.block_stride ≤ pc.length) :
    transform_horizontal_store_checked ctx bo pc co
      = some (transform_horizontal_store ctx bo pc co) := by
  unfold transform_horizontal_store_checked transform_horizontal_store
  refine (loopM_range_eq
    (fun n (st : HState) => st.block_out_ptr = n * ctx.block_size
      ∧ st.next_block_col_ptr = co + n ∧ st.block_out.length = bo.length
      ∧ st.prev_col.length = pc.length) _ _ _ _ ⟨by simp, rfl, rfl, rfl⟩ ?_).1
  intro n st hn ⟨h1, h2, h3, h4⟩
  rcases st with ⟨sbo, sp, spc, sq⟩
  simp only at h1 h2 h3 h4
  subst h1 h2
  have hrow : n * ctx.block_size + ctx.block_size ≤ sbo.length := by
    have := Nat.mul_le_mul_right ctx.block_size (Nat.succ_le_of_lt hn)
    rw [Nat.succ_mul] at this
    omega
  refine ⟨?_, ?_, rfl, h3, ?_⟩
  · simp only []
    rw [rd_eq (by omega), Option.some_bind,
      wr_slice_eq _ (Nat.le_add_right _ _) (by omega) (by omega), Option.some_bind]
  · show n * ctx.block_size + ctx.block_size = (n + 1) * ctx.block_size
    rw [Nat.succ_mul]
  · show (spc.set _ _).length = pc.length
    rw [List.length_set, h4]

theorem read_checked_row (bo pr : Bytes) (lo len q : Nat) (h1 : lo ≤ q) (h2 : q < lo + len)
    (h3 : lo + len ≤ pr.length) :
    (RowPtr.row q).read_checked bo pr lo len = some ((RowPtr.row q).read bo pr) :=
  rd_slice_eq h1 h2 h3

theorem read_checked_out (bo pr : Bytes) (lo len q : Nat) (h : q < bo.length) :
    (RowPtr.out q).read_checked bo pr lo len = some ((RowPtr.out q).read bo pr) :=
  rd_eq h

/-- One line of the vertical pass is in range when the line lies inside `block_out` and the
source pointer can be read `block_size` times. -/
theorem vertical_add_line_checked_eq (ctx : DecodeContext) (lo : Nat) (st : VState)
    (hlen : st.block_out_ptr + ctx.block_size ≤ st.block_out.length)
    (hptr : ∀ j, j < ctx.block_size → ∀ bo1 : Bytes, bo1.length = st.block_out.length →
      (st.prev_block_row_ptr.add j).read_checked bo1 st.prev_row lo ctx.block_stride
        = some ((st.prev_block_row_ptr.add j).read bo1 st.prev_row)) :
    vertical_add_line_checked ctx lo st = some (vertical_add_line ctx st)
    ∧ (vertical_add_line ctx st).block_out_ptr = st.block_out_ptr + ctx.block_size
    ∧ (vertical_add_line ctx st).block_out.length = st.block_out.length
    ∧ (vertical_add_line ctx st).prev_row = st.prev_row
    ∧ (vertical_add_line ctx st).prev_block_row_base = st.prev_block_row_base := by
  rcases st with ⟨bo, p, pr, base, ptr⟩
  simp only at hlen hptr ⊢
  unfold vertical_add_line_checked vertical_add_line
  have key := loopM_range_eq
    (fun n (u : VState) => u.block_out_ptr = p + n ∧ u.prev_block_row_ptr = ptr.add n
      ∧ u.block_out.length = bo.length ∧ u.prev_row = pr ∧ u.prev_block_row_base = base)
    (fun (st : VState) (_j : Nat) =>
      (rd st.block_out st.block_out_ptr).bind fun old =>
      (st.prev_block_row_ptr.read_checked st.block_out st.prev_row lo ctx.block_stride).bind
        fun v =>
      (wr st.block_out st.block_out_ptr ((old + v) % 256)).bind fun bo =>
      some ({ block_out := bo
              block_out_ptr := st.block_out_ptr + 1
              prev_row := st.prev_row
              prev_block_row_base := st.prev_block_row_base
              prev_block_row_ptr := st.prev_block_row_ptr.next } : VState))
    (fun (st : VState) (_j : Nat) =>
      ({ block_out := st.block_out.set st.block_out_ptr
           ((st.block_out.getD st.block_out_ptr 0
             + st.prev_block_row_ptr.read st.block_out st.prev_row) % 256)
         block_out_ptr := st.block_out_ptr + 1
         prev_row := st.prev_row
         prev_block_row_base := st.prev_block_row_base
         prev_block_row_ptr := st.prev_block_row_ptr.next } : VState))
    ctx.block_size
    { block_out := bo, block_out_ptr := p, prev_row := pr, prev_block_row_base := base,
      prev_block_row_ptr := ptr }
    ⟨rfl, (rowptr_add_zero ptr).symm, rfl, rfl, rfl⟩
    (by
      intro n u hn ⟨h1, h2, h3, h4, h5⟩
      rcases u with ⟨ubo, up, upr, ubase, uptr⟩
      simp only at h1 h2 h3 h4 h5
      subst h1 h2 h4 h5
      refine ⟨?_, rfl, ?_, ?_, rfl, rfl⟩
      · simp only []
        rw [rd_eq (by omega), Option.some_bind, hptr n hn ubo h3, Option.some_bind,
          wr_eq _ (by omega), Option.some_bind]
      · show (ptr.add n).next = ptr.add (n + 1)
        exact rowptr_add_next ptr n
      · show (ubo.set _ _).length = bo.length
        rw [List.length_set, h3])
  exact ⟨key.1, key.2.1, key.2.2.2.1, key.2.2.2.2.1, key.2.2.2.2.2⟩

/-- The lines of one channel plane are in range when the plane lies inside `block_out` and
the pointer starts on a line of the block's row-state slice. -/
theorem vertical_add_plane_checked_eq (ctx : DecodeContext) (lo : Nat) (st : VState) (q0 : Nat)
    (hbs : 0 < ctx.block_size)
    (hlen : st.block_out_ptr + ctx.block_size * ctx.block_size ≤ st.block_out.length)
    (hptr : st.prev_block_row_ptr = RowPtr.row q0) (h1 : lo ≤ q0)
    (h2 : q0 + ctx.block_size ≤ lo + ctx.block_stride)
    (h3 : lo + ctx.block_stride ≤ st.prev_row.length) :
    vertical_add_plane_checked ctx lo st = some (vertical_add_plane ctx st)
    ∧ (vertical_add_plane ctx st).block_out_ptr
        = st.block_out_ptr + ctx.block_size * ctx.block_size
    ∧ (vertical_add_plane ctx st).block_out.length = st.block_out.length
    ∧ (vertical_add_plane ctx st).prev_row = st.prev_row
    ∧ (vertical_add_plane ctx st).prev_block_row_base = st.prev_block_row_base
    ∧ (vertical_add_plane ctx st).prev_block_row_ptr
        = RowPtr.out (st.block_out_ptr + (ctx.block_size - 1) * ctx.block_size) := by
  rcases st with ⟨bo, p, pr, base, ptr⟩
  simp only at hlen hptr h3 ⊢
  subst hptr
  unfold vertical_add_plane_checked vertical_add_plane
  have key := loopM_range_eq
    (fun n (u : VState) => u.block_out_ptr = p + n * ctx.block_size
      ∧ u.block_out.length = bo.length ∧ u.prev_row = pr ∧ u.prev_block_row_base = base
      ∧ (n = 0 → u.prev_block_row_ptr = RowPtr.row q0)
      ∧ (0 < n → u.prev_block_row_ptr = RowPtr.out (p + (n - 1) * ctx.block_size)))
    (fun (st : VState) (_i : Nat) =>
      (vertical_add_line_checked ctx lo st).bind fun st1 =>
      some ({ block_out := st1.block_out
              block_out_ptr := st1.block_out_ptr
              prev_row := st1.prev_row
              prev_block_row_base := st1.prev_block_row_base
              prev_block_row_ptr := RowPtr.out st.block_out_ptr } : VState))
    (fun (st : VState) (_i : Nat) =>
      ({ block_out := (vertical_add_line ctx st).block_out
         block_out_ptr := (vertical_add_line ctx st).block_out_ptr
         prev_row := (vertical_add_line ctx st).prev_row
         prev_block_row_base := (vertical_add_line ctx st).prev_block_row_base
         prev_block_row_ptr := RowPtr.out st.block_out_ptr } : VState))
    ctx.block_size
    { block_out := bo, block_out_ptr := p, prev_row := pr, prev_block_row_base := base,
      prev_block_row_ptr := RowPtr.row q0 }
    ⟨by simp, rfl, rfl, rfl, fun _ => rfl, fun h => absurd h (Nat.lt_irrefl 0)⟩
    (by
      intro n u hn ⟨e1, e2, e3, e4, e5, e6⟩
      rcases u with ⟨ubo, up, upr, ubase, uptr⟩
      simp only at e1 e2 e3 e4 e5 e6
      subst e1 e3 e4
      have hline : p + n * ctx.block_size + ctx.block_size ≤ ubo.length := by
        have := Nat.mul_le_mul_right ctx.block_size (Nat.succ_le_of_lt hn)
        rw [Nat.succ_mul] at this
        omega
      obtain ⟨L1, L2, L3, L4, L5⟩ := vertical_add_line_checked_eq ctx lo
        { block_out := ubo, block_out_ptr := p + n * ctx.block_size, prev_row := upr,
          prev_block_row_base := ubase, prev_block_row_ptr := uptr } hline
        (by
          intro j hj bo1 hbo1
          simp only at hbo1 ⊢
          rcases Nat.eq_zero_or_pos n with hz | hp
          · rw [e5 hz]
            exact read_checked_row bo1 upr lo ctx.block_stride (q0 + j) (by omega) (by omega) h3
          · rw [e6 hp]
            have : (n - 1) * ctx.block_size + ctx.block_size = n * ctx.block_size := by
              rw [← Nat.succ_mul, Nat.succ_eq_add_one, Nat.sub_add_cancel hp]
            exact read_checked_out bo1 upr lo ctx.block_stride _ (by omega))
      simp only at L2 L3 L4 L5
      refine ⟨?_, ?_, ?_, ?_, ?_, ?_, ?_⟩
      · simp only []
        rw [L1, Option.some_bind]
      · show (vertical_add_line ctx _).block_out_ptr = p + (n + 1) * ctx.block_size
        rw [L2, Nat.succ_mul]
        omega
      · show (vertical_add_line ctx _).block_out.length = bo.length
        rw [L3, e2]
      · exact L4
      · exact L5
      · intro h
        exact absurd h (Nat.succ_ne_zero n)
      · intro _
        rfl)
  exact ⟨key.1, by rw [key.2.1, Nat.mul_comm] , key.2.2.1, key.2.2.2.1, key.2.2.2.2.1,
    key.2.2.2.2.2.2 hbs⟩

/-- The copy loop closing a channel's iteration is in range when the source line lies inside
`block_out` and the destination inside the block's row-state slice. -/
theorem vertical_store_row_checked_eq (ctx : DecodeContext) (lo : Nat) (st : VState) (q : Nat)
    (hptr : st.prev_block_row_ptr = RowPtr.out q)
    (hq : q + ctx.block_size ≤ st.block_out.length) (h1 : lo ≤ st.prev_block_row_base)
    (h2 : st.prev_block_row_base + ctx.block_size ≤ lo + ctx.block_stride)
    (h3 : lo + ctx.block_stride ≤ st.prev_row.length) :
    vertical_store_row_checked ctx lo st = some (vertical_store_row ctx st)
    ∧ (vertical_store_row ctx st).block_out = st.block_out
    ∧ (vertical_store_row ctx st).block_out_ptr = st.block_out_ptr
    ∧ (vertical_store_row ctx st).prev_block_row_base
        = st.prev_block_row_base + ctx.block_size
    ∧ (vertical_store_row ctx st).prev_row.length = st.prev_row.length := by
  rcases st with ⟨bo, p, pr, base, ptr⟩
  simp only at hptr hq h1 h2 h3 ⊢
  subst hptr
  unfold vertical_store_row_checked vertical_store_row
  have key := loopM_range_eq
    (fun n (u : VState) => u.block_out = bo ∧ u.block_out_ptr = p
      ∧ u.prev_block_row_base = base + n ∧ u.prev_block_row_ptr = RowPtr.out (q + n)
      ∧ u.prev_row.length = pr.length)
    (fun (st : VState) (_j : Nat) =>
      (st.prev_block_row_ptr.read_checked st.block_out st.prev_row lo ctx.block_stride).bind
        fun v =>
      (wr_slice st.prev_row lo ctx.block_stride st.prev_block_row_base v).bind fun pr =>
      some ({ block_out := st.block_out
              block_out_ptr := st.block_out_ptr
              prev_row := pr
              prev_block_row_base := st.prev_block_row_base + 1
              prev_block_row_ptr := st.prev_block_row_ptr.next } : VState))
    (fun (st : VState) (_j : Nat) =>
      ({ block_out := st.block_out
         block_out_ptr := st.block_out_ptr
         prev_row := st.prev_row.set st.prev_block_row_base
           (st.prev_block_row_ptr.read st.block_out st.prev_row)
         prev_block_row_base := st.prev_block_row_base + 1
         prev_block_row_ptr := st.prev_block_row_ptr.next } : VState))
    ctx.block_size
    { block_out := bo, block_out_ptr := p, prev_row := pr, prev_block_row_base := base,
      prev_block_row_ptr := RowPtr.out q }
    ⟨rfl, rfl, rfl, rfl, rfl⟩
    (by
      intro n u hn ⟨e1, e2, e3, e4, e5⟩
      rcases u with ⟨ubo, up, upr, ubase, uptr⟩
      simp only at e1 e2 e3 e4 e5
      subst e1 e2 e3 e4
      refine ⟨?_, rfl, rfl, rfl, rfl, ?_⟩
      · simp only []
        rw [read_checked_out ubo upr lo ctx.block_stride (q + n) (by omega), Option.some_bind,
          wr_slice_eq _ (by omega) (by omega) (by omega), Option.some_bind]
      · show (upr.set _ _).length = pr.length
        rw [List.length_set, e5])
  exact ⟨key.1, key.2.1, key.2.2.1, key.2.2.2.1, key.2.2.2.2.2⟩

/-- The vertical pass is in range when the channel planes lie inside `block_out` and the
block's row-state slice inside `prev_row`. -/
theorem transform_vertical_checked_eq (ctx : DecodeContext) (bo pr : Bytes) (ro : Nat)
    (hbs : 0 < ctx.block_size)
    (hstride : ctx.block_stride = ctx.block_size * ctx.channel_count)
    (hbo : ctx.channel_count * (ctx.block_size * ctx.block_size) ≤ bo.length)
    (hpr : ro + ctx.block_stride ≤ pr.length) :
    transform_vertical_checked ctx bo pr ro = some (transform_vertical ctx bo pr ro) := by
  unfold transform_vertical_checked transform_vertical
  refine (loopM_range_eq
    (fun n (u : VState) => u.block_out_ptr = n * (ctx.block_size * ctx.block_size)
      ∧ u.prev_block_row_base = ro + n * ctx.block_size
      ∧ u.block_out.length = bo.length ∧ u.prev_row.length = pr.length)
    _ _ _ _ ⟨by simp, by simp, rfl, rfl⟩ ?_).1
  intro n u hn ⟨e1, e2, e3, e4⟩
  rcases u with ⟨ubo, up, upr, ubase, uptr⟩
  simp only at e1 e2 e3 e4
  subst e1 e2
  have hplane : n * (ctx.block_size * ctx.block_size) + ctx.block_size * ctx.block_size
      ≤ bo.length := by
    have := Nat.mul_le_mul_right (ctx.block_size * ctx.block_size) (Nat.succ_le_of_lt hn)
    rw [Nat.succ_mul] at this
    omega
  have hslice : ro + n * ctx.block_size + ctx.block_size ≤ ro + ctx.block_stride := by
    have := Nat.mul_le_mul_right ctx.block_size (Nat.succ_le_of_lt hn)
    rw [Nat.succ_mul, Nat.mul_comm ctx.channel_count, ← hstride] at this
    omega
  have hlast : (ctx.block_size - 1) * ctx.block_size + ctx.block_size
      = ctx.block_size * ctx.block_size := by
    rw [← Nat.succ_mul, Nat.succ_eq_add_one, Nat.sub_add_cancel hbs]
  obtain ⟨P1, P2, P3, P4, P5, P6⟩ := vertical_add_plane_checked_eq ctx ro
    { block_out := ubo, block_out_ptr := n * (ctx.block_size * ctx.block_size),
      prev_row := upr, prev_block_row_base := ro + n * ctx.block_size,
      prev_block_row_ptr := RowPtr.row (ro + n * ctx.block_size) }
    (ro + n * ctx.block_size) hbs (by rw [e3]; exact hplane) rfl (Nat.le_add_right _ _) hslice
    (by rw [e4]; exact hpr)
  simp only at P2 P3 P4 P5 P6
  obtain ⟨S1, S2, S3, S4, S5⟩ := vertical_store_row_checked_eq ctx ro _ _ P6
    (by rw [P3, e3]; omega) (by rw [P5]; exact Nat.le_add_right _ _)
    (by rw [P5]; exact hslice) (by rw [P4, e4]; exact hpr)
  refine ⟨?_, ?_, ?_, ?_, ?_⟩
  · simp only []
    rw [P1, Option.some_bind, S1]
  · show (vertical_store_row ctx _).block_out_ptr = (n + 1) * (ctx.block_size * ctx.block_size)
    rw [S3, P2, Nat.succ_mul]
  · show (vertical_store_row ctx _).prev_block_row_base = ro + (n + 1) * ctx.block_size
    rw [S4, P5, Nat.succ_mul]
    omega
  · show (vertical_store_row ctx _).block_out.length = bo.length
    rw [S2, P3, e3]
  · show (vertical_store_row ctx _).prev_row.length = pr.length
    rw [S5, P4, e4]

/-- Every entry of the table of `init_permutation` is an index into a block. -/
theorem init_permutation_getD_lt (ctx : DecodeContext)
    (harea : ctx.block_area = ctx.block_size * ctx.block_size)
    (hsamples : ctx.block_samples = ctx.block_area * ctx.channel_count)
    (k i : Nat) (hk : k < 4) (hi : i < ctx.block_samples) :
    k * ctx.block_samples + i < (init_permutation ctx).length
    ∧ (init_permutation ctx).getD (k * ctx.block_samples + i) 0 < ctx.block_samples := by
  obtain ⟨hlen, hperm⟩ := init_permutation_segments ctx harea hsamples
  have p := hperm k hk
  have hl : (segment ctx (init_permutation ctx) k).length = ctx.block_samples := by
    rw [p.length_eq, List.length_range]
  refine ⟨?_, ?_⟩
  · rw [hlen, Nat.mul_comm ctx.block_samples 4]
    exact radix_lt hi hk
  · rw [← segment_getD ctx _ k i hi, List.getD_eq_getElem _ 0 (by rw [hl]; exact hi)]
    exact List.mem_range.1 (p.subset (List.getElem_mem _))

/-- The function `transform` is in range: with the table of `init_permutation`, buffers of
`block_samples` bytes, the block's row-state and column-state slices inside their buffers,
and a colour operator other than the first only with at least three channels, the checked
transform reports no access out of range and returns what `transform` returns. -/
theorem transform_checked_eq (transformer_code : Nat) (ctx : DecodeContext)
    (arrange_buf : Bytes) (prev_block_row prev_block_col : Nat) (b : Buffers)
    (hbs : 0 < ctx.block_size)
    (harea : ctx.block_area = ctx.block_size * ctx.block_size)
    (hsamples : ctx.block_samples = ctx.block_area * ctx.channel_count)
    (hstride : ctx.block_stride = ctx.block_size * ctx.channel_count)
    (ha : arrange_buf.length = ctx.block_samples)
    (hbo : b.block_out.length = ctx.block_samples)
    (hpr : prev_block_row + ctx.block_stride ≤ b.prev_row.length)
    (hpc : prev_block_col + ctx.block_stride ≤ b.prev_col.length)
    (hcol : transformer_code &&& 0x0F = 0 ∨ 3 ≤ ctx.channel_count) :
    transform_checked transformer_code ctx (init_permutation ctx) arrange_buf prev_block_row
        prev_block_col b
      = some (transform transformer_code ctx (init_permutation ctx) arrange_buf prev_block_row
          prev_block_col b) := by
  have hsm : ctx.block_stride * ctx.block_size = ctx.block_samples := by
    rw [hstride, hsamples, harea]
    ring
  have hpl : ctx.channel_count * (ctx.block_size * ctx.block_size) = ctx.block_samples := by
    rw [hsamples, harea, Nat.mul_comm]
  have hS := transform_scatter_checked_eq ctx (init_permutation ctx)
    ((transformer_code &&& 0x30) >>> 4) arrange_buf b.block_out
    (fun i hi => by
      rw [hbo]
      exact init_permutation_getD_lt ctx harea hsamples _ i (code_perm_lt transformer_code) hi)
    (by rw [ha])
  have hSlen := transform_scatter_length ctx (init_permutation ctx)
    ((transformer_code &&& 0x30) >>> 4) arrange_buf b.block_out
  have hC := color_ops_call_checked_eq (transformer_code &&& 0x0F)
    (transform_scatter ctx (init_permutation ctx) ((transformer_code &&& 0x30) >>> 4)
      arrange_buf b.block_out) ctx (code_color_lt transformer_code)
    (by
      rcases hcol with h | h
      · exact Or.inl h
      · refine Or.inr ?_
        rw [hSlen, hbo, hsamples, Nat.mul_comm]
        exact Nat.mul_le_mul_left _ h)
  have hClen := color_ops_length ctx (transformer_code &&& 0x0F)
    (transform_scatter ctx (init_permutation ctx) ((transformer_code &&& 0x30) >>> 4)
      arrange_buf b.block_out)
  have hH : (if ((transformer_code &&& 0xC0) >>> 6) &&& 0x01 ≠ 0 then
        transform_horizontal_accumulate_checked ctx
          ((color_ops.getD (transformer_code &&& 0x0F) color_op_0000)
            (transform_scatter ctx (init_permutation ctx) ((transformer_code &&& 0x30) >>> 4)
              arrange_buf b.block_out) ctx) b.prev_col prev_block_col
      else
        transform_horizontal_store_checked ctx
          ((color_ops.getD (transformer_code &&& 0x0F) color_op_0000)
            (transform_scatter ctx (init_permutation ctx) ((transformer_code &&& 0x30) >>> 4)
              arrange_buf b.block_out) ctx) b.prev_col prev_block_col)
      = some (transform_step5 transformer_code ctx (init_permutation ctx) arrange_buf
          prev_block_col b) := by
    unfold transform_step5 transform_step4
    split
    · exact transform_horizontal_accumulate_checked_eq ctx _ _ _
        (by rw [hClen, hSlen, hbo, hsm]) hpc
    · exact transform_horizontal_store_checked_eq ctx _ _ _ hbs
        (by rw [hClen, hSlen, hbo, hsm]) hpc
  have hV := transform_vertical_checked_eq ctx
    (transform_step5 transformer_code ctx (init_permutation ctx) arrange_buf prev_block_col
      b).block_out b.prev_row prev_block_row hbs hstride
    (by rw [transform_step5_length, hbo, hpl]) hpr
  by_cases hz : transformer_code = 0
  · unfold transform_checked transform
    simp only [hS, Option.some_bind, if_pos hz]
  · rw [transform_nonzero _ _ _ _ _ _ _ hz]
    unfold transform_checked
    simp only [hS, Option.some_bind, if_neg hz, hC, hH, hV]

theorem loopM_range_map_eq {α γ : Type} (P : Nat → α → Prop) (body : α → Nat → Option α)
    (f : α → Nat → α) (g : α → γ) (n : Nat) (a : α) (h0 : P 0 a)
    (hstep : ∀ i a, i < n → P i a → body a i = some (f a i) ∧ P (i + 1) (f a i)) :
    (loopM body (List.range n) a).map g = some (g ((List.range n).foldl f a)) := by
  rw [(loopM_range_eq P body f n a h0 hstep).1]
  rfl

/-- The innermost loop of the frame assembly (one line of one plane of the block). -/
theorem assemble_line_checked_eq (ctx : DecodeContext) (y x c yy : Nat)
    (block_out : Bytes) (st : Bytes × Nat)
    (hbo : st.2 + ctx.block_size ≤ block_out.length)
    (hout : ∀ xx, xx < ctx.block_size →
      ((y * ctx.block_size + yy) * ctx.width_blocks * ctx.block_size
        + (x * ctx.block_size + xx)) * ctx.channel_count + c < st.1.length) :
    loopM (fun (st : Bytes × Nat) xx =>
        (rd block_out st.2).bind fun v =>
        (wr st.1
          (((y * ctx.block_size + yy) * ctx.width_blocks * ctx.block_size
            + (x * ctx.block_size + xx)) * ctx.channel_count + c) v).bind fun o =>
        some (o, st.2 + 1)) (List.range ctx.block_size) st
      = some ((List.range ctx.block_size).foldl (fun (st : Bytes × Nat) xx =>
          let sum_y := y * ctx.block_size + yy
          let sum_x := x * ctx.block_size + xx
          let pos := sum_y * ctx.width_blocks * ctx.block_size + sum_x
          (st.1.set (pos * ctx.channel_count + c) (block_out.getD st.2 0), st.2 + 1)) st)
    ∧ ((List.range ctx.block_size).foldl (fun (st : Bytes × Nat) xx =>
          let sum_y := y * ctx.block_size + yy
          let sum_x := x * ctx.block_size + xx
          let pos := sum_y * ctx.width_blocks * ctx.block_size + sum_x
          (st.1.set (pos * ctx.channel_count + c) (block_out.getD st.2 0), st.2 + 1)) st).2
        = st.2 + ctx.block_size
    ∧ ((List.range ctx.block_size).foldl (fun (st : Bytes × Nat) xx =>
          let sum_y := y * ctx.block_size + yy
          let sum_x := x * ctx.block_size + xx
          let pos := sum_y * ctx.width_blocks * ctx.block_size + sum_x
          (st.1.set (pos * ctx.channel_count + c) (block_out.getD st.2 0), st.2 + 1)) st).1.length
        = st.1.length := by
  refine loopM_range_eq
    (fun n (u : Bytes × Nat) => u.2 = st.2 + n ∧ u.1.length = st.1.length) _ _ _ _
    ⟨rfl, rfl⟩ ?_
  intro xx u hxx ⟨h1, h2⟩
  refine ⟨?_, by simp only [h1]; omega, by simp only [List.length_set]; exact h2⟩
  rw [rd_eq (by omega), Option.some_bind, wr_eq _ (by rw [h2]; exact hout xx hxx),
    Option.some_bind]

/-- The middle loop of the frame assembly (one plane of the block). -/
theorem assemble_plane_checked_eq (ctx : DecodeContext) (y x c : Nat)
    (block_out : Bytes) (st : Bytes × Nat)
    (hbo : st.2 + ctx.block_size * ctx.block_size ≤ block_out.length)
    (hout : ∀ yy xx, yy < ctx.block_size → xx < ctx.block_size →
      ((y * ctx.block_size + yy) * ctx.width_blocks * ctx.block_size
        + (x * ctx.block_size + xx)) * ctx.channel_count + c < st.1.length) :
    loopM (fun st yy =>
        loopM (fun (st : Bytes × Nat) xx =>
          (rd block_out st.2).bind fun v =>
          (wr st.1
            (((y * ctx.block_size + yy) * ctx.width_blocks * ctx.block_size
              + (x * ctx.block_size + xx)) * ctx.channel_count + c) v).bind fun o =>
          some (o, st.2 + 1)) (List.range ctx.block_size) st) (List.range ctx.block_size) st
      = some ((List.range ctx.block_size).foldl (fun st yy =>
          (List.range ctx.block_size).foldl (fun (st : Bytes × Nat) xx =>
            let sum_y := y * ctx.block_size + yy
            let sum_x := x * ctx.block_size + xx
            let pos := sum_y * ctx.width_blocks * ctx.block_size + sum_x
            (st.1.set (pos * ctx.channel_count + c) (block_out.getD st.2 0), st.2 + 1)) st) st)
    ∧ ((List.range ctx.block_size).foldl (fun st yy =>
          (List.range ctx.block_size).foldl (fun (st : Bytes × Nat) xx =>
            let sum_y := y * ctx.block_size + yy
            let sum_x := x * ctx.block_size + xx
            let pos := sum_y * ctx.width_blocks * ctx.block_size + sum_x
            (st.1.set (pos * ctx.channel_count + c) (block_out.getD st.2 0), st.2 + 1)) st)
          st).2 = st.2 + ctx.block_size * ctx.block_size
    ∧ ((List.range ctx.block_size).foldl (fun st yy =>
          (List.range ctx.block_size).foldl (fun (st : Bytes × Nat) xx =>
            let sum_y := y * ctx.block_size + yy
            let sum_x := x * ctx.block_size + xx
            let pos := sum_y * ctx.width_blocks * ctx.block_size + sum_x
            (st.1.set (pos * ctx.channel_count + c) (block_out.getD st.2 0), st.2 + 1)) st)
          st).1.length = st.1.length := by
  have key := loopM_range_eq
    (fun n (u : Bytes × Nat) => u.2 = st.2 + n * ctx.block_size ∧ u.1.length = st.1.length)
    (fun st yy =>
        loopM (fun (st : Bytes × Nat) xx =>
          (rd block_out st.2).bind fun v =>
          (wr st.1
            (((y * ctx.block_size + yy) * ctx.width_blocks * ctx.block_size
              + (x * ctx.block_size + xx)) * ctx.channel_count + c) v).bind fun o =>
          some (o, st.2 + 1)) (List.range ctx.block_size) st)
    (fun st yy =>
          (List.range ctx.block_size).foldl (fun (st : Bytes × Nat) xx =>
            let sum_y := y * ctx.block_size + yy
            let sum_x := x * ctx.block_size + xx
            let pos := sum_y * ctx.width_blocks * ctx.block_size + sum_x
            (st.1.set (pos * ctx.channel_count + c) (block_out.getD st.2 0), st.2 + 1)) st)
    ctx.block_size st ⟨by simp, rfl⟩
    (by
      intro yy u hyy ⟨h1, h2⟩
      have hline : st.2 + yy * ctx.block_size + ctx.block_size
          ≤ st.2 + ctx.block_size * ctx.block_size := by
        have := Nat.mul_le_mul_right ctx.block_size (Nat.succ_le_of_lt hyy)
        rw [Nat.succ_mul] at this
        omega
      obtain ⟨L1, L2, L3⟩ := assemble_line_checked_eq ctx y x c yy block_out u
        (by rw [h1]; omega) (fun xx hxx => by rw [h2]; exact hout yy xx hyy hxx)
      refine ⟨L1, ?_, ?_⟩
      · simp only []
        rw [L2, h1, Nat.succ_mul]
        omega
      · simp only []
        rw [L3, h2])
  exact ⟨key.1, by rw [key.2.1], key.2.2⟩

/-- The frame assembly is in range when the block's planes lie inside `block_out` and every
pixel of the block inside the canvas. -/
theorem assemble_checked_eq (ctx : DecodeContext) (y x : Nat) (block_out output : Bytes)
    (hbo : ctx.channel_count * (ctx.block_size * ctx.block_size) ≤ block_out.length)
    (hout : ∀ c yy xx, c < ctx.channel_count → yy < ctx.block_size → xx < ctx.block_size →
      ((y * ctx.block_size + yy) * ctx.width_blocks * ctx.block_size
        + (x * ctx.block_size + xx)) * ctx.channel_count + c < output.length) :
    assemble_checked ctx y x block_out output = some (assemble ctx y x block_out output) := by
  unfold assemble_checked assemble
  refine loopM_range_map_eq
    (fun n (u : Bytes × Nat) => u.2 = n * (ctx.block_size * ctx.block_size)
      ∧ u.1.length = output.length) _ _ _ _ _ ⟨by simp, rfl⟩ ?_
  intro c u hc ⟨h1, h2⟩
  have hplane : c * (ctx.block_size * ctx.block_size) + ctx.block_size * ctx.block_size
      ≤ ctx.channel_count * (ctx.block_size * ctx.block_size) := by
    have := Nat.mul_le_mul_right (ctx.block_size * ctx.block_size) (Nat.succ_le_of_lt hc)
    rw [Nat.succ_mul] at this
    exact this
  obtain ⟨L1, L2, L3⟩ := assemble_plane_checked_eq ctx y x c block_out u
    (by rw [h1]; omega) (fun yy xx hyy hxx => by rw [h2]; exact hout c yy xx hc hyy hxx)
  refine ⟨L1, ?_, ?_⟩
  · simp only []
    rw [L2, h1, Nat.succ_mul]
  · simp only []
    rw [L3, h2]

/-- The copy of one row by `crop`. -/
theorem crop_row_checked_eq (input : Bytes) (n : Nat) (st : Bytes × Nat × Nat)
    (hin : st.2.2 + n ≤ input.length) (hout : st.2.1 + n ≤ st.1.length) :
    loopM (fun (st : Bytes × Nat × Nat) (_x : Nat) =>
        (rd input st.2.2).bind fun v =>
        (wr st.1 st.2.1 v).bind fun o =>
        some (o, st.2.1 + 1, st.2.2 + 1)) (List.range n) st
      = some ((List.range n).foldl (fun (st : Bytes × Nat × Nat) (_x : Nat) =>
          (st.1.set st.2.1 (input.getD st.2.2 0), st.2.1 + 1, st.2.2 + 1)) st)
    ∧ ((List.range n).foldl (fun (st : Bytes × Nat × Nat) (_x : Nat) =>
          (st.1.set st.2.1 (input.getD st.2.2 0), st.2.1 + 1, st.2.2 + 1)) st).1.length
        = st.1.length := by
  have key := loopM_range_eq
    (fun k (u : Bytes × Nat × Nat) => u.2.1 = st.2.1 + k ∧ u.2.2 = st.2.2 + k
      ∧ u.1.length = st.1.length)
    (fun (st : Bytes × Nat × Nat) (_x : Nat) =>
        (rd input st.2.2).bind fun v =>
        (wr st.1 st.2.1 v).bind fun o =>
        some (o, st.2.1 + 1, st.2.2 + 1))
    (fun (st : Bytes × Nat × Nat) (_x : Nat) =>
          (st.1.set st.2.1 (input.getD st.2.2 0), st.2.1 + 1, st.2.2 + 1))
    n st ⟨rfl, rfl, rfl⟩
    (by
      intro k u hk ⟨h1, h2, h3⟩
      refine ⟨?_, by simp only [h1]; omega, by simp only [h2]; omega,
        by simp only [List.length_set]; exact h3⟩
      simp only []
      rw [rd_eq (by omega), Option.some_bind, wr_eq _ (by omega), Option.some_bind])
  exact ⟨key.1, key.2.2.2⟩

/-- The function `crop` is in range when every image row lies inside the canvas. -/
theorem crop_checked_eq (input : Bytes) (ctx : DecodeContext) (header : EriHeader)
    (hin : ∀ y, y < header.height →
      y * ctx.width_blocks * ctx.block_stride + header.width * ctx.channel_count
        ≤ input.length) :
    crop_checked input ctx header = some (crop input ctx header) := by
  unfold crop_checked crop
  refine (loopM_range_eq
    (fun _ (o : Bytes) => o.length = header.width * header.height * ctx.channel_count)
    _ _ _ _ (bstr_length _) ?_).1
  intro y o hy ho
  have hrow : y * header.width * ctx.channel_count + header.width * ctx.channel_count
      ≤ o.length := by
    have := Nat.mul_le_mul_right (header.width * ctx.channel_count) (Nat.succ_le_of_lt hy)
    rw [Nat.succ_mul] at this
    rw [ho, Nat.mul_assoc y, Nat.mul_comm header.width header.height, Nat.mul_assoc]
    exact this
  obtain ⟨L1, L2⟩ := crop_row_checked_eq input (header.width * ctx.channel_count)
    (o, y * header.width * ctx.channel_count, y * ctx.width_blocks * ctx.block_stride)
    (hin y hy) hrow
  refine ⟨?_, ?_⟩
  · simp only []
    rw [L1]
    rfl
  · simp only []
    rw [L2]
    exact ho

/-! ## Bounds: the decoder -/

theorem transform_horizontal_accumulate_prev_col_length (ctx : DecodeContext)
    (block_out prev_col : Bytes) (prev_block_col : Nat) :
    (transform_horizontal_accumulate ctx block_out prev_col prev_block_col).prev_col.length
      = prev_col.length := by
  unfold transform_horizontal_accumulate
  apply foldl_inv (fun (st : HState) => st.prev_col.length = prev_col.length) _ _ _ rfl
  intro st i h
  show (st.prev_col.set _ _).length = prev_col.length
  rw [List.length_set, h]

theorem transform_horizontal_store_prev_col_length (ctx : DecodeContext)
    (block_out prev_col : Bytes) (prev_block_col : Nat) :
    (transform_horizontal_store ctx block_out prev_col prev_block_col).prev_col.length
      = prev_col.length := by
  unfold transform_horizontal_store
  apply foldl_inv (fun (st : HState) => st.prev_col.length = prev_col.length) _ _ _ rfl
  intro st i h
  show (st.prev_col.set _ _).length = prev_col.length
  rw [List.length_set, h]

theorem transform_prev_row_length (transformer_code : Nat) (ctx : DecodeContext)
    (permutation : List Nat) (arrange_buf : Bytes) (prev_block_row prev_block_col : Nat)
    (b : Buffers) :
    (transform transformer_code ctx permutation arrange_buf prev_block_row prev_block_col
        b).prev_row.length = b.prev_row.length := by
  unfold transform
  simp only []
  split_ifs with h1 h2
  · rfl
  · simp only [transform_vertical_prev_row_length]
  · simp only [transform_vertical_prev_row_length]

theorem transform_prev_col_length (transformer_code : Nat) (ctx : DecodeContext)
    (permutation : List Nat) (arrange_buf : Bytes) (prev_block_row prev_block_col : Nat)
    (b : Buffers) :
    (transform transformer_code ctx permutation arrange_buf prev_block_row prev_block_col
        b).prev_col.length = b.prev_col.length := by
  unfold transform
  simp only []
  split_ifs with h1 h2
  · rfl
  · simp only [transform_horizontal_accumulate_prev_col_length]
  · simp only [transform_horizontal_store_prev_col_length]

/-- With fewer than three channels the transformer code is `0b11000000` or `0`, so its
colour operator is the first entry of the table. -/
theorem get_transformer_code_color {σ τ : Type} {D : Decoder σ τ} {K : EriImage}
    {header : EriHeader} {ctx : DecodeContext} {codes : List Nat} {f f1 : Front σ τ}
    {code : Nat} (h : get_transformer_code D K header ctx codes f = .ok (code, f1))
    (hcc : ctx.channel_count < 3) : (code = 0xC0 ∨ code = 0x00) ∧ code &&& 0x0F = 0 := by
  unfold get_transformer_code at h
  rw [if_pos hcc] at h
  simp only [] at h
  split at h
  · cases h
    exact ⟨Or.inl rfl, by decide⟩
  · cases h
    exact ⟨Or.inr rfl, by decide⟩

theorem for_list_checked_eq {ε α β : Type} (P : α → Prop)
    (body : α → β → Option (Except ε α)) (body0 : α → β → Except ε α) (l : List β) :
    ∀ a, P a →
      (∀ b ∈ l, ∀ a, P a → body a b = some (body0 a b) ∧ ∀ a1, body0 a b = .ok a1 → P a1) →
      for_list_checked body l a = some (for_list body0 l a)
      ∧ ∀ c, for_list body0 l a = .ok c → P c := by
  induction l with
  | nil =>
    intro a h0 _
    refine ⟨rfl, ?_⟩
    intro c hc
    simp only [for_list] at hc
    cases hc
    exact h0
  | cons b l ih =>
    intro a h0 hstep
    obtain ⟨h1, h2⟩ := hstep b (by simp) a h0
    simp only [for_list_checked, for_list, h1]
    cases hb : body0 a b with
    | error e => exact ⟨rfl, fun c hc => by cases hc⟩
    | ok a1 => exact ih a1 (h2 a1 hb) (fun b1 hb1 => hstep b1 (by simp [hb1]))

/-- One block of the decoder is in range, and keeps the sizes of the buffers. -/
theorem decode_block_checked_eq {σ τ : Type} (D : Decoder σ τ) (K : EriImage)
    (header : EriHeader) (ctx : DecodeContext) (codes : List Nat) (y x : Nat)
    (st : LoopState σ τ) (hbs : 0 < ctx.block_size)
    (harea : ctx.block_area = ctx.block_size * ctx.block_size)
    (hsamples : ctx.block_samples = ctx.block_area * ctx.channel_count)
    (hstride : ctx.block_stride = ctx.block_size * ctx.channel_count)
    (hy : y < ctx.height_blocks) (hx : x < ctx.width_blocks) (hinv : LenInv ctx st) :
    decode_block_checked D K header ctx (init_permutation ctx) codes y st x
      = some (decode_block D K header ctx (init_permutation ctx) codes y st x)
    ∧ ∀ st1, decode_block D K header ctx (init_permutation ctx) codes y st x = .ok st1 →
        LenInv ctx st1 := by
  obtain ⟨I1, I2, I3, I4, I5⟩ := hinv
  have hxs : x * ctx.block_stride + ctx.block_stride ≤ ctx.width_blocks * ctx.block_stride := by
    have := Nat.mul_le_mul_right ctx.block_stride (Nat.succ_le_of_lt hx)
    rw [Nat.succ_mul] at this
    exact this
  have hys : y * ctx.block_stride + ctx.block_stride ≤ ctx.height_blocks * ctx.block_stride := by
    have := Nat.mul_le_mul_right ctx.block_stride (Nat.succ_le_of_lt hy)
    rw [Nat.succ_mul] at this
    exact this
  have hpl : ctx.channel_count * (ctx.block_size * ctx.block_size) = ctx.block_samples := by
    rw [hsamples, harea, Nat.mul_comm]
  unfold decode_block_checked decode_block
  cases hg : get_transformer_code D K header ctx codes st.front with
  | error e => exact ⟨rfl, fun st1 h => by cases h⟩
  | ok r =>
    obtain ⟨code, front⟩ := r
    have hcol : code &&& 0x0F = 0 ∨ 3 ≤ ctx.channel_count := by
      by_cases hlt : ctx.channel_count < 3
      · exact Or.inl (get_transformer_code_color hg hlt).2
      · exact Or.inr (by omega)
    have hT := transform_checked_eq code ctx
      (store_bytes st.arrange_buf.length (D.decode st.arrange_buf.length front.dec).1)
      (x * ctx.block_stride) (y * ctx.block_stride) st.buffers hbs harea hsamples hstride
      (by rw [store_bytes_length, I1]) I2 (by rw [I3]; exact hxs) (by rw [I4]; exact hys) hcol
    have hA := assemble_checked_eq ctx y x
      (transform code ctx (init_permutation ctx)
        (store_bytes st.arrange_buf.length (D.decode st.arrange_buf.length front.dec).1)
        (x * ctx.block_stride) (y * ctx.block_stride) st.buffers).block_out st.output
      (by rw [transform_block_out_length, I2, hpl])
      (by
        intro c yy xx hc hyy hxx
        have h1 := canvas_lt (radix_lt hyy hy) (radix_lt hxx hx) hc
        rw [I5, hsamples, harea]
        have e : ctx.width_blocks * ctx.height_blocks
            * (ctx.block_size * ctx.block_size * ctx.channel_count)
            = ctx.height_blocks * ctx.block_size * (ctx.width_blocks * ctx.block_size)
              * ctx.channel_count := by ring
        rw [e, Nat.mul_assoc (y * ctx.block_size + yy)]
        exact h1)
    simp only [hT, Option.some_bind, hA]
    refine ⟨trivial, ?_⟩
    intro st1 h
    cases h
    exact ⟨by simp only [store_bytes_length, I1],
      by simp only [transform_block_out_length, I2],
      by simp only [transform_prev_row_length, I3],
      by simp only [transform_prev_col_length, I4],
      by simp only [assemble_length, I5]⟩

/-- With buffers of the exact sizes, the accesses of `transform`, of the frame assembly and
of `crop` are in range: for every front-end, header and stream, the decoder that checks each
of their indices (into `permutation`, `arrange_buf`, `block_out`, the block's
`block_stride`-byte slices of `prev_row` and `prev_col`, the canvas and the output) reports
none out of range and returns exactly what `decode_lossless_pixel_data` returns or throws.
A colour operator other than the first entry of the table (the only ones touching planes 1
and 2) is applied only with at least three channels: with fewer, the transformer code has
colour operator 0. -/
theorem decode_checked_eq {σ τ : Type} (D : Decoder σ τ) (K : EriImage)
    (header : EriHeader) (s : σ) :
    decode_lossless_pixel_data_checked D K header s
      = some (decode_lossless_pixel_data D K header s)
    ∧ ∀ (ctx : DecodeContext) (codes : List Nat) (f f1 : Front σ τ) (code : Nat),
        get_transformer_code D K header ctx codes f = .ok (code, f1) →
        ctx.channel_count < 3 → code &&& 0x0F = 0 := by
  refine ⟨?_, fun ctx codes f f1 code h hcc => (get_transformer_code_color h hcc).2⟩
  unfold decode_lossless_pixel_data_checked decode_lossless_pixel_data
  cases hsu : decode_setup D K header s with
  | error e => rfl
  | ok su =>
    obtain ⟨cc, s2, t1, hcc, hctx, _, hperm, hinit⟩ := decode_setup_ok hsu
    have hbs : 0 < su.ctx.block_size := by
      rw [hctx]
      exact make_ctx_block_size_pos header (read_fields D s).1 cc
    have harea : su.ctx.block_area = su.ctx.block_size * su.ctx.block_size := by
      rw [hctx]; rfl
    have hsamples : su.ctx.block_samples = su.ctx.block_area * su.ctx.channel_count := by
      rw [hctx]; rfl
    have hstride : su.ctx.block_stride = su.ctx.block_size * su.ctx.channel_count := by
      rw [hctx]; rfl
    have hwb : header.width ≤ su.ctx.width_blocks * su.ctx.block_size := by
      rw [hctx]
      exact ceil_blocks_cover header.width _
        (make_ctx_block_size_pos header (read_fields D s).1 cc)
    have hhb : header.height ≤ su.ctx.height_blocks * su.ctx.block_size := by
      rw [hctx]
      exact ceil_blocks_cover header.height _
        (make_ctx_block_size_pos header (read_fields D s).1 cc)
    have hinv0 : LenInv su.ctx su.init := by
      rw [hinit]
      exact ⟨bstr_length _, bstr_length _, bstr_length _, bstr_length _, bstr_length _⟩
    obtain ⟨hrows, hlast⟩ := for_list_checked_eq (LenInv su.ctx)
      (decode_block_row_checked D K header su.ctx su.permutation su.transformer_codes)
      (decode_block_row D K header su.ctx su.permutation su.transformer_codes)
      (List.range su.ctx.height_blocks) su.init hinv0
      (by
        intro y hy a ha
        unfold decode_block_row_checked decode_block_row
        refine for_list_checked_eq (LenInv su.ctx) _ _ (List.range su.ctx.width_blocks) a ha ?_
        intro x hx a1 ha1
        rw [hperm]
        exact decode_block_checked_eq D K header su.ctx su.transformer_codes y x a1 hbs harea
          hsamples hstride (List.mem_range.1 hy) (List.mem_range.1 hx) ha1)
    simp only [hrows]
    cases hF : for_list
        (decode_block_row D K header su.ctx su.permutation su.transformer_codes)
        (List.range su.ctx.height_blocks) su.init with
    | error e => rfl
    | ok st =>
      obtain ⟨_, _, _, _, I5⟩ := hlast st hF
      have hcrop := crop_checked_eq st.output su.ctx header (by
        intro y hy
        rw [I5, hsamples, harea, hstride]
        have h1 : header.width * su.ctx.channel_count
            ≤ su.ctx.width_blocks * su.ctx.block_size * su.ctx.channel_count :=
          Nat.mul_le_mul_right _ hwb
        have h2 : (y + 1) * (su.ctx.width_blocks * su.ctx.block_size * su.ctx.channel_count)
            ≤ su.ctx.height_blocks * su.ctx.block_size
              * (su.ctx.width_blocks * su.ctx.block_size * su.ctx.channel_count) :=
          Nat.mul_le_mul_right _ (by omega)
        have e1 : y * su.ctx.width_blocks * (su.ctx.block_size * su.ctx.channel_count)
            = y * (su.ctx.width_blocks * su.ctx.block_size * su.ctx.channel_count) := by ring
        have e2 : su.ctx.width_blocks * su.ctx.height_blocks
              * (su.ctx.block_size * su.ctx.block_size * su.ctx.channel_count)
            = su.ctx.height_blocks * su.ctx.block_size
              * (su.ctx.width_blocks * su.ctx.block_size * su.ctx.channel_count) := by ring
        rw [e1, e2]
        rw [Nat.succ_mul] at h2
        omega)
      simp only [hcrop, Option.map_some']

/-- Example: in the sample grayscale decode the accesses of `transform`, of the frame
assembly and of `crop` are in range, and it returns `[1, 3, 8, 4, 10, 22]`; its transformer
code `0b11000000` has colour operator 0.  Code `0b11000101` (a colour operator touching
plane 1) on a one-channel block is out of range. -/
theorem decode_checked_eq_example :
    decode_lossless_pixel_data_checked (scripted false) sampleImage
        (grayHeader Architecture.RunLengthGamma) grayStream
      = some (decode_lossless_pixel_data (scripted false) sampleImage
          (grayHeader Architecture.RunLengthGamma) grayStream)
    ∧ (0xC0 : Nat) &&& 0x0F = 0
    ∧ decode_lossless_pixel_data (scripted false) sampleImage
        (grayHeader Architecture.RunLengthGamma) grayStream
      = .ok ([1, 3, 8, 4, 10, 22], grayFinal)
    ∧ transform_checked 0xC5 grayCtx (init_permutation grayCtx) [1, 2, 3, 4] 0 0
        { block_out := [0, 0, 0, 0], prev_row := [0, 0, 0, 0], prev_col := [0, 0] } = none
    ∧ transform_checked 0xC0 grayCtx (init_permutation grayCtx) [1, 2, 3, 4] 0 0
        { block_out := [0, 0, 0, 0], prev_row := [0, 0, 0, 0], prev_col := [0, 0] }
      = some { block_out := [1, 3, 4, 10], prev_row := [4, 10, 0, 0], prev_col := [3, 7] } :=
  ⟨(decode_checked_eq (scripted false) sampleImage
      (grayHeader Architecture.RunLengthGamma) grayStream).1,
    (decode_checked_eq (scripted false) sampleImage
      (grayHeader Architecture.RunLengthGamma) grayStream).2 grayCtx []
      { dec := script [] [], tree := (), codes_ptr := 0 }
      { dec := { bits := [], blocks := [], codes := [], log := [Call.reset] }, tree := (),
        codes_ptr := 0 } 0xC0 rfl (by decide),
    rfl, by decide, by decide⟩

/-! ## Machine arithmetic: where the exact sizes are the code's, and where they are not -/

theorem size_t_of_lt {n : Nat} (h : n < 2 ^ 64) : size_t n = n := Nat.mod_eq_of_lt h

/-- Where the code's arithmetic is exact: for `blocking_degree <= 30`, fewer than 16
channels and a width and height that do not carry `width + block_size - 1` past `2 ^ 64`,
the context the code computes is the context of `make_ctx`. -/
theorem make_ctx_machine_eq (header : EriHeader) (fields : Nat × Nat × Nat × Nat)
    (channel_count : Nat) (hbd : header.blocking_degree ≤ 30) (hcc : channel_count < 16)
    (hw : header.width + 2 ^ header.blocking_degree ≤ 2 ^ 64)
    (hh : header.height + 2 ^ header.blocking_degree ≤ 2 ^ 64) :
    make_ctx_machine header fields channel_count
      = some (make_ctx header fields channel_count) := by
  have hpos : 0 < 2 ^ header.blocking_degree := Nat.pos_pow_of_pos _ (by decide)
  have hb : 2 ^ header.blocking_degree ≤ 2 ^ 30 := Nat.pow_le_pow_right (by decide) hbd
  have harea : 2 ^ header.blocking_degree * 2 ^ header.blocking_degree ≤ 2 ^ 30 * 2 ^ 30 :=
    Nat.mul_le_mul hb hb
  have e1 : size_t (2 ^ header.blocking_degree * 2 ^ header.blocking_degree)
      = 2 ^ header.blocking_degree * 2 ^ header.blocking_degree :=
    size_t_of_lt (lt_of_le_of_lt harea (by decide))
  have e2 : size_t (2 ^ header.blocking_degree * 2 ^ header.blocking_degree * channel_count)
      = 2 ^ header.blocking_degree * 2 ^ header.blocking_degree * channel_count := by
    apply size_t_of_lt
    exact lt_of_le_of_lt (Nat.mul_le_mul harea (Nat.le_of_lt_succ hcc)) (by decide)
  have e3 : size_t (2 ^ header.blocking_degree * channel_count)
      = 2 ^ header.blocking_degree * channel_count := by
    apply size_t_of_lt
    exact lt_of_le_of_lt (Nat.mul_le_mul hb (Nat.le_of_lt_succ hcc)) (by decide)
  have e4 : size_t (header.width + 2 ^ header.blocking_degree - 1)
      = header.width + 2 ^ header.blocking_degree - 1 := size_t_of_lt (by omega)
  have e5 : size_t (header.height + 2 ^ header.blocking_degree - 1)
      = header.height + 2 ^ header.blocking_degree - 1 := size_t_of_lt (by omega)
  unfold make_ctx_machine shl_one_int make_ctx
  rw [if_pos (by omega)]
  simp only [e1, e2, e3, e4, e5, Nat.one_shiftLeft]

/-- Where the code's allocations are exact: when the canvas and the row and column state
have fewer than `2 ^ 64` bytes, the buffers the code allocates are those of
`initial_state`. -/
theorem initial_state_machine_eq {σ τ : Type} (ctx : DecodeContext) (s : σ) (t : τ)
    (h1 : ctx.width_blocks * ctx.height_blocks * ctx.block_samples < 2 ^ 64)
    (h2 : ctx.height_blocks * ctx.block_stride < 2 ^ 64)
    (h3 : ctx.width_blocks * ctx.block_stride < 2 ^ 64) :
    initial_state_machine ctx s t = initial_state ctx s t := by
  unfold initial_state_machine initial_state
  rw [size_t_of_lt h1, size_t_of_lt h2, size_t_of_lt h3]

/-- C11: the block geometry as the code computes it, on a header the validation accepts:
`blocking_degree = 31`, width `2 ^ 31 + 1`, height 1, fields `8, 0, 0, 8`.  The shift
`1 << 31` is done in a 32-bit `int`, so `block_size` is `2 ^ 64 - 2 ^ 31`, not `2 ^ 31`;
`width + block_size - 1` wraps to 0, so `width_blocks` is 0, not `ceil (width / block_size)`,
and `width_blocks * block_size >= width` fails.  With exact arithmetic (`make_ctx`) the same
header gives `block_size = 2 ^ 31` and `width_blocks = 2`.  For `blocking_degree = 32` the
shift is undefined. -/
theorem make_ctx_machine_overflow :
    (make_ctx_machine wideHeader (8, 0, 0, 8) 1).map (fun ctx => validate_ctx ctx wideHeader)
      = some (.ok ())
    ∧ (make_ctx_machine wideHeader (8, 0, 0, 8) 1).map
        (fun ctx => (ctx.block_size, ctx.width_blocks, ctx.height_blocks))
      = some (2 ^ 64 - 2 ^ 31, 0, 1)
    ∧ (make_ctx_machine wideHeader (8, 0, 0, 8) 1).map
        (fun ctx => decide (ctx.block_size = 2 ^ wideHeader.blocking_degree)) = some false
    ∧ (make_ctx_machine wideHeader (8, 0, 0, 8) 1).map
        (fun ctx => decide (wideHeader.width ≤ ctx.width_blocks * ctx.block_size)) = some false
    ∧ ((make_ctx wideHeader (8, 0, 0, 8) 1).block_size,
        (make_ctx wideHeader (8, 0, 0, 8) 1).width_blocks) = (2 ^ 31, 2)
    ∧ make_ctx_machine { wideHeader with blocking_degree := 32 } (8, 0, 0, 8) 1 = none :=
  ⟨rfl, by decide, by decide, by decide, by decide, by decide⟩

/-- A frame assembly into an empty canvas is out of range, whatever the block holds. -/
theorem assemble_checked_empty_canvas (ctx : DecodeContext) (y x : Nat) (block_out : Bytes)
    (hcc : 0 < ctx.channel_count) (hbs : 0 < ctx.block_size) :
    assemble_checked ctx y x block_out [] = none := by
  obtain ⟨n, hn⟩ : ∃ n, ctx.channel_count = n + 1 := ⟨ctx.channel_count - 1, by omega⟩
  obtain ⟨m, hm⟩ : ∃ m, ctx.block_size = m + 1 := ⟨ctx.block_size - 1, by omega⟩
  unfold assemble_checked
  rw [hn, hm]
  simp only [List.range_succ_eq_map, loopM]
  cases h : rd block_out 0 with
  | none => simp
  | some v => simp [wr]

theorem for_list_checked_head_none {ε α β : Type} (body : α → β → Option (Except ε α))
    (f : Nat → β) (n : Nat) (a : α) (h : body a (f 0) = none) :
    for_list_checked body ((List.range (n + 1)).map f) a = none := by
  rw [List.range_succ_eq_map]
  simp only [List.map_cons, for_list_checked, h]

/-- The checked block loop started on the buffers the code allocates, when the canvas size
has wrapped to 0 and the first transformer code is obtained: the frame assembly of the first
block is out of range. -/
theorem block_loop_empty_canvas {σ τ : Type} (D : Decoder σ τ) (K : EriImage)
    (header : EriHeader) (ctx : DecodeContext) (codes : List Nat) (s : σ) (t : τ)
    (r : Nat × Front σ τ)
    (hbs : 0 < ctx.block_size)
    (harea : ctx.block_area = ctx.block_size * ctx.block_size)
    (hsamples : ctx.block_samples = ctx.block_area * ctx.channel_count)
    (hstride : ctx.block_stride = ctx.block_size * ctx.channel_count)
    (hcc : 3 ≤ ctx.channel_count) (hwb : 0 < ctx.width_blocks) (hhb : 0 < ctx.height_blocks)
    (hrow : ctx.block_stride ≤ size_t (ctx.width_blocks * ctx.block_stride))
    (hcol : ctx.block_stride ≤ size_t (ctx.height_blocks * ctx.block_stride))
    (hcanvas : size_t (ctx.width_blocks * ctx.height_blocks * ctx.block_samples) = 0)
    (hcode : get_transformer_code D K header ctx codes
      (initial_state_machine ctx s t).front = .ok r) :
    for_list_checked (decode_block_row_checked D K header ctx (init_permutation ctx) codes)
      (List.range ctx.height_blocks) (initial_state_machine ctx s t) = none := by
  have hblock : decode_block_checked D K header ctx (init_permutation ctx) codes 0
      (initial_state_machine ctx s t) 0 = none := by
    obtain ⟨code, front⟩ := r
    have hout : (initial_state_machine ctx s t).output = [] := by
      show bstr (size_t _) = []
      rw [hcanvas]
      rfl
    have hT := transform_checked_eq code ctx
      (store_bytes (initial_state_machine ctx s t).arrange_buf.length
        (D.decode (initial_state_machine ctx s t).arrange_buf.length front.dec).1)
      (0 * ctx.block_stride) (0 * ctx.block_stride) (initial_state_machine ctx s t).buffers
      hbs harea hsamples hstride
      (by rw [store_bytes_length]; exact bstr_length _) (bstr_length _)
      (by
        show 0 * ctx.block_stride + ctx.block_stride ≤ (bstr _).length
        rw [bstr_length, Nat.zero_mul, Nat.zero_add]
        exact hrow)
      (by
        show 0 * ctx.block_stride + ctx.block_stride ≤ (bstr _).length
        rw [bstr_length, Nat.zero_mul, Nat.zero_add]
        exact hcol)
      (Or.inr hcc)
    unfold decode_block_checked
    simp only [hcode, hT, Option.some_bind, hout,
      assemble_checked_empty_canvas ctx 0 0 _ (by omega) hbs, Option.none_bind]
  have hrow0 : decode_block_row_checked D K header ctx (init_permutation ctx) codes
      (initial_state_machine ctx s t) 0 = none := by
    unfold decode_block_row_checked
    obtain ⟨n, hn⟩ : ∃ n, ctx.width_blocks = n + 1 := ⟨ctx.width_blocks - 1, by omega⟩
    rw [hn]
    have := for_list_checked_head_none
      (decode_block_checked D K header ctx (init_permutation ctx) codes 0) id n
      (initial_state_machine ctx s t) hblock
    rw [List.map_id] at this
    exact this
  obtain ⟨n, hn⟩ : ∃ n, ctx.height_blocks = n + 1 := ⟨ctx.height_blocks - 1, by omega⟩
  rw [hn]
  have := for_list_checked_head_none
    (decode_block_row_checked D K header ctx (init_permutation ctx) codes) id n
    (initial_state_machine ctx s t) hrow0
  rw [List.map_id] at this
  exact this

/-- C23: two accesses out of range.  (1) On a header the validation accepts (RGBA, 32 bits,
`2 ^ 31 - 1` by `2 ^ 31 - 1` pixels, `blocking_degree = 1`, fields `8, 0, 0, 8`) the context
is computed without overflow (block size 2, 16 samples per block, `2 ^ 30` by `2 ^ 30`
blocks) and the row and column state have `2 ^ 33` bytes each, but the canvas size
`width_blocks * height_blocks * block_samples` is `2 ^ 64`, which wraps to 0 in `size_t`:
the canvas is empty, and the frame assembly of the first block, whatever `block_out` holds,
writes out of range; so the checked block loop, started on the buffers the code allocates,
reports an access out of range whatever the front-end state.  (2) In the sample grayscale
decode, as in every decode outside bulk mode, the vector of prefetched codes is empty, so
index 0 (`&transformer_codes[0]`) is outside it. -/
theorem canvas_overflow_out_of_range :
    get_channel_count sampleImage hugeHeader = .ok 4
    ∧ make_ctx_machine hugeHeader (8, 0, 0, 8) 4 = some (make_ctx hugeHeader (8, 0, 0, 8) 4)
    ∧ validate_ctx (make_ctx hugeHeader (8, 0, 0, 8) 4) hugeHeader = .ok ()
    ∧ ((make_ctx hugeHeader (8, 0, 0, 8) 4).block_size,
        (make_ctx hugeHeader (8, 0, 0, 8) 4).block_samples,
        (make_ctx hugeHeader (8, 0, 0, 8) 4).block_stride,
        (make_ctx hugeHeader (8, 0, 0, 8) 4).width_blocks,
        (make_ctx hugeHeader (8, 0, 0, 8) 4).height_blocks) = (2, 16, 8, 2 ^ 30, 2 ^ 30)
    ∧ (size_t ((make_ctx hugeHeader (8, 0, 0, 8) 4).height_blocks
          * (make_ctx hugeHeader (8, 0, 0, 8) 4).block_stride),
        size_t ((make_ctx hugeHeader (8, 0, 0, 8) 4).width_blocks
          * (make_ctx hugeHeader (8, 0, 0, 8) 4).block_stride),
        size_t ((make_ctx hugeHeader (8, 0, 0, 8) 4).width_blocks
          * (make_ctx hugeHeader (8, 0, 0, 8) 4).height_blocks
          * (make_ctx hugeHeader (8, 0, 0, 8) 4).block_samples)) = (2 ^ 33, 2 ^ 33, 0)
    ∧ (initial_state_machine (make_ctx hugeHeader (8, 0, 0, 8) 4) (script [] []) ()).output = []
    ∧ (∀ block_out : Bytes,
        assemble_checked (make_ctx hugeHeader (8, 0, 0, 8) 4) 0 0 block_out
          (initial_state_machine (make_ctx hugeHeader (8, 0, 0, 8) 4) (script [] []) ()).output
          = none)
    ∧ (∀ s : Script,
        for_list_checked
          (decode_block_row_checked (scripted false) sampleImage hugeHeader
            (make_ctx hugeHeader (8, 0, 0, 8) 4)
            (init_permutation (make_ctx hugeHeader (8, 0, 0, 8) 4)) [])
          (List.range (make_ctx hugeHeader (8, 0, 0, 8) 4).height_blocks)
          (initial_state_machine (make_ctx hugeHeader (8, 0, 0, 8) 4) s ()) = none)
    ∧ decode_setup (scripted false) sampleImage (grayHeader Architecture.RunLengthGamma)
        grayStream = .ok graySetup
    ∧ graySetup.transformer_codes = []
    ∧ rd graySetup.transformer_codes 0 = none := by
  have hout : (initial_state_machine (make_ctx hugeHeader (8, 0, 0, 8) 4)
      (script [] []) ()).output = [] := by decide
  refine ⟨rfl, by decide, rfl, by decide, by decide, hout, ?_, ?_, rfl, rfl, rfl⟩
  · intro block_out
    rw [hout]
    exact assemble_checked_empty_canvas _ 0 0 block_out (by decide) (by decide)
  · intro s
    exact block_loop_empty_canvas (scripted false) sampleImage hugeHeader
      (make_ctx hugeHeader (8, 0, 0, 8) 4) [] s () _ (by decide) (by decide) (by decide)
      (by decide) (by decide) (by decide) (by decide) (by decide) (by decide) (by decide) rfl

end Entis
